import Mathlib

/-!
# multiTenancyPlugins: `utils/utils.go`

A shallow embedding of the request classifier (`commandParser`, `ParseCommand`),
of the tenant-ownership checks (`IsResourceOwner`, `VerifyExecContainerTenant`),
of the name prefix (`ConstructNetworkPrefix`) and of the response sanitizing
(`CleanUpLabeling`, `FilterNetworks`) of `utils/utils.go`, together with the
statements proved about them.

Modelling choices:

* a Go string is modelled by `String`, read as its list of characters
  (`String.data`).  Every character the code and its patterns inspect (`/`,
  newline, `?`, the word characters, the letters of the literals) is ASCII, so
  reading a string by characters or by bytes gives the same matches;
* a Go slice of strings is a `List String`, the nil slice being `[]`, and
  `len` is `List.length`;
* an expression that can panic has a result in `Except Panic`;
* the package-level variables `invMapmap` and `initialized` are passed in and
  out of `ParseCommand` explicitly;
* the constants of package `headers`, which is not part of the sources, are
  parameters;
* a byte slice (a response body) is modelled by `String` as well;
* `strings.ToLower` maps every character through the case table of package
  `unicode`, which is data of the Unicode character database (version 14.0.0
  here) and is written out as a list of ranges;
* the header map of a request is given by its method `Get`, the route
  variables `mux.Vars(r)` by a map, and JSON decoding and encoding of a network
  list by a pair of functions that can fail;
* the snapshot and a decoded network list hold records, not pointers;
* logging calls are left out.
-/

namespace Utils

/-! ## Go run-time model -/

/-- Run-time panics the embedded code can raise. -/
inductive Panic where
  /-- Go's "index out of range [i] with length n". -/
  | indexOutOfRange (i n : Nat)
  deriving DecidableEq, Repr

deriving instance DecidableEq for Except

/-- Slice indexing `xs[i]`, which panics when `i` is not below `len(xs)`. -/
def index (xs : List String) (i : Nat) : Except Panic String :=
  match xs[i]? with
  | some x => .ok x
  | none => .error (.indexOutOfRange i xs.length)

/-- Go's `strings.HasPrefix`. -/
def HasPrefix (s pre : String) : Bool :=
  pre.data.isPrefixOf s.data

/-- Go's `strings.HasSuffix`. -/
def HasSuffix (s suffix : String) : Bool :=
  suffix.data.isSuffixOf s.data

/-- Does `sub` occur in `s` at some position (on character lists). -/
def containsList (sub : List Char) : List Char → Bool
  | [] => sub.isPrefixOf []
  | c :: s => sub.isPrefixOf (c :: s) || containsList sub s

/-- Go's `strings.Contains`. -/
def Contains (s substr : String) : Bool :=
  containsList substr.data s.data

/-! ## The fragment of Go's `regexp` used by the five patterns

Go's `regexp` returns the leftmost match and, among the matches starting
there, the one a backtracking search finds first (greedy repetition first,
left alternative first).  The matcher below is that backtracking search,
written in continuation-passing style.
-/

namespace Regexp

/-- Character classes occurring in the patterns. -/
inductive Class where
  /-- The class `.`: every character except newline. -/
  | dot
  /-- The class `\w`: `[0-9A-Za-z_]`. -/
  | word

/-- Membership of a character in a class. -/
def Class.test : Class → Char → Bool
  | .dot, c => c != '\n'
  | .word, c => c.isAlphanum || c == '_'

/-- Regular expressions (the fragment the patterns are written in). -/
inductive Re where
  /-- A literal string. -/
  | lit (s : String)
  /-- Greedy `c*` over a character class. -/
  | star (c : Class)
  /-- Greedy `c+` over a character class. -/
  | plus (c : Class)
  /-- The `i`-th capturing group `( r )`. -/
  | group (i : Nat) (r : Re)
  /-- Concatenation. -/
  | seq (a b : Re)
  /-- Alternation `a|b`, preferring `a`. -/
  | alt (a b : Re)

/-- Number of capturing groups (Go's `NumSubexp`). -/
def Re.numSubexp : Re → Nat
  | .lit _ => 0
  | .star _ => 0
  | .plus _ => 0
  | .group _ r => r.numSubexp + 1
  | .seq a b => a.numSubexp + b.numSubexp
  | .alt a b => a.numSubexp + b.numSubexp

/-- Captured texts, indexed by group number; index 0 is the whole match. -/
abbrev Caps := List (List Char)

/-- Remove the literal `l` from the front of `s`, if it is there. -/
def stripPrefix : List Char → List Char → Option (List Char)
  | [], s => some s
  | _ :: _, [] => none
  | a :: l, b :: s => if a = b then stripPrefix l s else none

/-- Greedy repetition of a one-character test: consume as many characters as
possible, giving one back at a time while the continuation fails. -/
def starRun (p : Char → Bool) : List Char → (List Char → Option Caps) → Option Caps
  | [], k => k []
  | c :: cs, k =>
    if p c then
      match starRun p cs k with
      | some r => some r
      | none => k (c :: cs)
    else k (c :: cs)

/-- The text consumed between the input `s` and its remainder `s'`. -/
def consumed (s s' : List Char) : List Char :=
  s.take (s.length - s'.length)

/-- Backtracking match of `r` at the front of the input, then the continuation
on the remaining input. -/
def Re.run : Re → List Char → Caps → (List Char → Caps → Option Caps) → Option Caps
  | .lit l, s, caps, k =>
    match stripPrefix l.data s with
    | some s' => k s' caps
    | none => none
  | .star c, s, caps, k => starRun c.test s (fun s' => k s' caps)
  | .plus c, s, caps, k =>
    match s with
    | [] => none
    | x :: s' => if c.test x then starRun c.test s' (fun s'' => k s'' caps) else none
  | .group i r, s, caps, k =>
    r.run s caps (fun s' caps' => k s' (caps'.set i (consumed s s')))
  | .seq a b, s, caps, k => a.run s caps (fun s' caps' => b.run s' caps' k)
  | .alt a b, s, caps, k =>
    match a.run s caps k with
    | some r => some r
    | none => b.run s caps k

/-- Match `r` at the front of `s`: the captures of the first match found. -/
def matchHere (r : Re) (s : List Char) : Option Caps :=
  r.run s (List.replicate (r.numSubexp + 1) []) (fun s' caps => some (caps.set 0 (consumed s s')))

/-- Leftmost match: try every start position from left to right. -/
def find (r : Re) : List Char → Option Caps
  | [] => matchHere r []
  | c :: s =>
    match matchHere r (c :: s) with
    | some caps => some caps
    | none => find r s

/-- Go's `(*Regexp).FindStringSubmatch`: the nil slice when there is no match,
otherwise the whole match followed by the text of each group (the empty
string for a group that took no part in the match). -/
def FindStringSubmatch (r : Re) (s : String) : List String :=
  match find r s.data with
  | some caps => caps.map String.mk
  | none => []

end Regexp

open Regexp

/-! ## Request classification -/

/-- The parts of `*http.Request` the classifier reads. -/
structure Request where
  /-- The field `r.Method`. -/
  Method : String
  /-- The field `r.URL.Path`. -/
  Path : String
  /-- The field `r.RequestURI`. -/
  RequestURI : String
  deriving DecidableEq, Repr

/-- The pattern `"/containers/(.*)/(.*)|/containers/(\\w+)"`. -/
def containersRegexp : Re :=
  .alt (.seq (.lit "/containers/") (.seq (.group 1 (.star .dot)) (.seq (.lit "/") (.group 2 (.star .dot)))))
       (.seq (.lit "/containers/") (.group 3 (.plus .word)))

/-- The pattern `"/networks/(.*)/(.*)|/networks/(\\w+)"`. -/
def networksRegexp : Re :=
  .alt (.seq (.lit "/networks/") (.seq (.group 1 (.star .dot)) (.seq (.lit "/") (.group 2 (.star .dot)))))
       (.seq (.lit "/networks/") (.group 3 (.plus .word)))

/-- The pattern `"/volumes/(.*)/(.*)|/volumes/(\\w+)"`. -/
def volumesRegexp : Re :=
  .alt (.seq (.lit "/volumes/") (.seq (.group 1 (.star .dot)) (.seq (.lit "/") (.group 2 (.star .dot)))))
       (.seq (.lit "/volumes/") (.group 3 (.plus .word)))

/-- The pattern `"/(.*)/(.*)"`. -/
def clusterRegExp : Re :=
  .seq (.lit "/") (.seq (.group 1 (.star .dot)) (.seq (.lit "/") (.group 2 (.star .dot))))

/-- The pattern `"/images/(.*)/(.*)|/images/(\\w+)"`. -/
def imagesRegexp : Re :=
  .alt (.seq (.lit "/images/") (.seq (.group 1 (.star .dot)) (.seq (.lit "/") (.group 2 (.star .dot)))))
       (.seq (.lit "/images/") (.group 3 (.plus .word)))

/-- The string returned by the last line of `commandParser`. -/
def unsupported : String :=
  "This is not supported yet and will end up in the default of the Switch"

/-- The `case "GET", "POST":` arm of `commandParser`. -/
def commandParserGetPost (r : Request)
    (containersParams networksParams volumesParams clusterParams imagesParams : List String) :
    Except Panic String := do
  if containersParams.length = 4 then
    if (← index containersParams 2) ≠ "" then
      return "container" ++ (← index containersParams 2)
    else if (← index containersParams 3) ≠ "" then
      return "containers" ++ (← index containersParams 3)
  if imagesParams.length = 4 then
    if (← index imagesParams 2) ≠ "" then
      return "image" ++ (← index imagesParams 2)
    else if (← index imagesParams 3) ≠ "" then
      return "images" ++ (← index imagesParams 3)
  if HasSuffix r.Path "/networks" then
    return "networkslist"
  if networksParams.length = 4 then
    if (← index networksParams 3) ≠ "" then
      if (← index networksParams 3) = "create" then
        return "networkcreate"
      return "networkinspect"
    else
      return "network" ++ (← index networksParams 2)
  if HasSuffix r.Path "/volumes" || HasSuffix r.Path "/volumes/" ||
      Contains r.RequestURI "/volumes?" then
    return "volumeslist"
  if volumesParams.length = 4 then
    if (← index volumesParams 3) = "create" then
      return "volumecreate"
    return "volumeinspect"
  if clusterParams.length = 3 then
    if (← index clusterParams 2) = "start" || (← index clusterParams 2) = "resize" ||
        (← index clusterParams 2) = "json" then
      return "exec" ++ (← index clusterParams 2)
  return (← index clusterParams 2)

/-- The function `commandParser`. -/
def commandParser (r : Request) : Except Panic String :=
  let containersParams := FindStringSubmatch containersRegexp r.Path
  let networksParams := FindStringSubmatch networksRegexp r.Path
  let volumesParams := FindStringSubmatch volumesRegexp r.Path
  let clusterParams := FindStringSubmatch clusterRegExp r.Path
  let imagesParams := FindStringSubmatch imagesRegexp r.Path
  if r.Method = "DELETE" then
    if containersParams.length > 0 then .ok "containerdelete"
    else if networksParams.length > 0 then .ok "networkdelete"
    else if imagesParams.length > 0 then .ok "imagedelete"
    else if volumesParams.length > 0 then .ok "volumedelete"
    else .ok unsupported
  else if r.Method = "GET" ∨ r.Method = "POST" then
    commandParserGetPost r containersParams networksParams volumesParams clusterParams imagesParams
  else .ok unsupported

/-- The common shape `L(.*)/(.*)|L(\w+)` of the four resource-family patterns,
for the literal `L`. -/
def familyRe (L : String) : Re :=
  .alt (.seq (.lit L) (.seq (.group 1 (.star .dot)) (.seq (.lit "/") (.group 2 (.star .dot)))))
       (.seq (.lit L) (.group 3 (.plus .word)))

/-! ## The command table -/

/-- A Go `map[string]string`, as an association list with distinct keys. -/
abbrev GoMap := List (String × String)

/-- The empty map of `make(map[string]CommandEnum)`. -/
def GoMap.make : GoMap :=
  []

/-- The assignment `m[k] = v`. -/
def GoMap.assign (m : GoMap) (k v : String) : GoMap :=
  (k, v) :: m.filter (fun e => e.1 != k)

/-- The read `m[k]`, which is the empty string when `k` is not a key (also on
the nil map). -/
def GoMap.index (m : GoMap) (k : String) : String :=
  (m.lookup k).getD ""

/-- The type `CommandEnum`, a string type. -/
abbrev CommandEnum := String

def PING : CommandEnum := "ping"
def EVENTS : CommandEnum := "events"
def INFO : CommandEnum := "info"
def VERSION : CommandEnum := "version"
def PS : CommandEnum := "containersps"
def JSON : CommandEnum := "containersjson"
def CONTAINER_ARCHIVE : CommandEnum := "containerarchive"
def CONTAINER_EXPORT : CommandEnum := "containerexport"
def CONTAINER_IMPORT : CommandEnum := "containerimport"
def CONTAINER_CHANGES : CommandEnum := "containerchanges"
def CONTAINER_JSON : CommandEnum := "containerjson"
def CONTAINER_TOP : CommandEnum := "containertop"
def CONTAINER_LOGS : CommandEnum := "containerlogs"
def CONTAINER_STATS : CommandEnum := "containerstats"
def NETWORKS_LIST : CommandEnum := "networkslist"
def NETWORK_INSPECT : CommandEnum := "networkinspect"
def NETWORK_CONNECT : CommandEnum := "networkconnect"
def NETWORK_DISCONNECT : CommandEnum := "networkdisconnect"
def NETWORK_CREATE : CommandEnum := "networkcreate"
def NETWORK_DELETE : CommandEnum := "networkdelete"
def VOLUMES_LIST : CommandEnum := "volumeslist"
def VOLUME_INSPECT : CommandEnum := "volumeinspect"
def VOLUME_CREATE : CommandEnum := "volumecreate"
def VOLUME_DELETE : CommandEnum := "volumedelete"
def CONTAINER_CREATE : CommandEnum := "containerscreate"
def CONTAINER_KILL : CommandEnum := "containerkill"
def CONTAINER_PAUSE : CommandEnum := "containerpause"
def CONTAINER_UNPAUSE : CommandEnum := "containerunpause"
def CONTAINER_RENAME : CommandEnum := "containerrename"
def CONTAINER_RESTART : CommandEnum := "containerrestart"
def CONTAINER_START : CommandEnum := "containerstart"
def CONTAINER_STOP : CommandEnum := "containerstop"
def CONTAINER_UPDATE : CommandEnum := "containerupdate"
def CONTAINER_WAIT : CommandEnum := "containerwait"
def CONTAINER_RESIZE : CommandEnum := "containerresize"
def CONTAINER_ATTACH : CommandEnum := "containerattach"
def CONTAINER_COPY : CommandEnum := "containercopy"
def CONTAINER_EXEC : CommandEnum := "containerexec"
def EXEC_START : CommandEnum := "execstart"
def EXEC_RESIZE : CommandEnum := "execresize"
def EXEC_JSON : CommandEnum := "execjson"
def CONTAINER_DELETE : CommandEnum := "containerdelete"
def IMAGES_JSON : CommandEnum := "imagesjson"
def IMAGE_PULL : CommandEnum := "imagescreate"
def IMAGE_SEARCH : CommandEnum := "imagessearch"
def IMAGE_JSON : CommandEnum := "imagejson"
def IMAGE_HISTORY : CommandEnum := "imagehistory"

/-- Every constant of the `CommandEnum` block, in declaration order. -/
def commandEnumConstants : List CommandEnum :=
  [PING, EVENTS, INFO, VERSION, PS, JSON, CONTAINER_ARCHIVE, CONTAINER_EXPORT, CONTAINER_IMPORT,
   CONTAINER_CHANGES, CONTAINER_JSON, CONTAINER_TOP, CONTAINER_LOGS, CONTAINER_STATS,
   NETWORKS_LIST, NETWORK_INSPECT, NETWORK_CONNECT, NETWORK_DISCONNECT, NETWORK_CREATE,
   NETWORK_DELETE, VOLUMES_LIST, VOLUME_INSPECT, VOLUME_CREATE, VOLUME_DELETE,
   CONTAINER_CREATE, CONTAINER_KILL, CONTAINER_PAUSE, CONTAINER_UNPAUSE, CONTAINER_RENAME,
   CONTAINER_RESTART, CONTAINER_START, CONTAINER_STOP, CONTAINER_UPDATE, CONTAINER_WAIT,
   CONTAINER_RESIZE, CONTAINER_ATTACH, CONTAINER_COPY, CONTAINER_EXEC, EXEC_START, EXEC_RESIZE,
   EXEC_JSON, CONTAINER_DELETE, IMAGES_JSON, IMAGE_PULL, IMAGE_SEARCH, IMAGE_JSON, IMAGE_HISTORY]

/-- The package-level variables `invMapmap` and `initialized`. -/
structure Globals where
  /-- The variable `invMapmap`. -/
  invMapmap : GoMap
  /-- The variable `initialized`. -/
  initialized : Bool
  deriving DecidableEq, Repr

/-- The package-level variables at program start: a nil map and `false`. -/
def Globals.start : Globals :=
  { invMapmap := [], initialized := false }

/-- The table built by the `if !initialized` block of `ParseCommand`. -/
def buildInvMapmap : GoMap :=
  GoMap.make
  |>.assign "ping" PING
  |>.assign "events" EVENTS
  |>.assign "info" INFO
  |>.assign "version" VERSION
  |>.assign "containersps" PS
  |>.assign "containersjson" JSON
  |>.assign "containerarchive" CONTAINER_ARCHIVE
  |>.assign "containerexport" CONTAINER_EXPORT
  |>.assign "containerimport" CONTAINER_IMPORT
  |>.assign "containerchanges" CONTAINER_CHANGES
  |>.assign "containerjson" CONTAINER_JSON
  |>.assign "containertop" CONTAINER_TOP
  |>.assign "containerlogs" CONTAINER_LOGS
  |>.assign "containerstats" CONTAINER_STATS
  |>.assign "networkslist" NETWORKS_LIST
  |>.assign "networkinspect" NETWORK_INSPECT
  |>.assign "networkconnect" NETWORK_CONNECT
  |>.assign "networkdisconnect" NETWORK_DISCONNECT
  |>.assign "networkcreate" NETWORK_CREATE
  |>.assign "networkdelete" NETWORK_DELETE
  |>.assign "volumeslist" VOLUMES_LIST
  |>.assign "volumeinspect" VOLUME_INSPECT
  |>.assign "volumecreate" VOLUME_CREATE
  |>.assign "volumedelete" VOLUME_DELETE
  |>.assign "containerscreate" CONTAINER_CREATE
  |>.assign "containerkill" CONTAINER_KILL
  |>.assign "containerpause" CONTAINER_PAUSE
  |>.assign "containerunpause" CONTAINER_UNPAUSE
  |>.assign "containerrename" CONTAINER_RENAME
  |>.assign "containerrestart" CONTAINER_RESTART
  |>.assign "containerstart" CONTAINER_START
  |>.assign "containerstop" CONTAINER_STOP
  |>.assign "containerupdate" CONTAINER_UPDATE
  |>.assign "containerwait" CONTAINER_WAIT
  |>.assign "containerresize" CONTAINER_RESIZE
  |>.assign "containerattach" CONTAINER_ATTACH
  |>.assign "containercopy" CONTAINER_COPY
  |>.assign "containerexec" CONTAINER_EXEC
  |>.assign "execstart" EXEC_START
  |>.assign "execresize" EXEC_RESIZE
  |>.assign "execjson" EXEC_JSON
  |>.assign "containerdelete" CONTAINER_DELETE
  |>.assign "imagesjson" IMAGES_JSON
  |>.assign "imagescreate" IMAGE_PULL
  |>.assign "imagessearch" IMAGE_SEARCH
  |>.assign "imagejson" IMAGE_JSON
  |>.assign "imagehistory" IMAGE_HISTORY

/-- The function `ParseCommand`, as a function of the package-level variables:
it returns the command (or the panic raised by `commandParser`) and the
package-level variables after the call. -/
def ParseCommand (g : Globals) (r : Request) : Except Panic CommandEnum × Globals :=
  let g1 : Globals :=
    if !g.initialized then { invMapmap := buildInvMapmap, initialized := true } else g
  (match commandParser r with
   | .ok c => .ok (g1.invMapmap.index c)
   | .error e => .error e,
   g1)

/-- The package-level variables that a run of the program can reach: the start
values, and the values left by any call of `ParseCommand`. -/
inductive Reachable : Globals → Prop where
  /-- Program start. -/
  | start : Reachable Globals.start
  /-- One more call of `ParseCommand`. -/
  | call (g : Globals) (r : Request) : Reachable g → Reachable (ParseCommand g r).2

/-! ## Tenant ownership -/

/-- The constants of package `headers` read by `utils.go`; the package is not
part of the sources, so its constants are parameters of the functions using
them. -/
structure Headers where
  /-- The constant `headers.TenancyLabel`. -/
  TenancyLabel : String
  /-- The constant `headers.AuthZTenantIdHeaderName`. -/
  AuthZTenantIdHeaderName : String
  deriving DecidableEq, Repr

/-- The fields of `container.Info` read by `utils.go`. -/
structure ContainerJSON where
  /-- The field `Info.ID`. -/
  ID : String
  /-- The field `Info.ExecIDs`. -/
  ExecIDs : List String
  deriving DecidableEq, Repr

/-- The fields of a `cluster.Container` read by `utils.go`. -/
structure Container where
  /-- The field `Info`. -/
  Info : ContainerJSON
  /-- The field `Labels`, a `map[string]string`. -/
  Labels : GoMap
  deriving DecidableEq, Repr

/-- The fields of a `cluster.Network` read by `utils.go`. -/
structure Network where
  /-- The field `ID`. -/
  ID : String
  /-- The field `Name`. -/
  Name : String
  /-- The remaining fields of the network (scope, driver, IPAM, ...), which
  `utils.go` neither reads nor writes, as one value. -/
  Other : String := ""
  deriving DecidableEq, Repr

/-- The cluster snapshot: what `cluster.Containers()` and `cluster.Networks()`
return. -/
structure Cluster where
  /-- The result of `cluster.Containers()`. -/
  Containers : List Container
  /-- The result of `cluster.Networks()`. -/
  Networks : List Network
  deriving DecidableEq, Repr

/-! ## Letter case

Go's `strings.ToLower` maps every character of a text through
`unicode.ToLower`, which looks the character up in the case tables of the
`unicode` package.  The tables are data of the Unicode character database; they
are given here as the lists of the code points that have another lower-case or
upper-case form, and of the upper-case letters. -/

/-- One range of a column of the Unicode case table: the code points `lo`,
`lo + step`, ..., `hi` have the forms `form`, `form + step`, ... -/
structure CaseRange where
  /-- The first code point of the range. -/
  lo : Nat
  /-- The last code point of the range. -/
  hi : Nat
  /-- The distance between two code points of the range. -/
  step : Nat
  /-- The form of `lo`. -/
  form : Nat
  deriving DecidableEq, Repr

/-- The code point `n` is one of the code points of the range. -/
def CaseRange.contains (r : CaseRange) (n : Nat) : Bool :=
  decide (r.lo ≤ n) && decide (n ≤ r.hi) && (n - r.lo) % r.step == 0

/-- The ranges written as the entries `(lo, hi, step, form)` of a table. -/
def caseRanges (table : List (Nat × Nat × Nat × Nat)) : List CaseRange :=
  table.map (fun t => CaseRange.mk t.1 t.2.1 t.2.2.1 t.2.2.2)

/-- The form of a code point in a column of the case table: moved by its
range, and left as it is when it is in no range. -/
def caseForm (ranges : List CaseRange) (n : Nat) : Nat :=
  match ranges.find? (fun r => r.contains n) with
  | some r => r.form + (n - r.lo)
  | none => n

/-- The lower-case column of the case table behind Go's `unicode.ToLower`: the
code points that have another lower-case form (the simple lower-case mappings
of the Unicode character database, version 14.0.0), in increasing order, each
entry giving `lo`, `hi`, `step` and the lower-case form of `lo`. -/
def lowerCaseTable : List (Nat × Nat × Nat × Nat) :=
  [(65, 90, 1, 97), (192, 214, 1, 224), (216, 222, 1, 248), (256, 302, 2, 257),
   (304, 304, 1, 105), (306, 310, 2, 307), (313, 327, 2, 314), (330, 374, 2, 331),
   (376, 376, 1, 255), (377, 381, 2, 378), (385, 385, 1, 595), (386, 388, 2, 387),
   (390, 390, 1, 596), (391, 391, 1, 392), (393, 394, 1, 598), (395, 395, 1, 396),
   (398, 398, 1, 477), (399, 399, 1, 601), (400, 400, 1, 603), (401, 401, 1, 402),
   (403, 403, 1, 608), (404, 404, 1, 611), (406, 406, 1, 617), (407, 407, 1, 616),
   (408, 408, 1, 409), (412, 412, 1, 623), (413, 413, 1, 626), (415, 415, 1, 629),
   (416, 420, 2, 417), (422, 422, 1, 640), (423, 423, 1, 424), (425, 425, 1, 643),
   (428, 428, 1, 429), (430, 430, 1, 648), (431, 431, 1, 432), (433, 434, 1, 650),
   (435, 437, 2, 436), (439, 439, 1, 658), (440, 440, 1, 441), (444, 444, 1, 445),
   (452, 452, 1, 454), (453, 453, 1, 454), (455, 455, 1, 457), (456, 456, 1, 457),
   (458, 458, 1, 460), (459, 475, 2, 460), (478, 494, 2, 479), (497, 497, 1, 499),
   (498, 500, 2, 499), (502, 502, 1, 405), (503, 503, 1, 447), (504, 542, 2, 505),
   (544, 544, 1, 414), (546, 562, 2, 547), (570, 570, 1, 11365), (571, 571, 1, 572),
   (573, 573, 1, 410), (574, 574, 1, 11366), (577, 577, 1, 578), (579, 579, 1, 384),
   (580, 580, 1, 649), (581, 581, 1, 652), (582, 590, 2, 583), (880, 882, 2, 881),
   (886, 886, 1, 887), (895, 895, 1, 1011), (902, 902, 1, 940), (904, 906, 1, 941),
   (908, 908, 1, 972), (910, 911, 1, 973), (913, 929, 1, 945), (931, 939, 1, 963),
   (975, 975, 1, 983), (984, 1006, 2, 985), (1012, 1012, 1, 952), (1015, 1015, 1, 1016),
   (1017, 1017, 1, 1010), (1018, 1018, 1, 1019), (1021, 1023, 1, 891), (1024, 1039, 1, 1104),
   (1040, 1071, 1, 1072), (1120, 1152, 2, 1121), (1162, 1214, 2, 1163), (1216, 1216, 1, 1231),
   (1217, 1229, 2, 1218), (1232, 1326, 2, 1233), (1329, 1366, 1, 1377), (4256, 4293, 1, 11520),
   (4295, 4295, 1, 11559), (4301, 4301, 1, 11565), (5024, 5103, 1, 43888), (5104, 5109, 1, 5112),
   (7312, 7354, 1, 4304), (7357, 7359, 1, 4349), (7680, 7828, 2, 7681), (7838, 7838, 1, 223),
   (7840, 7934, 2, 7841), (7944, 7951, 1, 7936), (7960, 7965, 1, 7952), (7976, 7983, 1, 7968),
   (7992, 7999, 1, 7984), (8008, 8013, 1, 8000), (8025, 8031, 2, 8017), (8040, 8047, 1, 8032),
   (8072, 8079, 1, 8064), (8088, 8095, 1, 8080), (8104, 8111, 1, 8096), (8120, 8121, 1, 8112),
   (8122, 8123, 1, 8048), (8124, 8124, 1, 8115), (8136, 8139, 1, 8050), (8140, 8140, 1, 8131),
   (8152, 8153, 1, 8144), (8154, 8155, 1, 8054), (8168, 8169, 1, 8160), (8170, 8171, 1, 8058),
   (8172, 8172, 1, 8165), (8184, 8185, 1, 8056), (8186, 8187, 1, 8060), (8188, 8188, 1, 8179),
   (8486, 8486, 1, 969), (8490, 8490, 1, 107), (8491, 8491, 1, 229), (8498, 8498, 1, 8526),
   (8544, 8559, 1, 8560), (8579, 8579, 1, 8580), (9398, 9423, 1, 9424), (11264, 11311, 1, 11312),
   (11360, 11360, 1, 11361), (11362, 11362, 1, 619), (11363, 11363, 1, 7549),
   (11364, 11364, 1, 637), (11367, 11371, 2, 11368), (11373, 11373, 1, 593),
   (11374, 11374, 1, 625), (11375, 11375, 1, 592), (11376, 11376, 1, 594),
   (11378, 11378, 1, 11379), (11381, 11381, 1, 11382), (11390, 11391, 1, 575),
   (11392, 11490, 2, 11393), (11499, 11501, 2, 11500), (11506, 11506, 1, 11507),
   (42560, 42604, 2, 42561), (42624, 42650, 2, 42625), (42786, 42798, 2, 42787),
   (42802, 42862, 2, 42803), (42873, 42875, 2, 42874), (42877, 42877, 1, 7545),
   (42878, 42886, 2, 42879), (42891, 42891, 1, 42892), (42893, 42893, 1, 613),
   (42896, 42898, 2, 42897), (42902, 42920, 2, 42903), (42922, 42922, 1, 614),
   (42923, 42923, 1, 604), (42924, 42924, 1, 609), (42925, 42925, 1, 620),
   (42926, 42926, 1, 618), (42928, 42928, 1, 670), (42929, 42929, 1, 647),
   (42930, 42930, 1, 669), (42931, 42931, 1, 43859), (42932, 42946, 2, 42933),
   (42948, 42948, 1, 42900), (42949, 42949, 1, 642), (42950, 42950, 1, 7566),
   (42951, 42953, 2, 42952), (42960, 42960, 1, 42961), (42966, 42968, 2, 42967),
   (42997, 42997, 1, 42998), (65313, 65338, 1, 65345), (66560, 66599, 1, 66600),
   (66736, 66771, 1, 66776), (66928, 66938, 1, 66967), (66940, 66954, 1, 66979),
   (66956, 66962, 1, 66995), (66964, 66965, 1, 67003), (68736, 68786, 1, 68800),
   (71840, 71871, 1, 71872), (93760, 93791, 1, 93792), (125184, 125217, 1, 125218)]

/-- The upper-case column of the case table behind Go's `unicode.ToUpper`: the
code points that have another upper-case form (the simple upper-case mappings
of the Unicode character database, version 14.0.0), in increasing order, each
entry giving `lo`, `hi`, `step` and the upper-case form of `lo`. -/
def upperCaseTable : List (Nat × Nat × Nat × Nat) :=
  [(97, 122, 1, 65), (181, 181, 1, 924), (224, 246, 1, 192), (248, 254, 1, 216),
   (255, 255, 1, 376), (257, 303, 2, 256), (305, 305, 1, 73), (307, 311, 2, 306),
   (314, 328, 2, 313), (331, 375, 2, 330), (378, 382, 2, 377), (383, 383, 1, 83),
   (384, 384, 1, 579), (387, 389, 2, 386), (392, 392, 1, 391), (396, 396, 1, 395),
   (402, 402, 1, 401), (405, 405, 1, 502), (409, 409, 1, 408), (410, 410, 1, 573),
   (414, 414, 1, 544), (417, 421, 2, 416), (424, 424, 1, 423), (429, 429, 1, 428),
   (432, 432, 1, 431), (436, 438, 2, 435), (441, 441, 1, 440), (445, 445, 1, 444),
   (447, 447, 1, 503), (453, 453, 1, 452), (454, 454, 1, 452), (456, 456, 1, 455),
   (457, 457, 1, 455), (459, 459, 1, 458), (460, 460, 1, 458), (462, 476, 2, 461),
   (477, 477, 1, 398), (479, 495, 2, 478), (498, 498, 1, 497), (499, 499, 1, 497),
   (501, 501, 1, 500), (505, 543, 2, 504), (547, 563, 2, 546), (572, 572, 1, 571),
   (575, 576, 1, 11390), (578, 578, 1, 577), (583, 591, 2, 582), (592, 592, 1, 11375),
   (593, 593, 1, 11373), (594, 594, 1, 11376), (595, 595, 1, 385), (596, 596, 1, 390),
   (598, 599, 1, 393), (601, 601, 1, 399), (603, 603, 1, 400), (604, 604, 1, 42923),
   (608, 608, 1, 403), (609, 609, 1, 42924), (611, 611, 1, 404), (613, 613, 1, 42893),
   (614, 614, 1, 42922), (616, 616, 1, 407), (617, 617, 1, 406), (618, 618, 1, 42926),
   (619, 619, 1, 11362), (620, 620, 1, 42925), (623, 623, 1, 412), (625, 625, 1, 11374),
   (626, 626, 1, 413), (629, 629, 1, 415), (637, 637, 1, 11364), (640, 640, 1, 422),
   (642, 642, 1, 42949), (643, 643, 1, 425), (647, 647, 1, 42929), (648, 648, 1, 430),
   (649, 649, 1, 580), (650, 651, 1, 433), (652, 652, 1, 581), (658, 658, 1, 439),
   (669, 669, 1, 42930), (670, 670, 1, 42928), (837, 837, 1, 921), (881, 883, 2, 880),
   (887, 887, 1, 886), (891, 893, 1, 1021), (940, 940, 1, 902), (941, 943, 1, 904),
   (945, 961, 1, 913), (962, 962, 1, 931), (963, 971, 1, 931), (972, 972, 1, 908),
   (973, 974, 1, 910), (976, 976, 1, 914), (977, 977, 1, 920), (981, 981, 1, 934),
   (982, 982, 1, 928), (983, 983, 1, 975), (985, 1007, 2, 984), (1008, 1008, 1, 922),
   (1009, 1009, 1, 929), (1010, 1010, 1, 1017), (1011, 1011, 1, 895), (1013, 1013, 1, 917),
   (1016, 1016, 1, 1015), (1019, 1019, 1, 1018), (1072, 1103, 1, 1040), (1104, 1119, 1, 1024),
   (1121, 1153, 2, 1120), (1163, 1215, 2, 1162), (1218, 1230, 2, 1217), (1231, 1231, 1, 1216),
   (1233, 1327, 2, 1232), (1377, 1414, 1, 1329), (4304, 4346, 1, 7312), (4349, 4351, 1, 7357),
   (5112, 5117, 1, 5104), (7296, 7296, 1, 1042), (7297, 7297, 1, 1044), (7298, 7298, 1, 1054),
   (7299, 7300, 1, 1057), (7301, 7301, 1, 1058), (7302, 7302, 1, 1066), (7303, 7303, 1, 1122),
   (7304, 7304, 1, 42570), (7545, 7545, 1, 42877), (7549, 7549, 1, 11363),
   (7566, 7566, 1, 42950), (7681, 7829, 2, 7680), (7835, 7835, 1, 7776), (7841, 7935, 2, 7840),
   (7936, 7943, 1, 7944), (7952, 7957, 1, 7960), (7968, 7975, 1, 7976), (7984, 7991, 1, 7992),
   (8000, 8005, 1, 8008), (8017, 8023, 2, 8025), (8032, 8039, 1, 8040), (8048, 8049, 1, 8122),
   (8050, 8053, 1, 8136), (8054, 8055, 1, 8154), (8056, 8057, 1, 8184), (8058, 8059, 1, 8170),
   (8060, 8061, 1, 8186), (8064, 8071, 1, 8072), (8080, 8087, 1, 8088), (8096, 8103, 1, 8104),
   (8112, 8113, 1, 8120), (8115, 8115, 1, 8124), (8126, 8126, 1, 921), (8131, 8131, 1, 8140),
   (8144, 8145, 1, 8152), (8160, 8161, 1, 8168), (8165, 8165, 1, 8172), (8179, 8179, 1, 8188),
   (8526, 8526, 1, 8498), (8560, 8575, 1, 8544), (8580, 8580, 1, 8579), (9424, 9449, 1, 9398),
   (11312, 11359, 1, 11264), (11361, 11361, 1, 11360), (11365, 11365, 1, 570),
   (11366, 11366, 1, 574), (11368, 11372, 2, 11367), (11379, 11379, 1, 11378),
   (11382, 11382, 1, 11381), (11393, 11491, 2, 11392), (11500, 11502, 2, 11499),
   (11507, 11507, 1, 11506), (11520, 11557, 1, 4256), (11559, 11559, 1, 4295),
   (11565, 11565, 1, 4301), (42561, 42605, 2, 42560), (42625, 42651, 2, 42624),
   (42787, 42799, 2, 42786), (42803, 42863, 2, 42802), (42874, 42876, 2, 42873),
   (42879, 42887, 2, 42878), (42892, 42892, 1, 42891), (42897, 42899, 2, 42896),
   (42900, 42900, 1, 42948), (42903, 42921, 2, 42902), (42933, 42947, 2, 42932),
   (42952, 42954, 2, 42951), (42961, 42961, 1, 42960), (42967, 42969, 2, 42966),
   (42998, 42998, 1, 42997), (43859, 43859, 1, 42931), (43888, 43967, 1, 5024),
   (65345, 65370, 1, 65313), (66600, 66639, 1, 66560), (66776, 66811, 1, 66736),
   (66967, 66977, 1, 66928), (66979, 66993, 1, 66940), (66995, 67001, 1, 66956),
   (67003, 67004, 1, 66964), (68800, 68850, 1, 68736), (71872, 71903, 1, 71840),
   (93792, 93823, 1, 93760), (125218, 125251, 1, 125184)]

/-- The table `unicode.Lu` behind Go's `unicode.IsUpper`: the upper-case
letters (general category Lu of the Unicode character database, version
14.0.0), in increasing order, each entry giving `lo`, `hi` and `step`. -/
def upperLetterTable : List (Nat × Nat × Nat) :=
  [(65, 90, 1), (192, 214, 1), (216, 222, 1), (256, 310, 2), (313, 327, 2), (330, 376, 2),
   (377, 381, 2), (385, 386, 1), (388, 390, 2), (391, 393, 2), (394, 395, 1), (398, 401, 1),
   (403, 404, 1), (406, 408, 1), (412, 413, 1), (415, 416, 1), (418, 422, 2), (423, 425, 2),
   (428, 430, 2), (431, 433, 2), (434, 435, 1), (437, 439, 2), (440, 440, 1), (444, 444, 1),
   (452, 452, 1), (455, 455, 1), (458, 458, 1), (461, 475, 2), (478, 494, 2), (497, 497, 1),
   (500, 502, 2), (503, 504, 1), (506, 562, 2), (570, 571, 1), (573, 574, 1), (577, 579, 2),
   (580, 582, 1), (584, 590, 2), (880, 882, 2), (886, 886, 1), (895, 895, 1), (902, 904, 2),
   (905, 906, 1), (908, 910, 2), (911, 913, 2), (914, 929, 1), (931, 939, 1), (975, 975, 1),
   (978, 980, 1), (984, 1006, 2), (1012, 1012, 1), (1015, 1017, 2), (1018, 1018, 1),
   (1021, 1071, 1), (1120, 1152, 2), (1162, 1216, 2), (1217, 1229, 2), (1232, 1326, 2),
   (1329, 1366, 1), (4256, 4293, 1), (4295, 4295, 1), (4301, 4301, 1), (5024, 5109, 1),
   (7312, 7354, 1), (7357, 7359, 1), (7680, 7828, 2), (7838, 7934, 2), (7944, 7951, 1),
   (7960, 7965, 1), (7976, 7983, 1), (7992, 7999, 1), (8008, 8013, 1), (8025, 8031, 2),
   (8040, 8047, 1), (8120, 8123, 1), (8136, 8139, 1), (8152, 8155, 1), (8168, 8172, 1),
   (8184, 8187, 1), (8450, 8450, 1), (8455, 8455, 1), (8459, 8461, 1), (8464, 8466, 1),
   (8469, 8469, 1), (8473, 8477, 1), (8484, 8490, 2), (8491, 8493, 1), (8496, 8499, 1),
   (8510, 8511, 1), (8517, 8517, 1), (8579, 8579, 1), (11264, 11311, 1), (11360, 11362, 2),
   (11363, 11364, 1), (11367, 11373, 2), (11374, 11376, 1), (11378, 11378, 1), (11381, 11381, 1),
   (11390, 11392, 1), (11394, 11490, 2), (11499, 11501, 2), (11506, 11506, 1), (42560, 42604, 2),
   (42624, 42650, 2), (42786, 42798, 2), (42802, 42862, 2), (42873, 42877, 2), (42878, 42886, 2),
   (42891, 42893, 2), (42896, 42898, 2), (42902, 42922, 2), (42923, 42926, 1), (42928, 42932, 1),
   (42934, 42948, 2), (42949, 42951, 1), (42953, 42953, 1), (42960, 42960, 1), (42966, 42968, 2),
   (42997, 42997, 1), (65313, 65338, 1), (66560, 66599, 1), (66736, 66771, 1), (66928, 66938, 1),
   (66940, 66954, 1), (66956, 66962, 1), (66964, 66965, 1), (68736, 68786, 1), (71840, 71871, 1),
   (93760, 93791, 1), (119808, 119833, 1), (119860, 119885, 1), (119912, 119937, 1),
   (119964, 119966, 2), (119967, 119967, 1), (119970, 119970, 1), (119973, 119974, 1),
   (119977, 119980, 1), (119982, 119989, 1), (120016, 120041, 1), (120068, 120069, 1),
   (120071, 120074, 1), (120077, 120084, 1), (120086, 120092, 1), (120120, 120121, 1),
   (120123, 120126, 1), (120128, 120132, 1), (120134, 120134, 1), (120138, 120144, 1),
   (120172, 120197, 1), (120224, 120249, 1), (120276, 120301, 1), (120328, 120353, 1),
   (120380, 120405, 1), (120432, 120457, 1), (120488, 120512, 1), (120546, 120570, 1),
   (120604, 120628, 1), (120662, 120686, 1), (120720, 120744, 1), (120778, 120778, 1),
   (125184, 125217, 1)]

/-- The ranges of `lowerCaseTable`. -/
def lowerCaseRanges : List CaseRange :=
  caseRanges lowerCaseTable

/-- The ranges of `upperCaseTable`. -/
def upperCaseRanges : List CaseRange :=
  caseRanges upperCaseTable

/-- Go's `unicode.ToLower` on a code point: an ASCII code point is moved when
it is one of `A`-`Z`, any other code point is looked up in the case table. -/
def toLowerCode (n : Nat) : Nat :=
  if n ≤ 127 then
    if 65 ≤ n ∧ n ≤ 90 then n + 32 else n
  else caseForm lowerCaseRanges n

/-- Go's `unicode.ToUpper` on a code point: an ASCII code point is moved when
it is one of `a`-`z`, any other code point is looked up in the case table. -/
def toUpperCode (n : Nat) : Nat :=
  if n ≤ 127 then
    if 97 ≤ n ∧ n ≤ 122 then n - 32 else n
  else caseForm upperCaseRanges n

/-- Go's `unicode.ToLower`. -/
def unicodeToLower (c : Char) : Char :=
  Char.ofNat (toLowerCode c.toNat)

/-- Go's `unicode.ToUpper`. -/
def unicodeToUpper (c : Char) : Char :=
  Char.ofNat (toUpperCode c.toNat)

/-- Go's `unicode.IsUpper`: the character is an upper-case letter. -/
def unicodeIsUpper (c : Char) : Bool :=
  upperLetterTable.any (fun t =>
    decide (t.1 ≤ c.toNat) && decide (c.toNat ≤ t.2.1) && (c.toNat - t.1) % t.2.2 == 0)

/-- Go's `strings.ToLower`: every character is replaced by its lower-case form.
A text is a sequence of Unicode characters; a Go string that is not valid
UTF-8 is outside the model. -/
def ToLower (s : String) : String :=
  String.mk (s.data.map unicodeToLower)

/-- Go's `strings.ToUpper`: every character is replaced by its upper-case
form. -/
def ToUpper (s : String) : String :=
  String.mk (s.data.map unicodeToUpper)

/-- The forms of the range `r` and the code points of the range `q` are apart:
the two intervals are disjoint, or both ranges have step 2 and the forms fall
between the code points of `q`, or `r` is a single code point whose form is
not in `q`. -/
def CaseRange.apart (r q : CaseRange) : Bool :=
  decide (r.form + (r.hi - r.lo) < q.lo) || decide (q.hi < r.form) ||
    (r.step == 2 && q.step == 2 && decide (q.lo ≤ r.form) && (r.form - q.lo) % 2 == 1) ||
    (r.lo == r.hi && !q.contains r.form)

/-- No lower-case form of the table has another lower-case form, in the table
or among the ASCII letters. -/
def lowerCaseRangesApart : Bool :=
  lowerCaseRanges.all (fun r =>
    r.apart (CaseRange.mk 65 90 1 97) && lowerCaseRanges.all (fun q => r.apart q))

/-- Every lower-case form of the table is a Unicode scalar value. -/
def lowerCaseRangesValid : Bool :=
  lowerCaseRanges.all (fun r =>
    decide (r.lo ≤ r.hi) &&
      (decide (r.form + (r.hi - r.lo) < 55296) ||
        (decide (57343 < r.form) && decide (r.form + (r.hi - r.lo) < 1114112))))

/-- The function `ConstructNetworkPrefix`. -/
def ConstructNetworkPrefix (tenantID : String) : String :=
  "s" ++ ToLower tenantID ++ "-"

/-- The loop of the `"container"` case of `IsResourceOwner`. -/
def isContainerOwner (headers : Headers) (tenantID resourceId : String) : List Container → Bool
  | [] => false
  | container :: rest =>
    if container.Info.ID = resourceId then
      container.Labels.index headers.TenancyLabel == tenantID
    else isContainerOwner headers tenantID resourceId rest

/-- The loop of the `"network"` case of `IsResourceOwner`. -/
def isNetworkOwner (tenantID resourceId : String) : List Network → Bool
  | [] => false
  | network :: rest =>
    if network.ID = resourceId then
      HasPrefix network.Name (ConstructNetworkPrefix tenantID)
    else isNetworkOwner tenantID resourceId rest

/-- The function `IsResourceOwner`. -/
def IsResourceOwner (headers : Headers) (cluster : Cluster)
    (tenantID resourceId resourceType : String) : Bool :=
  if resourceType = "container" then
    isContainerOwner headers tenantID resourceId cluster.Containers
  else if resourceType = "network" then
    isNetworkOwner tenantID resourceId cluster.Networks
  else false

/-! ## Path shapes named by the specification -/

/-- A path segment: a string free of `/` and of newline. -/
def isSegment (s : String) : Bool :=
  s.data.all (fun c => c != '/' && c != '\n')

/-- An optional leading version segment: empty, or `/` followed by one path
segment. -/
def isVersionPrefix (v : String) : Bool :=
  match v.data with
  | [] => true
  | c :: w => c == '/' && isSegment (String.mk w)

/-- A run of word characters `[0-9A-Za-z_]`. -/
def isWord (s : String) : Bool :=
  s.data.all (Class.test .word)

/-- A run of lower-case hexadecimal digits. -/
def isHex (s : String) : Bool :=
  s.data.all (fun c => c.isDigit || ('a' ≤ c && c ≤ 'f'))

/-- The pattern `r` matches somewhere in `s`, Go's `len(params) > 0`. -/
def isMatch (r : Re) (s : String) : Bool :=
  decide ((FindStringSubmatch r s).length > 0)

/-- The guard of the two-branch container (and image) rule of the
`"GET", "POST"` arm: `len(p) == 4 && p[2] != ""`, or else
`len(p) == 4 && p[3] != ""`. -/
def twoBranchGuard (p : List String) : Bool :=
  p.length == 4 && (p.getD 2 "" != "" || p.getD 3 "" != "")

/-- The path made of the given segments, each preceded by `/`. -/
def joinSegs : List (List Char) → List Char
  | [] => []
  | seg :: rest => '/' :: (seg ++ joinSegs rest)

/-! ## Exec-session ownership -/

/-- The inner loop of `VerifyExecContainerTenant` over `container.Info.ExecIDs`:
the returned verdict, or `none` when the loop ends without returning. -/
def verifyExecIDs (headers : Headers) (tenantId : String) (vars : GoMap) (container : Container) :
    List String → Option Bool
  | [] => none
  | execID :: rest =>
    if execID = vars.index "execid" then
      some (container.Labels.index headers.TenancyLabel == tenantId)
    else verifyExecIDs headers tenantId vars container rest

/-- The outer loop of `VerifyExecContainerTenant` over `cluster.Containers()`. -/
def verifyExecContainers (headers : Headers) (tenantId : String) (vars : GoMap) :
    List Container → Bool
  | [] => false
  | container :: rest =>
    match verifyExecIDs headers tenantId vars container container.Info.ExecIDs with
    | some verdict => verdict
    | none => verifyExecContainers headers tenantId vars rest

/-- The function `VerifyExecContainerTenant`; `vars` is the map `mux.Vars(r)`
of the route variables of the request. -/
def VerifyExecContainerTenant (headers : Headers) (cluster : Cluster) (tenantId : String)
    (vars : GoMap) : Bool :=
  verifyExecContainers headers tenantId vars cluster.Containers

/-! ## Response sanitizing -/

/-- The header map `r.Header` of a request, given by its method `Get`, which
returns the empty string for a header that is not set. -/
structure HTTPHeader where
  /-- The method `Get`. -/
  Get : String → String

/-- One left-to-right pass of `bytes.Replace` for a non-empty `old`: at an
occurrence of `old` write `new` and skip the occurrence; `skip` is the number
of characters of the current occurrence still to be skipped. -/
def replaceFrom (old new : List Char) : Nat → List Char → List Char
  | _, [] => []
  | skip + 1, _ :: s => replaceFrom old new skip s
  | 0, c :: s =>
    if old.isPrefixOf (c :: s) then new ++ replaceFrom old new (old.length - 1) s
    else c :: replaceFrom old new 0 s

/-- Go's `bytes.Replace(s, old, new, -1)`: every non-overlapping occurrence of
`old`, found from left to right, is replaced by `new`; for the empty `old`,
`new` is written before every character and at the end. -/
def Replace (s old new : String) : String :=
  if old.data = [] then String.mk (new.data ++ s.data.flatMap (fun c => c :: new.data))
  else String.mk (replaceFrom old.data new.data 0 s.data)

/-- The function `CleanUpLabeling`; `rHeader` is `r.Header` and `recBody` is
`rec.Body.Bytes()`. -/
def CleanUpLabeling (headers : Headers) (rHeader : HTTPHeader) (recBody : String) : String :=
  let newBody := Replace recBody headers.TenancyLabel " "
  let newBody := Replace newBody (rHeader.Get headers.AuthZTenantIdHeaderName) ""
  let newBody := Replace newBody ",\" \":\" \"" ""
  newBody

/-! ## Network-list filtering -/

/-- Go's `strings.TrimPrefix`. -/
def TrimPrefix (s pre : String) : String :=
  if HasPrefix s pre then String.mk (s.data.drop pre.data.length) else s

/-- Cut a text at the first occurrence of a separator: the text before it and
the text after it, or `none` when the separator does not occur. -/
def cutAt (sep : List Char) : List Char → Option (List Char × List Char)
  | [] => if sep.isPrefixOf [] then some ([], []) else none
  | c :: s =>
    if sep.isPrefixOf (c :: s) then some ([], (c :: s).drop sep.length)
    else
      match cutAt sep s with
      | some (a, b) => some (c :: a, b)
      | none => none

/-- The splitting loop of Go's `strings.SplitN` for a non-empty separator. -/
def splitN (sep : List Char) : Nat → List Char → List (List Char)
  | 0, _ => []
  | 1, s => [s]
  | n + 2, s =>
    match cutAt sep s with
    | some (a, b) => a :: splitN sep (n + 1) b
    | none => [s]

/-- Go's `strings.SplitN(s, sep, n)` for a non-empty separator and `n ≥ 0`: at
most `n` substrings, the last one being the unsplit remainder. -/
def SplitN (s sep : String) (n : Nat) : List String :=
  (splitN sep.data n s.data).map String.mk

/-- The package `encoding/json` at the type `cluster.Networks`: decoding a
body into a list of networks and encoding such a list, each of which can
fail.  A decoded list holds network records. -/
structure JSONCodec where
  /-- The call `json.NewDecoder(bytes.NewReader(body)).Decode(&networks)`. -/
  decode : String → Option (List Network)
  /-- The call `json.NewEncoder(&buf).Encode(candidates)`. -/
  encode : List Network → Option String

/-- The loop of `FilterNetworks` over the decoded networks: the list
`candidates` after the loop. -/
def filterCandidates (namePrefix : String) : List Network → Except Panic (List Network)
  | [] => .ok []
  | network :: rest =>
    let fullName := SplitN network.Name "/" 2
    match index fullName (fullName.length - 1) with
    | .error e => .error e
    | .ok name =>
      match filterCandidates namePrefix rest with
      | .error e => .error e
      | .ok candidates =>
        if HasPrefix name namePrefix then
          .ok ({ network with Name := TrimPrefix name namePrefix } :: candidates)
        else .ok candidates

/-- The function `FilterNetworks`; `rHeader` is `r.Header`, `recBody` is
`rec.Body.Bytes()`, and the result `none` is the nil slice returned after a
decoding or encoding error. -/
def FilterNetworks (json : JSONCodec) (headers : Headers) (rHeader : HTTPHeader)
    (recBody : String) : Except Panic (Option String) :=
  match json.decode recBody with
  | none => .ok none
  | some networks =>
    let namePrefix := ConstructNetworkPrefix (rHeader.Get headers.AuthZTenantIdHeaderName)
    match filterCandidates namePrefix networks with
    | .error e => .error e
    | .ok candidates => .ok (json.encode candidates)

/-! ## Notions named by the specification -/

/-- Two characters that are equal, or of which one is the lower-case form of
the other. -/
def charSameUpToCase (c d : Char) : Bool :=
  c == d || unicodeToLower c == d || unicodeToLower d == c

/-- Two texts of the same length that differ only in letter case. -/
def sameUpToCase : List Char → List Char → Bool
  | [], [] => true
  | c :: s, d :: t => charSameUpToCase c d && sameUpToCase s t
  | _, _ => false

/-- The part of a name after its first `/`, the whole name when it has none. -/
def afterFirstSlash (name : String) : String :=
  match cutAt ['/'] name.data with
  | some (_, b) => String.mk b
  | none => name

/-- The part of a text after its last `/`, the whole text when it has none. -/
def afterLastSlashList : List Char → List Char
  | [] => []
  | c :: s => if '/' ∈ s then afterLastSlashList s else if c = '/' then s else c :: s

/-- The part of a name after its last `/`, the whole name when it has none. -/
def afterLastSlash (name : String) : String :=
  String.mk (afterLastSlashList name.data)

/-- The pieces written one after the other with the separator between
consecutive pieces. -/
def joinWith (sep : List Char) : List (List Char) → List Char
  | [] => []
  | [p] => p
  | p :: q :: ps => p ++ sep ++ joinWith sep (q :: ps)

/-- The text `out` is `s` after one pass replacing `old` by `new`: `s` is cut
into pieces at occurrences of `old`, no piece contains `old`, and `out` is the
pieces with `new` in the place of `old`. -/
def IsSinglePass (old new s out : List Char) : Prop :=
  ∃ pieces : List (List Char), s = joinWith old pieces ∧ out = joinWith new pieces ∧
    ∀ p ∈ pieces, ¬ old <:+: p

namespace Regexp

theorem stripPrefix_append (l t : List Char) : stripPrefix l (l ++ t) = some t := by
  induction l with
  | nil => cases t <;> simp [stripPrefix]
  | cons a l ih => simp [stripPrefix, ih]

theorem stripPrefix_eq_some (l s t : List Char) (h : stripPrefix l s = some t) : s = l ++ t := by
  induction l generalizing s with
  | nil => cases s <;> simp_all [stripPrefix]
  | cons a l ih =>
    cases s with
    | nil => simp [stripPrefix] at h
    | cons b s =>
      simp only [stripPrefix] at h
      split at h
      · next hab => subst hab; simp [ih s h]
      · simp at h

theorem stripPrefix_cons_ne (a b : Char) (l s : List Char) (h : a ≠ b) :
    stripPrefix (a :: l) (b :: s) = none := by
  simp [stripPrefix, h]

theorem consumed_append (a r : List Char) : consumed (a ++ r) r = a := by
  simp [consumed]

theorem consumed_nil (a : List Char) : consumed a [] = a := by
  simp [consumed]

theorem starRun_none (p : Char → Bool) (s : List Char) (k : List Char → Option Caps)
    (h : ∀ t, t <:+ s → k t = none) : starRun p s k = none := by
  induction s with
  | nil => simpa [starRun] using h [] (List.suffix_refl _)
  | cons c cs ih =>
    have h1 : starRun p cs k = none := ih (fun t ht => h t (ht.trans (List.suffix_cons c cs)))
    have h2 : k (c :: cs) = none := h _ (List.suffix_refl _)
    simp [starRun, h1, h2]

theorem starRun_backtrack (p : Char → Bool) (a rest : List Char) (k : List Char → Option Caps)
    (r : Caps) (ha : ∀ c ∈ a, p c = true)
    (hfail : ∀ t, t <:+ rest → t ≠ rest → k t = none) (hk : k rest = some r) :
    starRun p (a ++ rest) k = some r := by
  induction a with
  | nil =>
    cases rest with
    | nil => simpa [starRun] using hk
    | cons c cs =>
      have h1 : starRun p cs k = none := by
        apply starRun_none
        intro t ht
        apply hfail t (ht.trans (List.suffix_cons c cs))
        intro heq
        have := ht.length_le
        simp [heq] at this
      simp [starRun, h1, hk]
  | cons c a ih =>
    have := ih (fun x hx => ha x (List.mem_cons_of_mem _ hx))
    simp [starRun, ha c (List.mem_cons_self _ _), this]

theorem starRun_all (p : Char → Bool) (s : List Char) (k : List Char → Option Caps)
    (r : Caps) (hs : ∀ c ∈ s, p c = true) (hk : k [] = some r) : starRun p s k = some r := by
  have := starRun_backtrack p s [] k r hs (by
    intro t ht hne
    exact absurd (List.suffix_nil.mp ht) hne) hk
  simpa using this

theorem starRun_isSome (p : Char → Bool) (s : List Char) (k : List Char → Option Caps)
    (hk : ∀ t, (k t).isSome = true) : (starRun p s k).isSome = true := by
  induction s with
  | nil => simpa [starRun] using hk []
  | cons c cs ih =>
    simp only [starRun]
    split
    · split
      · rfl
      · exact hk _
    · exact hk _

theorem find_of_matchHere (r : Re) (s : List Char) (c : Caps) (h : matchHere r s = some c) :
    find r s = some c := by
  cases s <;> simp [find, h]

theorem find_cons_of_none (r : Re) (c : Char) (s : List Char) (h : matchHere r (c :: s) = none) :
    find r (c :: s) = find r s := by
  simp [find, h]

theorem find_append_isSome (r : Re) (pre s : List Char) (h : (find r s).isSome = true) :
    (find r (pre ++ s)).isSome = true := by
  induction pre with
  | nil => simpa using h
  | cons c pre ih =>
    simp only [List.cons_append, find]
    split
    · rfl
    · exact ih

theorem family_matchHere_none (L : String) (s : List Char) (h : stripPrefix L.data s = none) :
    matchHere (familyRe L) s = none := by
  simp [matchHere, familyRe, Re.run, h]

theorem dot_of_not_mem (a : List Char) (h : '\n' ∉ a) : ∀ c ∈ a, Class.test .dot c = true := by
  intro c hc
  have : c ≠ '\n' := fun e => h (e ▸ hc)
  simp [Class.test, this]

theorem family_matchHere_sub (L : String) (a b : List Char) (ha : '\n' ∉ a) (hb : '\n' ∉ b)
    (hs : '/' ∉ b) :
    matchHere (familyRe L) (L.data ++ (a ++ '/' :: b)) =
      some [L.data ++ (a ++ '/' :: b), a, b, []] := by
  have hlit : ("/" : String).data = ['/'] := rfl
  simp only [matchHere, familyRe, Re.run, stripPrefix_append, hlit]
  rw [starRun_backtrack (Class.test .dot) a ('/' :: b) _
    [L.data ++ (a ++ '/' :: b), a, b, []] (dot_of_not_mem a ha)]
  · intro t ht hne
    cases t with
    | nil => simp [stripPrefix]
    | cons c t =>
      have hc : c ∈ b := by
        rcases List.suffix_cons_iff.mp ht with h | h
        · exact absurd h hne
        · exact h.subset (List.mem_cons_self _ _)
      have : '/' ≠ c := fun e => hs (e ▸ hc)
      simp [stripPrefix, this]
  · simp only [stripPrefix]
    simp only [if_true]
    rw [starRun_all (Class.test .dot) b _ [L.data ++ (a ++ '/' :: b), a, b, []]
      (dot_of_not_mem b hb)]
    simp [consumed_append, consumed_nil, Re.numSubexp, List.replicate]

theorem word_ne_slash (c : Char) (h : Class.test .word c = true) : c ≠ '/' := by
  intro e
  subst e
  revert h
  decide

theorem family_matchHere_word (L : String) (w : List Char) (hne : w ≠ [])
    (hw : ∀ c ∈ w, Class.test .word c = true) :
    matchHere (familyRe L) (L.data ++ w) = some [L.data ++ w, [], [], w] := by
  have hlit : ("/" : String).data = ['/'] := rfl
  simp only [matchHere, familyRe, Re.run, stripPrefix_append, hlit]
  rw [starRun_none]
  · cases w with
    | nil => exact absurd rfl hne
    | cons c w =>
      have hc : Class.test .word c = true := hw c (List.mem_cons_self _ _)
      simp only [hc, if_true]
      rw [starRun_all (Class.test .word) w _ [L.data ++ c :: w, [], [], c :: w]
        (fun x hx => hw x (List.mem_cons_of_mem _ hx))]
      simp [consumed_append, consumed_nil, Re.numSubexp, List.replicate]
  · intro t ht
    cases t with
    | nil => simp [stripPrefix]
    | cons c t =>
      have hc : c ∈ w := ht.subset (List.mem_cons_self _ _)
      have : '/' ≠ c := fun e => word_ne_slash c (hw c hc) e.symm
      simp [stripPrefix, this]

theorem family_matchHere_isSome (L : String) (c : Char) (t : List Char)
    (hc : Class.test .word c = true) :
    (matchHere (familyRe L) (L.data ++ c :: t)).isSome = true := by
  simp only [matchHere, familyRe, Re.run, stripPrefix_append, hc, if_true]
  split
  · rfl
  · apply starRun_isSome
    intro t
    rfl

theorem find_isSome_of_matchHere (r : Re) (s : List Char) (h : (matchHere r s).isSome = true) :
    (find r s).isSome = true := by
  cases s with
  | nil => simpa [find] using h
  | cons c s =>
    simp only [find]
    split
    · rfl
    · next hn => simp [hn] at h

theorem append_sep_inj (c : Char) (a b x y : List Char) (h : a ++ c :: x = b ++ c :: y)
    (ha : c ∉ a) (hb : c ∉ b) : a = b ∧ x = y := by
  induction a generalizing b with
  | nil =>
    cases b with
    | nil => simpa using h
    | cons d b =>
      simp only [List.nil_append, List.cons_append, List.cons.injEq] at h
      exact absurd (h.1 ▸ List.mem_cons_self _ _) hb
  | cons e a ih =>
    cases b with
    | nil =>
      simp only [List.nil_append, List.cons_append, List.cons.injEq] at h
      exact absurd (h.1 ▸ List.mem_cons_self _ _) ha
    | cons d b =>
      simp only [List.cons_append, List.cons.injEq] at h
      have := ih b h.2 (fun m => ha (List.mem_cons_of_mem _ m))
        (fun m => hb (List.mem_cons_of_mem _ m))
      exact ⟨by rw [h.1, this.1], this.2⟩

theorem stripPrefix_segment_ne (name seg rest : List Char) (hn : '/' ∉ name) (hs : '/' ∉ seg)
    (hne : seg ≠ name) :
    stripPrefix ('/' :: (name ++ ['/'])) ('/' :: (seg ++ '/' :: rest)) = none := by
  cases h : stripPrefix ('/' :: (name ++ ['/'])) ('/' :: (seg ++ '/' :: rest)) with
  | none => rfl
  | some t =>
    have e := stripPrefix_eq_some _ _ _ h
    simp only [List.cons_append, List.cons.injEq, true_and, List.append_assoc,
      List.nil_append] at e
    exact absurd (append_sep_inj '/' seg name rest t e hs hn).1 hne

theorem stripPrefix_last_segment (name seg : List Char) (hs : '/' ∉ seg) :
    stripPrefix ('/' :: (name ++ ['/'])) ('/' :: seg) = none := by
  cases h : stripPrefix ('/' :: (name ++ ['/'])) ('/' :: seg) with
  | none => rfl
  | some t =>
    have e := stripPrefix_eq_some _ _ _ h
    simp only [List.cons_append, List.cons.injEq, true_and, List.append_assoc,
      List.nil_append] at e
    exact absurd (e ▸ (by simp : '/' ∈ name ++ '/' :: t)) hs

theorem find_skip (r : Re) (seg s : List Char)
    (h : ∀ c t, c ∈ seg → matchHere r (c :: t) = none) : find r (seg ++ s) = find r s := by
  induction seg with
  | nil => rfl
  | cons c seg ih =>
    rw [List.cons_append, find_cons_of_none r c _ (h c _ (List.mem_cons_self _ _))]
    exact ih (fun d t hd => h d t (List.mem_cons_of_mem _ hd))

theorem family_find_skip (L : String) (l seg s : List Char) (hL : L.data = '/' :: l)
    (hs : '/' ∉ seg) : find (familyRe L) (seg ++ s) = find (familyRe L) s := by
  apply find_skip
  intro c t hc
  apply family_matchHere_none
  rw [hL]
  exact stripPrefix_cons_ne _ _ _ _ (fun e => hs (e ▸ hc))

theorem family_find_segment (L : String) (name seg rest : List Char)
    (hL : L.data = '/' :: (name ++ ['/'])) (hn : '/' ∉ name) (hs : '/' ∉ seg) (hne : seg ≠ name) :
    find (familyRe L) ('/' :: (seg ++ '/' :: rest)) = find (familyRe L) ('/' :: rest) := by
  rw [find_cons_of_none]
  · exact family_find_skip L _ seg _ hL hs
  · apply family_matchHere_none
    rw [hL]
    exact stripPrefix_segment_ne name seg rest hn hs hne

theorem family_find_nil (L : String) (l : List Char) (hL : L.data = '/' :: l) :
    find (familyRe L) [] = none := by
  simp only [find]
  apply family_matchHere_none
  rw [hL]
  rfl

theorem family_find_last (L : String) (name seg : List Char)
    (hL : L.data = '/' :: (name ++ ['/'])) (hs : '/' ∉ seg) :
    find (familyRe L) ('/' :: seg) = none := by
  rw [find_cons_of_none]
  · have := family_find_skip L _ seg [] hL hs
    rw [List.append_nil] at this
    rw [this]
    exact family_find_nil L _ hL
  · apply family_matchHere_none
    rw [hL]
    exact stripPrefix_last_segment name seg hs

theorem cluster_matchHere_sub (a b : List Char) (ha : '\n' ∉ a) (hb : '\n' ∉ b) (hs : '/' ∉ b) :
    matchHere clusterRegExp ('/' :: (a ++ '/' :: b)) = some ['/' :: (a ++ '/' :: b), a, b] := by
  have hlit : ("/" : String).data = ['/'] := rfl
  simp only [matchHere, clusterRegExp, Re.run, hlit, stripPrefix, if_true]
  rw [starRun_backtrack (Class.test .dot) a ('/' :: b) _
    ['/' :: (a ++ '/' :: b), a, b] (dot_of_not_mem a ha)]
  · intro t ht hne
    cases t with
    | nil => simp [stripPrefix]
    | cons c t =>
      have hc : c ∈ b := by
        rcases List.suffix_cons_iff.mp ht with h | h
        · exact absurd h hne
        · exact h.subset (List.mem_cons_self _ _)
      have : '/' ≠ c := fun e => hs (e ▸ hc)
      simp [stripPrefix, this]
  · simp only [stripPrefix]
    simp only [if_true]
    rw [starRun_all (Class.test .dot) b _ ['/' :: (a ++ '/' :: b), a, b]
      (dot_of_not_mem b hb)]
    simp [consumed_append, consumed_nil, Re.numSubexp, List.replicate, consumed]

end Regexp

/-! ## From character lists to strings -/

theorem containersRegexp_eq : containersRegexp = familyRe "/containers/" := rfl

theorem networksRegexp_eq : networksRegexp = familyRe "/networks/" := rfl

theorem volumesRegexp_eq : volumesRegexp = familyRe "/volumes/" := rfl

theorem imagesRegexp_eq : imagesRegexp = familyRe "/images/" := rfl

theorem isSegment_data (s : String) (h : isSegment s = true) :
    '/' ∉ s.data ∧ '\n' ∉ s.data := by
  simp only [isSegment, List.all_eq_true, Bool.and_eq_true, bne_iff_ne, ne_eq] at h
  exact ⟨fun m => (h _ m).1 rfl, fun m => (h _ m).2 rfl⟩

theorem isVersionPrefix_data (v : String) (h : isVersionPrefix v = true) :
    v.data = [] ∨ ∃ w, v.data = '/' :: w ∧ '/' ∉ w ∧ '\n' ∉ w := by
  unfold isVersionPrefix at h
  split at h
  · next e => exact Or.inl e
  · next c w e =>
    simp only [Bool.and_eq_true, beq_iff_eq] at h
    have := isSegment_data _ h.2
    exact Or.inr ⟨w, by rw [e, h.1], this.1, this.2⟩

theorem isVersionPrefix_no_newline (v : String) (h : isVersionPrefix v = true) :
    '\n' ∉ v.data := by
  rcases isVersionPrefix_data v h with e | ⟨w, e, _, hn⟩
  · simp [e]
  · rw [e]
    intro m
    rcases List.mem_cons.mp m with m | m
    · exact absurd m (by decide)
    · exact hn m

theorem isWord_data (s : String) (h : isWord s = true) :
    ∀ c ∈ s.data, Class.test .word c = true := by
  simpa [isWord] using h

theorem data_ne_nil (s : String) (h : s ≠ "") : s.data ≠ [] := by
  intro e
  apply h
  exact String.ext e

theorem FindStringSubmatch_of_find (r : Re) (s : String) (caps : Caps)
    (h : find r s.data = some caps) : FindStringSubmatch r s = caps.map String.mk := by
  simp [FindStringSubmatch, h]

theorem FindStringSubmatch_of_none (r : Re) (s : String) (h : find r s.data = none) :
    FindStringSubmatch r s = [] := by
  simp [FindStringSubmatch, h]

/-- In the whole text after a newline-free prefix, a family pattern whose
literal is followed by `a/b` captures `b` as its second group. -/
theorem family_find_sub (L : String) (v a b : List Char) (hL : '\n' ∉ L.data) (hv : '\n' ∉ v)
    (ha : '\n' ∉ a) (hb : '\n' ∉ b) (hs : '/' ∉ b) :
    ∃ whole g1, find (familyRe L) (v ++ (L.data ++ (a ++ '/' :: b))) = some [whole, g1, b, []] := by
  induction v with
  | nil => exact ⟨_, _, find_of_matchHere _ _ _ (family_matchHere_sub L a b ha hb hs)⟩
  | cons c v ih =>
    have hv1 : '\n' ∉ v := fun m => hv (List.mem_cons_of_mem _ m)
    cases h : stripPrefix L.data (c :: (v ++ (L.data ++ (a ++ '/' :: b)))) with
    | none =>
      obtain ⟨whole, g1, hh⟩ := ih hv1
      have hc := find_cons_of_none _ c _ (family_matchHere_none L _ h)
      exact ⟨whole, g1, by rw [List.cons_append, hc, hh]⟩
    | some t =>
      have e := stripPrefix_eq_some _ _ _ h
      have e1 : (c :: v ++ (L.data ++ a)) ++ '/' :: b = L.data ++ t := by
        rw [← e]
        simp
      rcases List.append_eq_append_iff.mp e1 with ⟨x, e2, e3⟩ | ⟨x, e2, e3⟩
      · exfalso
        have hl := congrArg List.length e2
        simp only [List.cons_append, List.length_append, List.length_cons] at hl
        omega
      · have hx : '\n' ∉ x := by
          intro m
          have hm : '\n' ∈ c :: v ++ (L.data ++ a) := by
            rw [e2]
            exact List.mem_append_right _ m
          rcases List.mem_append.mp hm with m1 | m1
          · exact hv m1
          · rcases List.mem_append.mp m1 with m2 | m2
            · exact hL m2
            · exact ha m2
        have hm := family_matchHere_sub L x b hx hb hs
        rw [← e3, ← e] at hm
        exact ⟨_, _, find_of_matchHere _ _ _ hm⟩

theorem FindStringSubmatch_family_sub (L v a b : String) (hL : '\n' ∉ L.data)
    (hv : '\n' ∉ v.data) (ha : '\n' ∉ a.data) (hb : '\n' ∉ b.data) (hs : '/' ∉ b.data) :
    ∃ whole g1, FindStringSubmatch (familyRe L) (v ++ L ++ a ++ "/" ++ b) = [whole, g1, b, ""] := by
  obtain ⟨whole, g1, h⟩ := family_find_sub L v.data a.data b.data hL hv ha hb hs
  refine ⟨String.mk whole, String.mk g1, ?_⟩
  have hd : (v ++ L ++ a ++ "/" ++ b).data = v.data ++ (L.data ++ (a.data ++ '/' :: b.data)) := by
    simp [String.data_append]
  rw [FindStringSubmatch_of_find _ _ _ (hd ▸ h)]
  rfl

theorem family_find_word (L : String) (name v w : List Char)
    (hL : L.data = '/' :: (name ++ ['/'])) (hn : '/' ∉ name)
    (hv : v = [] ∨ ∃ seg, v = '/' :: seg ∧ '/' ∉ seg ∧ seg ≠ name) (hne : w ≠ [])
    (hw : ∀ c ∈ w, Class.test .word c = true) :
    find (familyRe L) (v ++ (L.data ++ w)) = some [L.data ++ w, [], [], w] := by
  have h0 := find_of_matchHere _ _ _ (family_matchHere_word L w hne hw)
  rcases hv with e | ⟨seg, e, hs, hne1⟩
  · rw [e]
    exact h0
  · have h1 := family_find_segment L name seg (name ++ '/' :: w) hL hn hs hne1
    have e1 : v ++ (L.data ++ w) = '/' :: (seg ++ '/' :: (name ++ '/' :: w)) := by
      rw [e, hL]
      simp
    have e2 : L.data ++ w = '/' :: (name ++ '/' :: w) := by
      rw [hL]
      simp
    rw [e1, h1, ← e2]
    exact h0

theorem FindStringSubmatch_family_word (L name v w : String)
    (hL : L.data = '/' :: (name.data ++ ['/'])) (hn : '/' ∉ name.data)
    (hv : isVersionPrefix v = true) (hvn : v ≠ "/" ++ name) (hw : isWord w = true)
    (hne : w ≠ "") :
    FindStringSubmatch (familyRe L) (v ++ L ++ w) = [L ++ w, "", "", w] := by
  have hv1 : v.data = [] ∨ ∃ seg, v.data = '/' :: seg ∧ '/' ∉ seg ∧ seg ≠ name.data := by
    rcases isVersionPrefix_data v hv with e | ⟨seg, e, hs, _⟩
    · exact Or.inl e
    · refine Or.inr ⟨seg, e, hs, ?_⟩
      intro e1
      apply hvn
      apply String.ext
      rw [e, e1]
      rfl
  have h := family_find_word L name.data v.data w.data hL hn hv1 (data_ne_nil w hne)
    (isWord_data w hw)
  have hd : (v ++ L ++ w).data = v.data ++ (L.data ++ w.data) := by
    simp [String.data_append]
  rw [FindStringSubmatch_of_find _ _ _ (hd ▸ h)]
  rfl

/-! ## The classifier -/

theorem commandParser_getPost (m path uri : String) (hm : m = "GET" ∨ m = "POST") :
    commandParser { Method := m, Path := path, RequestURI := uri } =
      commandParserGetPost { Method := m, Path := path, RequestURI := uri }
        (FindStringSubmatch containersRegexp path) (FindStringSubmatch networksRegexp path)
        (FindStringSubmatch volumesRegexp path) (FindStringSubmatch clusterRegExp path)
        (FindStringSubmatch imagesRegexp path) := by
  have hd : m ≠ "DELETE" := by
    rcases hm with e | e <;> subst e <;> decide
  simp [commandParser, hd, hm]

theorem getPost_container_sub (r : Request) (n v cl i : List String) (whole g1 g2 g3 : String)
    (h2 : g2 ≠ "") :
    commandParserGetPost r [whole, g1, g2, g3] n v cl i = .ok ("container" ++ g2) := by
  simp [commandParserGetPost, index, h2, bind, Except.bind, pure, Except.pure]

theorem getPost_container_bare (r : Request) (n v cl i : List String) (whole g1 g3 : String)
    (h3 : g3 ≠ "") :
    commandParserGetPost r [whole, g1, "", g3] n v cl i = .ok ("containers" ++ g3) := by
  simp [commandParserGetPost, index, h3, bind, Except.bind, pure, Except.pure]

/-- C7. Container two-branch rule.  For every GET or POST request: (i) on a
path `<optional version segment>/containers/<id>/<act>` with `id` and `act`
free of `/` and newline and `act` non-empty, `commandParser` returns
`"container" ++ act`; (ii) on a path `<optional version segment>/containers/<w>`
with `w` a non-empty run of word characters and nothing after it (the version
segment being a segment other than `containers` itself), it returns
`"containers" ++ w`.  In both cases the result is fixed by the container
submatches alone, whatever the raw URI is and whatever the image, network,
volume and generic patterns yield. -/
theorem container_two_branch_rule :
    (∀ m v id act uri : String, (m = "GET" ∨ m = "POST") → isVersionPrefix v = true →
      isSegment id = true → isSegment act = true → act ≠ "" →
      commandParser { Method := m, Path := v ++ "/containers/" ++ id ++ "/" ++ act,
                      RequestURI := uri } = .ok ("container" ++ act)) ∧
    (∀ m v w uri : String, (m = "GET" ∨ m = "POST") → isVersionPrefix v = true →
      v ≠ "/containers" → isWord w = true → w ≠ "" →
      commandParser { Method := m, Path := v ++ "/containers/" ++ w, RequestURI := uri } =
        .ok ("containers" ++ w)) ∧
    (∀ (r : Request) (n vol cl i : List String) (whole g1 g2 g3 : String), g2 ≠ "" →
      commandParserGetPost r [whole, g1, g2, g3] n vol cl i = .ok ("container" ++ g2)) ∧
    (∀ (r : Request) (n vol cl i : List String) (whole g1 g3 : String), g3 ≠ "" →
      commandParserGetPost r [whole, g1, "", g3] n vol cl i = .ok ("containers" ++ g3)) := by
  refine ⟨?_, ?_, ?_, ?_⟩
  · intro m v id act uri hm hv hid hact hne
    obtain ⟨whole, g1, h⟩ := FindStringSubmatch_family_sub "/containers/" v id act (by decide)
      (isVersionPrefix_no_newline v hv) (isSegment_data id hid).2 (isSegment_data act hact).2
      (isSegment_data act hact).1
    rw [commandParser_getPost m _ uri hm, containersRegexp_eq, h]
    exact getPost_container_sub _ _ _ _ _ _ _ _ _ hne
  · intro m v w uri hm hv hvn hw hne
    have h := FindStringSubmatch_family_word "/containers/" "containers" v w rfl (by decide)
      hv hvn hw hne
    rw [commandParser_getPost m _ uri hm, containersRegexp_eq, h]
    exact getPost_container_bare _ _ _ _ _ _ _ _ hne
  · intro r n vol cl i whole g1 g2 g3 h2
    exact getPost_container_sub r n vol cl i whole g1 g2 g3 h2
  · intro r n vol cl i whole g1 g3 h3
    exact getPost_container_bare r n vol cl i whole g1 g3 h3

/-- Witness for C7: `POST /containers/abc123/start` and `GET /v1.24/containers/json`. -/
theorem container_two_branch_rule_witness :
    commandParser { Method := "POST", Path := "" ++ "/containers/" ++ "abc123" ++ "/" ++ "start",
                    RequestURI := "/containers/abc123/start" } = .ok ("container" ++ "start") ∧
    commandParser { Method := "GET", Path := "/v1.24" ++ "/containers/" ++ "json",
                    RequestURI := "/v1.24/containers/json" } = .ok ("containers" ++ "json") :=
  ⟨container_two_branch_rule.1 "POST" "" "abc123" "start" "/containers/abc123/start"
      (Or.inr rfl) (by decide) (by decide) (by decide) (by decide),
   container_two_branch_rule.2.1 "GET" "/v1.24" "json" "/v1.24/containers/json"
      (Or.inl rfl) (by decide) (by decide) (by decide) (by decide)⟩

/-! ## Shape of the submatch list -/

namespace Regexp

theorem starRun_inv (P : Caps → Prop) (p : Char → Bool) (s : List Char)
    (k : List Char → Option Caps) (hk : ∀ t c, k t = some c → P c) :
    ∀ c, starRun p s k = some c → P c := by
  induction s with
  | nil =>
    intro c h
    exact hk [] c (by simpa [starRun] using h)
  | cons x s ih =>
    intro c h
    simp only [starRun] at h
    split at h
    · split at h
      · next r hr =>
        cases h
        exact ih _ hr
      · exact hk _ _ h
    · exact hk _ _ h

theorem run_length (n : Nat) (r : Re) :
    ∀ (s : List Char) (caps : Caps) (k : List Char → Caps → Option Caps), caps.length = n →
      (∀ t c c', c.length = n → k t c = some c' → c'.length = n) →
      ∀ c', r.run s caps k = some c' → c'.length = n := by
  induction r with
  | lit l =>
    intro s caps k hc hk c' h
    simp only [Re.run] at h
    split at h
    · exact hk _ _ _ hc h
    · cases h
  | star c =>
    intro s caps k hc hk c' h
    simp only [Re.run] at h
    exact starRun_inv (fun x => x.length = n) _ _ _ (fun t x hx => hk t caps x hc hx) _ h
  | plus c =>
    intro s caps k hc hk c' h
    simp only [Re.run] at h
    split at h
    · cases h
    · split at h
      · exact starRun_inv (fun x => x.length = n) _ _ _ (fun t x hx => hk t caps x hc hx) _ h
      · cases h
  | group i r ih =>
    intro s caps k hc hk c' h
    simp only [Re.run] at h
    exact ih s caps _ hc (fun t c c'' hcl hk' => hk t _ c'' (by simpa using hcl) hk') c' h
  | seq a b iha ihb =>
    intro s caps k hc hk c' h
    simp only [Re.run] at h
    exact iha s caps _ hc (fun t c c'' hcl hk' => ihb t c k hcl hk c'' hk') c' h
  | alt a b iha ihb =>
    intro s caps k hc hk c' h
    simp only [Re.run] at h
    split at h
    · next r hr =>
      cases h
      exact iha s caps k hc hk _ hr
    · exact ihb s caps k hc hk _ h

theorem matchHere_length (r : Re) (s : List Char) (c : Caps) (h : matchHere r s = some c) :
    c.length = r.numSubexp + 1 := by
  apply run_length (r.numSubexp + 1) r s _ _ (by simp) _ c h
  intro t c0 c1 hc0 hk
  cases hk
  simpa using hc0

theorem find_length (r : Re) (s : List Char) (c : Caps) (h : find r s = some c) :
    c.length = r.numSubexp + 1 := by
  induction s with
  | nil => exact matchHere_length r [] c (by simpa [find] using h)
  | cons x s ih =>
    simp only [find] at h
    split at h
    · next c0 h0 =>
      cases h
      exact matchHere_length r _ _ h0
    · exact ih h

/-- The list `FindStringSubmatch` returns is nil or has one entry for the
whole match and one per group. -/
theorem FindStringSubmatch_length (r : Re) (s : String) :
    FindStringSubmatch r s = [] ∨ (FindStringSubmatch r s).length = r.numSubexp + 1 := by
  unfold FindStringSubmatch
  split
  · next caps h =>
    right
    simpa using find_length r _ _ h
  · exact Or.inl rfl

end Regexp

theorem isMatch_of_find_isSome (r : Re) (s : String) (h : (find r s.data).isSome = true) :
    isMatch r s = true := by
  cases hf : find r s.data with
  | none => simp [hf] at h
  | some caps =>
    have hl := find_length r _ _ hf
    simp [isMatch, FindStringSubmatch, hf, hl]

theorem isMatch_false_iff (r : Re) (s : String) :
    isMatch r s = false ↔ FindStringSubmatch r s = [] := by
  simp [isMatch, List.length_eq_zero]

theorem isMatch_containers_abc123 (pre suf : String) :
    isMatch containersRegexp (pre ++ "/containers/abc123" ++ suf) = true := by
  apply isMatch_of_find_isSome
  have hd : (pre ++ "/containers/abc123" ++ suf).data =
      pre.data ++ (("/containers/" : String).data ++ 'a' :: ("bc123".data ++ suf.data)) := by
    simp [String.data_append]
  rw [hd, containersRegexp_eq]
  apply find_append_isSome
  apply find_isSome_of_matchHere
  exact family_matchHere_isSome _ _ _ (by decide)

/-! ## Claims on the classifier -/

/-- C1 (evaluation at the failing inputs). On `GET /ping`, `GET /` and a GET
with the empty path, no rule of the `"GET", "POST"` arm applies, the generic
pattern `/(.*)/(.*)` has no match, and the final `clusterParams[2]` indexes the
nil slice: `commandParser`, and with it `ParseCommand`, panics with index out
of range instead of returning a command or the unsupported value. -/
theorem commandParser_panics_without_two_slashes :
    FindStringSubmatch clusterRegExp "/ping" = [] ∧
    commandParser { Method := "GET", Path := "/ping", RequestURI := "/ping" } =
      .error (.indexOutOfRange 2 0) ∧
    commandParser { Method := "GET", Path := "/", RequestURI := "/" } =
      .error (.indexOutOfRange 2 0) ∧
    commandParser { Method := "GET", Path := "", RequestURI := "" } =
      .error (.indexOutOfRange 2 0) ∧
    commandParser { Method := "POST", Path := "/ping", RequestURI := "/ping" } =
      .error (.indexOutOfRange 2 0) ∧
    (ParseCommand Globals.start { Method := "GET", Path := "/ping", RequestURI := "/ping" }).1 =
      .error (.indexOutOfRange 2 0) := by
  refine ⟨?_, ?_, ?_, ?_, ?_, ?_⟩ <;> decide

/-- C5. DELETE rule with priority: for every DELETE request `commandParser`
returns `"containerdelete"` if the container pattern matches the path,
otherwise `"networkdelete"` if the network pattern matches, otherwise
`"imagedelete"` if the image pattern matches, otherwise `"volumedelete"` if the
volume pattern matches, otherwise the unsupported sentinel string.  In
particular every DELETE path containing `/containers/abc123`, whatever stands
before and after it (network, image or volume segments included), yields
`"containerdelete"`. -/
theorem delete_rule_priority :
    (∀ path uri : String,
      commandParser { Method := "DELETE", Path := path, RequestURI := uri } =
        .ok (if isMatch containersRegexp path then "containerdelete"
             else if isMatch networksRegexp path then "networkdelete"
             else if isMatch imagesRegexp path then "imagedelete"
             else if isMatch volumesRegexp path then "volumedelete"
             else unsupported)) ∧
    (∀ pre suf uri : String,
      commandParser { Method := "DELETE", Path := pre ++ "/containers/abc123" ++ suf,
                      RequestURI := uri } = .ok "containerdelete") ∧
    commandParser { Method := "DELETE", Path := "/containers/abc123",
                    RequestURI := "/containers/abc123" } = .ok "containerdelete" ∧
    commandParser { Method := "DELETE", Path := "/ping", RequestURI := "/ping" } =
      .ok "This is not supported yet and will end up in the default of the Switch" := by
  have h1 : ∀ path uri : String,
      commandParser { Method := "DELETE", Path := path, RequestURI := uri } =
        .ok (if isMatch containersRegexp path then "containerdelete"
             else if isMatch networksRegexp path then "networkdelete"
             else if isMatch imagesRegexp path then "imagedelete"
             else if isMatch volumesRegexp path then "volumedelete"
             else unsupported) := by
    intro path uri
    simp only [commandParser, isMatch, decide_eq_true_eq, if_true]
    split_ifs <;> rfl
  refine ⟨h1, ?_, by decide, by decide⟩
  intro pre suf uri
  rw [h1, isMatch_containers_abc123]
  rfl

/-! ## The rules of the `"GET", "POST"` arm, one at a time -/

theorem twoBranchGuard_false (p : List String) (h : twoBranchGuard p = false) :
    p.length ≠ 4 ∨ ∃ a b, p = [a, b, "", ""] := by
  by_cases hl : p.length = 4
  · right
    match p, hl with
    | [a, b, c, d], _ =>
      simp [twoBranchGuard] at h
      exact ⟨a, b, by rw [h.1, h.2]⟩
  · exact Or.inl hl

theorem twoBranchGuard_true (p : List String) (h : twoBranchGuard p = true) :
    ∃ a b c d, p = [a, b, c, d] ∧ (c ≠ "" ∨ (c = "" ∧ d ≠ "")) := by
  have hl : p.length = 4 := by
    simp [twoBranchGuard] at h
    exact h.1
  match p, hl with
  | [a, b, c, d], _ =>
    refine ⟨a, b, c, d, rfl, ?_⟩
    simp [twoBranchGuard] at h
    by_cases hc : c = ""
    · exact Or.inr ⟨hc, h.resolve_left (fun x => x hc)⟩
    · exact Or.inl hc

theorem getPost_skip_container_image (r : Request) (c n v cl i : List String)
    (hc : twoBranchGuard c = false) (hi : twoBranchGuard i = false) :
    commandParserGetPost r c n v cl i = commandParserGetPost r [] n v cl [] := by
  rcases twoBranchGuard_false c hc with h1 | ⟨a, b, h1⟩ <;>
    rcases twoBranchGuard_false i hi with h2 | ⟨a2, b2, h2⟩
  · simp [commandParserGetPost, h1, h2, bind, Except.bind, pure, Except.pure]
  · subst h2
    simp [commandParserGetPost, h1, index, bind, Except.bind, pure, Except.pure]
  · subst h1
    simp [commandParserGetPost, h2, index, bind, Except.bind, pure, Except.pure]
  · subst h1 h2
    simp [commandParserGetPost, index, bind, Except.bind, pure, Except.pure]

theorem getPost_container_guard (r : Request) (c n v cl i : List String)
    (hc : twoBranchGuard c = true) :
    ∃ x, commandParserGetPost r c n v cl i = .ok ("container" ++ x) := by
  obtain ⟨a, b, g2, g3, e, h | ⟨h2, h3⟩⟩ := twoBranchGuard_true c hc
  · subst e
    exact ⟨g2, getPost_container_sub r n v cl i a b g2 g3 h⟩
  · subst e h2
    refine ⟨"s" ++ g3, ?_⟩
    rw [getPost_container_bare r n v cl i a b g3 h3]
    rfl

theorem getPost_image_guard (r : Request) (c n v cl i : List String)
    (hc : twoBranchGuard c = false) (hi : twoBranchGuard i = true) :
    ∃ x, commandParserGetPost r c n v cl i = .ok ("image" ++ x) := by
  obtain ⟨a, b, g2, g3, e, h | ⟨h2, h3⟩⟩ := twoBranchGuard_true i hi
  · subst e
    refine ⟨g2, ?_⟩
    rcases twoBranchGuard_false c hc with h1 | ⟨a1, b1, h1⟩
    · simp [commandParserGetPost, h1, index, h, bind, Except.bind, pure, Except.pure]
    · subst h1
      simp [commandParserGetPost, index, h, bind, Except.bind, pure, Except.pure]
  · subst e h2
    refine ⟨"s" ++ g3, ?_⟩
    have e : ("image" ++ ("s" ++ g3) : String) = "images" ++ g3 := rfl
    rw [e]
    rcases twoBranchGuard_false c hc with h1 | ⟨a1, b1, h1⟩
    · simp [commandParserGetPost, h1, index, h3, bind, Except.bind, pure, Except.pure]
    · subst h1
      simp [commandParserGetPost, index, h3, bind, Except.bind, pure, Except.pure]

theorem getPost_networks_list (r : Request) (n v cl : List String)
    (h : HasSuffix r.Path "/networks" = true) :
    commandParserGetPost r [] n v cl [] = .ok "networkslist" := by
  simp [commandParserGetPost, h, bind, Except.bind, pure, Except.pure]

theorem getPost_network_sub (r : Request) (v cl : List String) (whole g1 g2 : String)
    (h : HasSuffix r.Path "/networks" = false) :
    commandParserGetPost r [] [whole, g1, g2, ""] v cl [] = .ok ("network" ++ g2) := by
  simp [commandParserGetPost, h, index, bind, Except.bind, pure, Except.pure]

theorem getPost_volume (r : Request) (n cl : List String) (whole g1 g2 g3 : String)
    (hn : n.length ≠ 4) (h1 : HasSuffix r.Path "/networks" = false)
    (h2 : HasSuffix r.Path "/volumes" = false) (h3 : HasSuffix r.Path "/volumes/" = false)
    (h4 : Contains r.RequestURI "/volumes?" = false) :
    commandParserGetPost r [] n [whole, g1, g2, g3] cl [] =
      .ok (if g3 = "create" then "volumecreate" else "volumeinspect") := by
  by_cases hg : g3 = "create" <;>
    simp [commandParserGetPost, hn, h1, h2, h3, h4, hg, index, bind, Except.bind, pure,
      Except.pure]

theorem getPost_fallback (r : Request) (n v : List String) (whole g1 s : String)
    (hn : n.length ≠ 4) (hv : v.length ≠ 4) (h1 : HasSuffix r.Path "/networks" = false)
    (h2 : HasSuffix r.Path "/volumes" = false) (h3 : HasSuffix r.Path "/volumes/" = false)
    (h4 : Contains r.RequestURI "/volumes?" = false) :
    commandParserGetPost r [] n v [whole, g1, s] [] =
      .ok (if s = "start" ∨ s = "resize" ∨ s = "json" then "exec" ++ s else s) := by
  by_cases hs : s = "start" ∨ s = "resize" ∨ s = "json"
  · rcases hs with e | e | e <;> subst e <;>
      simp [commandParserGetPost, hn, hv, h1, h2, h3, h4, index, bind, Except.bind, pure,
        Except.pure]
  · have hs1 := hs
    simp only [not_or] at hs1
    simp [commandParserGetPost, hn, hv, h1, h2, h3, h4, hs, hs1.1, hs1.2.1, hs1.2.2, index, bind,
      Except.bind, pure, Except.pure]

theorem container_ne_networkslist (x : String) : ("container" ++ x : String) ≠ "networkslist" := by
  intro h
  have := congrArg String.data h
  simp [String.data_append] at this

theorem image_ne_networkslist (x : String) : ("image" ++ x : String) ≠ "networkslist" := by
  intro h
  have := congrArg String.data h
  simp [String.data_append] at this

/-- C3 (as amended). Networks-list precedence: for every GET or POST request
whose path ends in `/networks`, `commandParser` returns `"networkslist"` exactly
when neither the container rule nor the image rule classifies the path, whether
or not the network-family pattern matches; the network-family rule and all
rules after it never classify such a path. -/
theorem networks_list_precedence (m path uri : String) (hm : m = "GET" ∨ m = "POST")
    (hsuf : HasSuffix path "/networks" = true) :
    (commandParser { Method := m, Path := path, RequestURI := uri } = .ok "networkslist" ↔
      twoBranchGuard (FindStringSubmatch containersRegexp path) = false ∧
      twoBranchGuard (FindStringSubmatch imagesRegexp path) = false) ∧
    (twoBranchGuard (FindStringSubmatch containersRegexp path) = true →
      ∃ x, commandParser { Method := m, Path := path, RequestURI := uri } =
        .ok ("container" ++ x)) ∧
    (twoBranchGuard (FindStringSubmatch containersRegexp path) = false →
      twoBranchGuard (FindStringSubmatch imagesRegexp path) = true →
      ∃ x, commandParser { Method := m, Path := path, RequestURI := uri } =
        .ok ("image" ++ x)) := by
  rw [commandParser_getPost m path uri hm]
  refine ⟨⟨?_, ?_⟩, ?_, ?_⟩
  · intro h
    cases hc : twoBranchGuard (FindStringSubmatch containersRegexp path) with
    | true =>
      obtain ⟨x, hx⟩ := getPost_container_guard _ _ _ _ _ _ hc
      rw [hx] at h
      injection h with h
      exact absurd h (container_ne_networkslist x)
    | false =>
      cases hi : twoBranchGuard (FindStringSubmatch imagesRegexp path) with
      | true =>
        obtain ⟨x, hx⟩ := getPost_image_guard _ _ _ _ _ _ hc hi
        rw [hx] at h
        injection h with h
        exact absurd h (image_ne_networkslist x)
      | false => exact ⟨rfl, rfl⟩
  · rintro ⟨hc, hi⟩
    rw [getPost_skip_container_image _ _ _ _ _ _ hc hi]
    exact getPost_networks_list _ _ _ _ hsuf
  · intro hc
    exact getPost_container_guard _ _ _ _ _ _ hc
  · intro hc hi
    exact getPost_image_guard _ _ _ _ _ _ hc hi

/-- Witness for C3: `GET /v1.24/networks`. -/
theorem networks_list_precedence_witness :
    commandParser { Method := "GET", Path := "/v1.24/networks", RequestURI := "/v1.24/networks" } =
      .ok "networkslist" :=
  (networks_list_precedence "GET" "/v1.24/networks" "/v1.24/networks" (Or.inl rfl)
    (by decide)).1.2 ⟨by decide, by decide⟩

/-- C3 (counterexample). The path `/containers/networks/networks` ends in
`/networks` and matches the network-family pattern, yet the container rule,
which stands before the networks-list rule, classifies it. -/
theorem networks_list_precedence_counterexample :
    HasSuffix "/containers/networks/networks" "/networks" = true ∧
    isMatch networksRegexp "/containers/networks/networks" = true ∧
    commandParser { Method := "GET", Path := "/containers/networks/networks",
                    RequestURI := "/containers/networks/networks" } = .ok "containernetworks" := by
  refine ⟨?_, ?_, ?_⟩ <;> decide

/-! ## `ParseCommand` and the package-level table -/

theorem reachable_cases (g : Globals) (h : Reachable g) :
    g = Globals.start ∨ g = { invMapmap := buildInvMapmap, initialized := true } := by
  induction h with
  | start => exact Or.inl rfl
  | call g r _ ih =>
    right
    rcases ih with e | e <;> subst e <;> rfl

theorem ParseCommand_fst (g : Globals) (hg : Reachable g) (r : Request) :
    (ParseCommand g r).1 =
      match commandParser r with
      | .ok c => .ok (buildInvMapmap.index c)
      | .error e => .error e := by
  rcases reachable_cases g hg with e | e <;> subst e <;> rfl

theorem commandParser_congr (r1 r2 : Request) (hm : r1.Method = r2.Method)
    (hp : r1.Path = r2.Path)
    (hu : Contains r1.RequestURI "/volumes?" = Contains r2.RequestURI "/volumes?") :
    commandParser r1 = commandParser r2 := by
  simp only [commandParser, commandParserGetPost, hm, hp, hu]

/-- C4 (as amended). Classification is a function of the method, the URL path
and whether the raw request URI contains `/volumes?`: two requests that agree on
these three get the same result from `ParseCommand` (the same command, or the
same panic), whatever else their raw URIs are and whether or not the
package-level table had been built before either call. -/
theorem classification_pure (g1 g2 : Globals) (r1 r2 : Request) (hg1 : Reachable g1)
    (hg2 : Reachable g2) (hm : r1.Method = r2.Method) (hp : r1.Path = r2.Path)
    (hu : Contains r1.RequestURI "/volumes?" = Contains r2.RequestURI "/volumes?") :
    (ParseCommand g1 r1).1 = (ParseCommand g2 r2).1 := by
  rw [ParseCommand_fst g1 hg1, ParseCommand_fst g2 hg2, commandParser_congr r1 r2 hm hp hu]

/-- Witness for C4: the same `GET /v1.24/info` with and without a query, the
first on the start values and the second after the table was built. -/
theorem classification_pure_witness :
    (ParseCommand Globals.start
      { Method := "GET", Path := "/v1.24/info", RequestURI := "/v1.24/info" }).1 =
    (ParseCommand
      (ParseCommand Globals.start
        { Method := "DELETE", Path := "/containers/abc123",
          RequestURI := "/containers/abc123" }).2
      { Method := "GET", Path := "/v1.24/info", RequestURI := "/v1.24/info?all=1" }).1 :=
  classification_pure _ _ _ _ Reachable.start (Reachable.call _ _ Reachable.start) rfl rfl
    (by decide)

/-- C4 (counterexample). Two GET requests with the same path `/v1.24/info`
whose raw URIs differ in a query that contains `/volumes?` are classified
differently. -/
theorem classification_depends_on_RequestURI :
    (ParseCommand Globals.start
      { Method := "GET", Path := "/v1.24/info", RequestURI := "/v1.24/info" }).1 = .ok "info" ∧
    (ParseCommand Globals.start
      { Method := "GET", Path := "/v1.24/info",
        RequestURI := "/v1.24/info?filter=/volumes?" }).1 = .ok "volumeslist" := by
  refine ⟨?_, ?_⟩ <;> decide

/-- C6 (evaluation at the failing input). On `DELETE /images/abc` the image
pattern matches and neither the container nor the network pattern does;
`commandParser` returns `"imagedelete"`, which is no constant of `CommandEnum`
and no key of the table, so `ParseCommand` returns the empty command, while the
container, network and volume deletes are returned as commands. -/
theorem image_delete_not_in_table :
    isMatch imagesRegexp "/images/abc" = true ∧
    isMatch containersRegexp "/images/abc" = false ∧
    isMatch networksRegexp "/images/abc" = false ∧
    commandParser { Method := "DELETE", Path := "/images/abc", RequestURI := "/images/abc" } =
      .ok "imagedelete" ∧
    (ParseCommand Globals.start
      { Method := "DELETE", Path := "/images/abc", RequestURI := "/images/abc" }).1 = .ok "" ∧
    "imagedelete" ∉ commandEnumConstants ∧
    (ParseCommand Globals.start
      { Method := "DELETE", Path := "/containers/abc",
        RequestURI := "/containers/abc" }).1 = .ok CONTAINER_DELETE ∧
    (ParseCommand Globals.start
      { Method := "DELETE", Path := "/networks/abc",
        RequestURI := "/networks/abc" }).1 = .ok NETWORK_DELETE ∧
    (ParseCommand Globals.start
      { Method := "DELETE", Path := "/volumes/abc",
        RequestURI := "/volumes/abc" }).1 = .ok VOLUME_DELETE := by
  refine ⟨?_, ?_, ?_, ?_, ?_, ?_, ?_, ?_, ?_⟩ <;> decide

/-! ## Tenant ownership -/

theorem isContainerOwner_iff (headers : Headers) (tenantID resourceId : String)
    (cs : List Container) :
    isContainerOwner headers tenantID resourceId cs = true ↔
      ∃ c, cs.find? (fun c => decide (c.Info.ID = resourceId)) = some c ∧
        c.Labels.index headers.TenancyLabel = tenantID := by
  induction cs with
  | nil => simp [isContainerOwner]
  | cons c cs ih =>
    by_cases h : c.Info.ID = resourceId
    · simp [isContainerOwner, h, List.find?]
    · simp [isContainerOwner, h, List.find?, ih]

theorem GoMap_index_eq_iff (m : GoMap) (k t : String) (ht : t ≠ "") :
    m.index k = t ↔ m.lookup k = some t := by
  unfold GoMap.index
  cases m.lookup k with
  | none =>
    simp only [Option.getD_none]
    constructor
    · intro h
      exact absurd h.symm ht
    · intro h
      cases h
  | some x => simp

/-! ## Paths given by their segments -/

theorem joinSegs_append (a b : List (List Char)) :
    joinSegs (a ++ b) = joinSegs a ++ joinSegs b := by
  induction a with
  | nil => rfl
  | cons s a ih => simp [joinSegs, ih]

theorem family_find_joinSegs (L : String) (name : List Char)
    (hL : L.data = '/' :: (name ++ ['/'])) (hn : '/' ∉ name) :
    ∀ segs : List (List Char), (∀ seg ∈ segs, '/' ∉ seg) →
      (∀ seg ∈ segs.dropLast, seg ≠ name) → find (familyRe L) (joinSegs segs) = none := by
  intro segs
  induction segs with
  | nil =>
    intro _ _
    exact family_find_nil L _ hL
  | cons seg rest ih =>
    intro h1 h2
    cases rest with
    | nil =>
      have := family_find_last L name seg hL (h1 seg (List.mem_cons_self _ _))
      simpa [joinSegs] using this
    | cons seg2 rest2 =>
      have hs : '/' ∉ seg := h1 seg (List.mem_cons_self _ _)
      have hne : seg ≠ name := h2 seg (by simp [List.dropLast])
      have := family_find_segment L name seg (seg2 ++ joinSegs rest2) hL hn hs hne
      simp only [joinSegs] at this ⊢
      rw [this]
      apply ih
      · intro s hm
        exact h1 s (List.mem_cons_of_mem _ hm)
      · intro s hm
        exact h2 s (by
          simp only [List.dropLast_cons₂]
          exact List.mem_cons_of_mem _ hm)

theorem versionPrefix_segs (v : String) (hv : isVersionPrefix v = true) :
    ∃ vs : List String, v.data = joinSegs (vs.map String.data) ∧
      (∀ t ∈ vs, '/' ∉ t.data) ∧ (∀ name : String, v ≠ "/" ++ name → name ∉ vs) := by
  rcases isVersionPrefix_data v hv with e | ⟨w, e, hs, _⟩
  · exact ⟨[], by simpa [joinSegs] using e, by simp, by simp⟩
  · refine ⟨[String.mk w], by simpa [joinSegs] using e, by simpa using hs, ?_⟩
    intro name hne hm
    apply hne
    apply String.ext
    simp only [List.mem_singleton] at hm
    rw [e, hm]
    rfl

/-- A family pattern has no match in a path made of an optional version
segment followed by segments none of which, the last one apart, is the family
name. -/
theorem FindStringSubmatch_family_none (L name v p : String) (ts : List String)
    (hp : p.data = v.data ++ joinSegs (ts.map String.data))
    (hL : L.data = '/' :: (name.data ++ ['/'])) (hn : '/' ∉ name.data)
    (hv : isVersionPrefix v = true) (hvn : v ≠ "/" ++ name)
    (h1 : ∀ t ∈ ts, '/' ∉ t.data) (h2 : ∀ t ∈ ts.dropLast, t ≠ name) :
    FindStringSubmatch (familyRe L) p = [] := by
  obtain ⟨vs, e, hvs, hvname⟩ := versionPrefix_segs v hv
  apply FindStringSubmatch_of_none
  rw [hp, e, ← joinSegs_append, ← List.map_append]
  apply family_find_joinSegs L name.data hL hn
  · intro seg hm
    obtain ⟨t, ht, rfl⟩ := List.mem_map.mp hm
    rcases List.mem_append.mp ht with h | h
    · exact hvs t h
    · exact h1 t h
  · intro seg hm
    rw [← List.map_dropLast] at hm
    obtain ⟨t, ht, rfl⟩ := List.mem_map.mp hm
    intro e1
    have et : t = name := String.ext e1
    subst et
    by_cases hts : ts = []
    · subst hts
      simp only [List.append_nil] at ht
      exact hvname t hvn (List.mem_of_mem_dropLast ht)
    · rw [List.dropLast_append_of_ne_nil _ hts] at ht
      rcases List.mem_append.mp ht with h | h
      · exact hvname t hvn h
      · exact h2 t h rfl

theorem hasSuffix_last_segment (p suf : String) (x sub nd : List Char)
    (hp : p.data = x ++ '/' :: sub) (hsuf : suf.data = '/' :: nd) (hs : '/' ∉ sub)
    (hn : '/' ∉ nd) (hne : sub ≠ nd) : HasSuffix p suf = false := by
  cases h : HasSuffix p suf with
  | false => rfl
  | true =>
    exfalso
    simp only [HasSuffix, List.isSuffixOf_iff_suffix] at h
    rw [hp, hsuf] at h
    have h2 : ('/' :: sub) <:+ (x ++ '/' :: sub) := List.suffix_append _ _
    rcases List.suffix_or_suffix_of_suffix h h2 with h3 | h3
    · rcases List.suffix_cons_iff.mp h3 with h4 | h4
      · exact hne (List.cons.inj h4).2.symm
      · exact hs (h4.subset (List.mem_cons_self _ _))
    · rcases List.suffix_cons_iff.mp h3 with h4 | h4
      · exact hne (List.cons.inj h4).2
      · exact hn (h4.subset (List.mem_cons_self _ _))

theorem hasSuffix_slash_end (p suf : String) (x sub y : List Char)
    (hp : p.data = x ++ '/' :: sub) (hsuf : suf.data = y ++ ['/']) (hs : '/' ∉ sub)
    (hne : sub ≠ []) : HasSuffix p suf = false := by
  cases h : HasSuffix p suf with
  | false => rfl
  | true =>
    exfalso
    simp only [HasSuffix, List.isSuffixOf_iff_suffix] at h
    rw [hp, hsuf] at h
    have h1 : ['/'] <:+ (x ++ '/' :: sub) := (List.suffix_append y ['/']).trans h
    have h2 : ('/' :: sub) <:+ (x ++ '/' :: sub) := List.suffix_append _ _
    have h3 : ['/'] <:+ ('/' :: sub) :=
      List.suffix_of_suffix_length_le h1 h2 (by simp)
    rcases List.suffix_cons_iff.mp h3 with h4 | h4
    · exact hne (List.cons.inj h4).2.symm
    · exact hs (h4.subset (List.mem_cons_self _ _))

/-! ## Claims on the network, volume and generic rules -/

/-- C2 (as amended). Network sub-action rule: for every GET or POST request
whose path has the shape `<optional version segment>/networks/<id>/<sub>`, with
`id` and `sub` free of `/` and newline, neither the version segment nor `id`
equal to `containers` or `images`, and `sub` non-empty and different from
`networks`, `commandParser` returns `"network" ++ sub`: `"networkcreate"` for
`create`, `"networkconnect"` for `connect`, and `"networkinspect"` only for
`inspect`. -/
theorem network_sub_action_rule (m v id sub uri : String) (hm : m = "GET" ∨ m = "POST")
    (hv : isVersionPrefix v = true) (hv1 : v ≠ "/containers") (hv2 : v ≠ "/images")
    (hid : isSegment id = true) (hid1 : id ≠ "containers") (hid2 : id ≠ "images")
    (hsub : isSegment sub = true) (_hne : sub ≠ "") (hsn : sub ≠ "networks") :
    commandParser { Method := m, Path := v ++ "/networks/" ++ id ++ "/" ++ sub,
                    RequestURI := uri } = .ok ("network" ++ sub) := by
  have hI := isSegment_data id hid
  have hS := isSegment_data sub hsub
  have hdata : (v ++ "/networks/" ++ id ++ "/" ++ sub).data =
      v.data ++ joinSegs (["networks", id, sub].map String.data) := by
    simp [String.data_append, joinSegs]
  have hsl : ∀ t ∈ ["networks", id, sub], '/' ∉ t.data := by
    intro t ht
    simp only [List.mem_cons, List.mem_singleton, List.not_mem_nil, or_false] at ht
    rcases ht with rfl | rfl | rfl
    · decide
    · exact hI.1
    · exact hS.1
  have hc : FindStringSubmatch containersRegexp (v ++ "/networks/" ++ id ++ "/" ++ sub) = [] := by
    rw [containersRegexp_eq]
    refine FindStringSubmatch_family_none "/containers/" "containers" v _ _ hdata rfl
      (by decide) hv hv1 hsl ?_
    intro t ht
    simp only [List.dropLast, List.mem_cons, List.mem_singleton, List.not_mem_nil,
      or_false] at ht
    rcases ht with rfl | rfl
    · decide
    · exact hid1
  have hi : FindStringSubmatch imagesRegexp (v ++ "/networks/" ++ id ++ "/" ++ sub) = [] := by
    rw [imagesRegexp_eq]
    refine FindStringSubmatch_family_none "/images/" "images" v _ _ hdata rfl
      (by decide) hv hv2 hsl ?_
    intro t ht
    simp only [List.dropLast, List.mem_cons, List.mem_singleton, List.not_mem_nil,
      or_false] at ht
    rcases ht with rfl | rfl
    · decide
    · exact hid2
  obtain ⟨whole, g1, hn⟩ := FindStringSubmatch_family_sub "/networks/" v id sub (by decide)
    (isVersionPrefix_no_newline v hv) hI.2 hS.2 hS.1
  have hsuf : HasSuffix (v ++ "/networks/" ++ id ++ "/" ++ sub) "/networks" = false := by
    refine hasSuffix_last_segment _ _ (v.data ++ ("/networks/" : String).data ++ id.data)
      sub.data ("networks" : String).data ?_ rfl hS.1 (by decide) ?_
    · simp [String.data_append]
    · intro e
      exact hsn (String.ext e)
  rw [commandParser_getPost m _ uri hm, hc, hi, networksRegexp_eq, hn]
  exact getPost_network_sub _ _ _ _ _ _ hsuf

/-- Witness for C2: `GET /v1.24/networks/abc/connect`. -/
theorem network_sub_action_rule_witness :
    commandParser { Method := "GET", Path := "/v1.24" ++ "/networks/" ++ "abc" ++ "/" ++ "connect",
                    RequestURI := "/v1.24/networks/abc/connect" } =
      .ok ("network" ++ "connect") :=
  network_sub_action_rule "GET" "/v1.24" "abc" "connect" "/v1.24/networks/abc/connect"
    (Or.inl rfl) (by decide) (by decide) (by decide) (by decide) (by decide) (by decide)
    (by decide) (by decide) (by decide)

/-- C2 (counterexample). `GET /networks/abc/connect` is classified as
`"networkconnect"`, not as `"networkinspect"`: the sub-action is the second
group of the pattern, and the create/inspect test reads the third.  With
`containers` as the id the container rule answers first, and a newline in the
sub-action cuts it short. -/
theorem network_sub_action_rule_counterexample :
    FindStringSubmatch networksRegexp "/networks/abc/connect" =
      ["/networks/abc/connect", "abc", "connect", ""] ∧
    commandParser { Method := "GET", Path := "/networks/abc/connect",
                    RequestURI := "/networks/abc/connect" } = .ok "networkconnect" ∧
    commandParser { Method := "GET", Path := "/networks/containers/connect",
                    RequestURI := "/networks/containers/connect" } = .ok "containersconnect" ∧
    commandParser { Method := "GET", Path := "/networks/abc/in\nspect",
                    RequestURI := "/networks/abc/in%0Aspect" } = .ok "networkin" := by
  refine ⟨?_, ?_, ?_, ?_⟩ <;> decide


/-- C8 (as amended). Volume sub-action rule: for every GET or POST request whose
path has the shape `<optional version segment>/volumes/<id>/<sub>`, with `id`
and `sub` free of `/` and newline, neither the version segment nor `id` equal
to `containers`, `images` or `networks`, `sub` non-empty and different from
`volumes` and `networks`, and a raw URI without `/volumes?`, `commandParser`
returns `"volumeinspect"` for every `sub`, `create` included. -/
theorem volume_sub_action_rule (m v id sub uri : String) (hm : m = "GET" ∨ m = "POST")
    (hv : isVersionPrefix v = true) (hv1 : v ≠ "/containers") (hv2 : v ≠ "/images")
    (hv3 : v ≠ "/networks") (hid : isSegment id = true) (hid1 : id ≠ "containers")
    (hid2 : id ≠ "images") (hid3 : id ≠ "networks") (hsub : isSegment sub = true)
    (hne : sub ≠ "") (hsv : sub ≠ "volumes") (hsn : sub ≠ "networks")
    (hu : Contains uri "/volumes?" = false) :
    commandParser { Method := m, Path := v ++ "/volumes/" ++ id ++ "/" ++ sub,
                    RequestURI := uri } = .ok "volumeinspect" := by
  have hI := isSegment_data id hid
  have hS := isSegment_data sub hsub
  have hdata : (v ++ "/volumes/" ++ id ++ "/" ++ sub).data =
      v.data ++ joinSegs (["volumes", id, sub].map String.data) := by
    simp [String.data_append, joinSegs]
  have hsl : ∀ t ∈ ["volumes", id, sub], '/' ∉ t.data := by
    intro t ht
    simp only [List.mem_cons, List.mem_singleton, List.not_mem_nil, or_false] at ht
    rcases ht with rfl | rfl | rfl
    · decide
    · exact hI.1
    · exact hS.1
  have hc : FindStringSubmatch containersRegexp (v ++ "/volumes/" ++ id ++ "/" ++ sub) = [] := by
    rw [containersRegexp_eq]
    refine FindStringSubmatch_family_none "/containers/" "containers" v _ _ hdata rfl
      (by decide) hv hv1 hsl ?_
    intro t ht
    simp only [List.dropLast, List.mem_cons, List.mem_singleton, List.not_mem_nil,
      or_false] at ht
    rcases ht with rfl | rfl
    · decide
    · exact hid1
  have hi : FindStringSubmatch imagesRegexp (v ++ "/volumes/" ++ id ++ "/" ++ sub) = [] := by
    rw [imagesRegexp_eq]
    refine FindStringSubmatch_family_none "/images/" "images" v _ _ hdata rfl
      (by decide) hv hv2 hsl ?_
    intro t ht
    simp only [List.dropLast, List.mem_cons, List.mem_singleton, List.not_mem_nil,
      or_false] at ht
    rcases ht with rfl | rfl
    · decide
    · exact hid2
  have hn : FindStringSubmatch networksRegexp (v ++ "/volumes/" ++ id ++ "/" ++ sub) = [] := by
    rw [networksRegexp_eq]
    refine FindStringSubmatch_family_none "/networks/" "networks" v _ _ hdata rfl
      (by decide) hv hv3 hsl ?_
    intro t ht
    simp only [List.dropLast, List.mem_cons, List.mem_singleton, List.not_mem_nil,
      or_false] at ht
    rcases ht with rfl | rfl
    · decide
    · exact hid3
  obtain ⟨whole, g1, hvol⟩ := FindStringSubmatch_family_sub "/volumes/" v id sub (by decide)
    (isVersionPrefix_no_newline v hv) hI.2 hS.2 hS.1
  have hpd : (v ++ "/volumes/" ++ id ++ "/" ++ sub).data =
      (v.data ++ ("/volumes/" : String).data ++ id.data) ++ '/' :: sub.data := by
    simp [String.data_append]
  have hs1 : HasSuffix (v ++ "/volumes/" ++ id ++ "/" ++ sub) "/networks" = false :=
    hasSuffix_last_segment _ _ _ sub.data ("networks" : String).data hpd rfl hS.1 (by decide)
      (fun e => hsn (String.ext e))
  have hs2 : HasSuffix (v ++ "/volumes/" ++ id ++ "/" ++ sub) "/volumes" = false :=
    hasSuffix_last_segment _ _ _ sub.data ("volumes" : String).data hpd rfl hS.1 (by decide)
      (fun e => hsv (String.ext e))
  have hs3 : HasSuffix (v ++ "/volumes/" ++ id ++ "/" ++ sub) "/volumes/" = false :=
    hasSuffix_slash_end _ _ _ sub.data ("/volumes" : String).data hpd rfl hS.1
      (data_ne_nil sub hne)
  rw [commandParser_getPost m _ uri hm, hc, hi, hn, volumesRegexp_eq, hvol]
  rw [getPost_volume (Request.mk m (v ++ "/volumes/" ++ id ++ "/" ++ sub) uri) [] _
    whole g1 sub "" (by decide) hs1 hs2 hs3 hu]
  rfl

/-- Witness for C8: `GET /v1.24/volumes/abc/create`. -/
theorem volume_sub_action_rule_witness :
    commandParser { Method := "GET", Path := "/v1.24" ++ "/volumes/" ++ "abc" ++ "/" ++ "create",
                    RequestURI := "/v1.24/volumes/abc/create" } = .ok "volumeinspect" :=
  volume_sub_action_rule "GET" "/v1.24" "abc" "create" "/v1.24/volumes/abc/create"
    (Or.inl rfl) (by decide) (by decide) (by decide) (by decide) (by decide) (by decide)
    (by decide) (by decide) (by decide) (by decide) (by decide) (by decide) (by decide)

/-- C8 (counterexample). `GET /volumes/abc/create` is classified as
`"volumeinspect"`, not as `"volumecreate"`: the create test reads the third
group, which is empty whenever the sub-action group is populated.  With
`networks` as the id or as the sub-action a network rule answers first. -/
theorem volume_sub_action_rule_counterexample :
    FindStringSubmatch volumesRegexp "/volumes/abc/create" =
      ["/volumes/abc/create", "abc", "create", ""] ∧
    commandParser { Method := "GET", Path := "/volumes/abc/create",
                    RequestURI := "/volumes/abc/create" } = .ok "volumeinspect" ∧
    commandParser { Method := "GET", Path := "/volumes/networks/inspect",
                    RequestURI := "/volumes/networks/inspect" } = .ok "networkinspect" ∧
    commandParser { Method := "GET", Path := "/volumes/abc/networks",
                    RequestURI := "/volumes/abc/networks" } = .ok "networkslist" := by
  refine ⟨?_, ?_, ?_, ?_⟩ <;> decide
theorem joinSegs_no_newline (segs : List (List Char)) (h : ∀ seg ∈ segs, '\n' ∉ seg) :
    '\n' ∉ joinSegs segs := by
  induction segs with
  | nil => simp [joinSegs]
  | cons s rest ih =>
    intro m
    simp only [joinSegs, List.mem_cons, List.mem_append] at m
    rcases m with m | m | m
    · exact absurd m (by decide)
    · exact h s (List.mem_cons_self _ _) m
    · exact ih (fun seg hs => h seg (List.mem_cons_of_mem _ hs)) m

theorem isHex_isSegment (x : String) (h : isHex x = true) : isSegment x = true := by
  simp only [isHex, isSegment, List.all_eq_true] at h ⊢
  intro c hc
  have := h c hc
  simp only [Bool.and_eq_true, bne_iff_ne, ne_eq]
  constructor
  · intro e
    subst e
    revert this
    decide
  · intro e
    subst e
    revert this
    decide

/-- The generic rule on a path of two or more segments: when no segment but
the last is a family name and the last is none of `networks`, `volumes` and
the empty segment, the last segment decides. -/
theorem commandParser_fallback_segments (m uri P last : String) (segs : List String)
    (hm : m = "GET" ∨ m = "POST")
    (hP : P.data = joinSegs ((segs ++ [last]).map String.data)) (hne : segs ≠ [])
    (hseg : ∀ t ∈ segs, isSegment t = true)
    (hfam : ∀ t ∈ segs, t ∉ ["containers", "images", "networks", "volumes"])
    (hlast : isSegment last = true) (hl1 : last ≠ "networks") (hl2 : last ≠ "volumes")
    (hl3 : last ≠ "") (hu : Contains uri "/volumes?" = false) :
    commandParser { Method := m, Path := P, RequestURI := uri } =
      .ok (if last = "start" ∨ last = "resize" ∨ last = "json" then "exec" ++ last else last) := by
  have hL := isSegment_data last hlast
  have hsl : ∀ seg ∈ (segs ++ [last]).map String.data, '/' ∉ seg := by
    intro seg hs
    obtain ⟨t, ht, rfl⟩ := List.mem_map.mp hs
    rcases List.mem_append.mp ht with h | h
    · exact (isSegment_data t (hseg t h)).1
    · rw [List.mem_singleton.mp h]
      exact hL.1
  have hnone : ∀ (L name : String), L.data = '/' :: (name.data ++ ['/']) → '/' ∉ name.data →
      name ∈ ["containers", "images", "networks", "volumes"] →
      FindStringSubmatch (familyRe L) P = [] := by
    intro L name hLd hn hmem
    apply FindStringSubmatch_of_none
    rw [hP]
    apply family_find_joinSegs L name.data hLd hn _ hsl
    intro seg hs
    rw [← List.map_dropLast, List.dropLast_concat] at hs
    obtain ⟨t, ht, rfl⟩ := List.mem_map.mp hs
    intro e
    have et : t = name := String.ext e
    subst et
    exact hfam t ht hmem
  have hc : FindStringSubmatch containersRegexp P = [] :=
    hnone "/containers/" "containers" rfl (by decide) (by decide)
  have hi : FindStringSubmatch imagesRegexp P = [] :=
    hnone "/images/" "images" rfl (by decide) (by decide)
  have hn : FindStringSubmatch networksRegexp P = [] :=
    hnone "/networks/" "networks" rfl (by decide) (by decide)
  have hv : FindStringSubmatch volumesRegexp P = [] :=
    hnone "/volumes/" "volumes" rfl (by decide) (by decide)
  obtain ⟨X, hX, hXn⟩ : ∃ X, P.data = '/' :: (X ++ '/' :: last.data) ∧ '\n' ∉ X := by
    cases segs with
    | nil => exact absurd rfl hne
    | cons s0 rest =>
      refine ⟨s0.data ++ joinSegs (rest.map String.data), ?_, ?_⟩
      · rw [hP]
        simp [joinSegs, joinSegs_append]
      · intro mem
        rcases List.mem_append.mp mem with h | h
        · exact (isSegment_data s0 (hseg s0 (List.mem_cons_self _ _))).2 h
        · refine joinSegs_no_newline _ ?_ h
          intro seg hs
          obtain ⟨t, ht, rfl⟩ := List.mem_map.mp hs
          exact (isSegment_data t (hseg t (List.mem_cons_of_mem _ ht))).2
  have hcl : FindStringSubmatch clusterRegExp P = [P, String.mk X, last] := by
    have := find_of_matchHere _ _ _ (cluster_matchHere_sub X last.data hXn hL.2 hL.1)
    rw [← hX] at this
    rw [FindStringSubmatch_of_find _ _ _ this]
    rfl
  have hpd : P.data = ('/' :: X) ++ '/' :: last.data := by
    rw [hX]
    rfl
  have hs1 : HasSuffix P "/networks" = false :=
    hasSuffix_last_segment _ _ _ last.data ("networks" : String).data hpd rfl hL.1 (by decide)
      (fun e => hl1 (String.ext e))
  have hs2 : HasSuffix P "/volumes" = false :=
    hasSuffix_last_segment _ _ _ last.data ("volumes" : String).data hpd rfl hL.1 (by decide)
      (fun e => hl2 (String.ext e))
  have hs3 : HasSuffix P "/volumes/" = false :=
    hasSuffix_slash_end _ _ _ last.data ("/volumes" : String).data hpd rfl hL.1
      (data_ne_nil last hl3)
  rw [commandParser_getPost m _ uri hm, hc, hi, hn, hv, hcl]
  exact getPost_fallback (Request.mk m P uri) [] [] P (String.mk X) last (by decide) (by decide)
    hs1 hs2 hs3 hu

/-- C9 (as amended). Fallback rule.  (a) For every GET or POST request that
none of the container, image, networks-list, network, volumes-list and volume
rules classifies and whose path matches the generic two-segment pattern with
last captured segment `s`, `commandParser` returns `"exec" ++ s` when `s` is
one of `start`, `resize`, `json`, and `s` itself otherwise.  (b) For every
version segment `v` that is not a family name, every `a` among `ping`,
`events`, `info`, `version` and every raw request URI that does not contain
`/volumes?`, `ParseCommand` on `GET /v/a` returns the command `a`.  (c) For
every hexadecimal exec id `x` and every raw request URI that does not contain
`/volumes?`, `ParseCommand` on `POST /v/exec/x/start` returns `"execstart"`.
In (b) and (c) the table may or may not have been built before the call. -/
theorem fallback_rule :
    (∀ m path uri whole g1 s : String, (m = "GET" ∨ m = "POST") →
      twoBranchGuard (FindStringSubmatch containersRegexp path) = false →
      twoBranchGuard (FindStringSubmatch imagesRegexp path) = false →
      HasSuffix path "/networks" = false →
      (FindStringSubmatch networksRegexp path).length ≠ 4 →
      HasSuffix path "/volumes" = false → HasSuffix path "/volumes/" = false →
      Contains uri "/volumes?" = false →
      (FindStringSubmatch volumesRegexp path).length ≠ 4 →
      FindStringSubmatch clusterRegExp path = [whole, g1, s] →
      commandParser { Method := m, Path := path, RequestURI := uri } =
        .ok (if s = "start" ∨ s = "resize" ∨ s = "json" then "exec" ++ s else s)) ∧
    (∀ (g : Globals) (v a uri : String), Reachable g → isSegment v = true →
      v ∉ ["containers", "images", "networks", "volumes"] →
      a ∈ ["ping", "events", "info", "version"] → Contains uri "/volumes?" = false →
      (ParseCommand g { Method := "GET", Path := "/" ++ v ++ "/" ++ a, RequestURI := uri }).1 =
        .ok a) ∧
    (∀ (g : Globals) (v x uri : String), Reachable g → isSegment v = true →
      v ∉ ["containers", "images", "networks", "volumes"] → isHex x = true →
      Contains uri "/volumes?" = false →
      (ParseCommand g { Method := "POST", Path := "/" ++ v ++ "/exec/" ++ x ++ "/start",
                        RequestURI := uri }).1 = .ok "execstart") := by
  refine ⟨?_, ?_, ?_⟩
  · intro m path uri whole g1 s hm hc hi h1 hn h2 h3 hu hv hcl
    rw [commandParser_getPost m _ uri hm, getPost_skip_container_image _ _ _ _ _ _ hc hi, hcl]
    exact getPost_fallback _ _ _ _ _ _ hn hv h1 h2 h3 hu
  · intro g v a uri hg hv hfam ha hu
    have hP : ("/" ++ v ++ "/" ++ a).data = joinSegs (([v] ++ [a]).map String.data) := by
      simp [String.data_append, joinSegs]
    have hsegs : ∀ t ∈ [v], isSegment t = true := by
      intro t ht
      rw [List.mem_singleton.mp ht]
      exact hv
    have hfams : ∀ t ∈ [v], t ∉ ["containers", "images", "networks", "volumes"] := by
      intro t ht
      rw [List.mem_singleton.mp ht]
      exact hfam
    simp only [List.mem_cons, List.mem_singleton, List.not_mem_nil, or_false] at ha
    rw [ParseCommand_fst g hg]
    rcases ha with rfl | rfl | rfl | rfl
    · rw [commandParser_fallback_segments "GET" uri _ "ping" [v] (Or.inl rfl) hP (by simp)
        hsegs hfams (by decide) (by decide) (by decide) (by decide) hu]
      decide
    · rw [commandParser_fallback_segments "GET" uri _ "events" [v] (Or.inl rfl) hP (by simp)
        hsegs hfams (by decide) (by decide) (by decide) (by decide) hu]
      decide
    · rw [commandParser_fallback_segments "GET" uri _ "info" [v] (Or.inl rfl) hP (by simp)
        hsegs hfams (by decide) (by decide) (by decide) (by decide) hu]
      decide
    · rw [commandParser_fallback_segments "GET" uri _ "version" [v] (Or.inl rfl) hP (by simp)
        hsegs hfams (by decide) (by decide) (by decide) (by decide) hu]
      decide
  · intro g v x uri hg hv hfam hx hu
    have hP : ("/" ++ v ++ "/exec/" ++ x ++ "/start").data =
        joinSegs (([v, "exec", x] ++ ["start"]).map String.data) := by
      simp [String.data_append, joinSegs]
    have hxs := isHex_isSegment x hx
    have hsegs : ∀ t ∈ [v, "exec", x], isSegment t = true := by
      intro t ht
      simp only [List.mem_cons, List.mem_singleton, List.not_mem_nil, or_false] at ht
      rcases ht with rfl | rfl | rfl
      · exact hv
      · decide
      · exact hxs
    have hfams : ∀ t ∈ [v, "exec", x], t ∉ ["containers", "images", "networks", "volumes"] := by
      intro t ht
      simp only [List.mem_cons, List.mem_singleton, List.not_mem_nil, or_false] at ht
      rcases ht with rfl | rfl | rfl
      · exact hfam
      · decide
      · intro hmem
        simp only [List.mem_cons, List.mem_singleton, List.not_mem_nil, or_false] at hmem
        rcases hmem with rfl | rfl | rfl | rfl <;> exact absurd hx (by decide)
    rw [ParseCommand_fst g hg, commandParser_fallback_segments "POST" uri _ "start"
      [v, "exec", x] (Or.inr rfl) hP (by simp) hsegs hfams (by decide) (by decide) (by decide)
      (by decide) hu]
    decide

/-- Witness for C9: `GET /v1.24/version`, `GET /v1.24/ping` and
`POST /v1.24/exec/0a1b2c/start`. -/
theorem fallback_rule_witness :
    commandParser { Method := "GET", Path := "/v1.24/version", RequestURI := "/v1.24/version" } =
      .ok (if "version" = "start" ∨ "version" = "resize" ∨ "version" = "json"
             then "exec" ++ "version" else "version") ∧
    (ParseCommand Globals.start
      { Method := "GET", Path := "/" ++ "v1.24" ++ "/" ++ "ping",
        RequestURI := "/v1.24/ping" }).1 = .ok "ping" ∧
    (ParseCommand Globals.start
      { Method := "POST", Path := "/" ++ "v1.24" ++ "/exec/" ++ "0a1b2c" ++ "/start",
        RequestURI := "/v1.24/exec/0a1b2c/start" }).1 = .ok "execstart" :=
  ⟨fallback_rule.1 "GET" "/v1.24/version" "/v1.24/version" "/v1.24/version" "v1.24" "version"
      (Or.inl rfl) (by decide) (by decide) (by decide) (by decide) (by decide) (by decide)
      (by decide) (by decide) (by decide),
   fallback_rule.2.1 Globals.start "v1.24" "ping" "/v1.24/ping" Reachable.start (by decide)
      (by decide) (by decide) (by decide),
   fallback_rule.2.2 Globals.start "v1.24" "0a1b2c" "/v1.24/exec/0a1b2c/start" Reachable.start
      (by decide) (by decide) (by decide) (by decide)⟩

/-- C9 (counterexample). With the version segment `v1.24`, which is not a
family name, `GET /v1.24/ping` and `POST /v1.24/exec/0a1b2c/start` are
classified as `volumeslist`, not as `ping` and `execstart`, when the raw
request URI carries a query that contains `/volumes?`: the volumes-list rule
reads the raw URI and comes before the generic rule. -/
theorem fallback_rule_counterexample :
    isSegment "v1.24" = true ∧
    "v1.24" ∉ ["containers", "images", "networks", "volumes"] ∧
    isHex "0a1b2c" = true ∧
    (ParseCommand Globals.start
      { Method := "GET", Path := "/" ++ "v1.24" ++ "/" ++ "ping",
        RequestURI := "/v1.24/ping?name=/volumes?" }).1 = .ok "volumeslist" ∧
    (ParseCommand Globals.start
      { Method := "POST", Path := "/" ++ "v1.24" ++ "/exec/" ++ "0a1b2c" ++ "/start",
        RequestURI := "/v1.24/exec/0a1b2c/start?name=/volumes?" }).1 = .ok "volumeslist" := by
  refine ⟨?_, ?_, ?_, ?_, ?_⟩ <;> decide

/-! ## The bare forms `/networks/<w>` and `/volumes/<w>`

These are the paths on which the create/inspect tests of the network and
volume rules read a populated third group. -/

theorem isWord_no_slash (w : String) (h : isWord w = true) : '/' ∉ w.data := by
  intro m
  exact word_ne_slash _ (isWord_data w h _ m) rfl

theorem getPost_network_bare (r : Request) (v cl : List String) (whole w : String)
    (h : HasSuffix r.Path "/networks" = false) (hw : w ≠ "") :
    commandParserGetPost r [] [whole, "", "", w] v cl [] =
      .ok (if w = "create" then "networkcreate" else "networkinspect") := by
  by_cases hc : w = "create" <;>
    simp [commandParserGetPost, h, hw, hc, index, bind, Except.bind, pure, Except.pure]

/-- On `<optional version segment>/networks/<w>`, with `w` a non-empty run of
word characters other than `networks` and the version segment none of
`containers`, `images`, `networks`, the network rule returns `"networkcreate"`
for `create` and `"networkinspect"` for every other `w`. -/
theorem network_bare_rule (m v w uri : String) (hm : m = "GET" ∨ m = "POST")
    (hv : isVersionPrefix v = true) (hv1 : v ≠ "/containers") (hv2 : v ≠ "/images")
    (hv3 : v ≠ "/networks") (hw : isWord w = true) (hne : w ≠ "") (hwn : w ≠ "networks") :
    commandParser { Method := m, Path := v ++ "/networks/" ++ w, RequestURI := uri } =
      .ok (if w = "create" then "networkcreate" else "networkinspect") := by
  have hW := isWord_no_slash w hw
  have hdata : (v ++ "/networks/" ++ w).data =
      v.data ++ joinSegs (["networks", w].map String.data) := by
    simp [String.data_append, joinSegs]
  have hsl : ∀ t ∈ ["networks", w], '/' ∉ t.data := by
    intro t ht
    simp only [List.mem_cons, List.mem_singleton, List.not_mem_nil, or_false] at ht
    rcases ht with rfl | rfl
    · decide
    · exact hW
  have hdl : ∀ name : String, "networks" ≠ name → ∀ t ∈ ["networks", w].dropLast, t ≠ name := by
    intro name hn t ht
    simp only [List.dropLast, List.mem_singleton] at ht
    rw [ht]
    exact hn
  have hc : FindStringSubmatch containersRegexp (v ++ "/networks/" ++ w) = [] := by
    rw [containersRegexp_eq]
    exact FindStringSubmatch_family_none "/containers/" "containers" v _ _ hdata rfl
      (by decide) hv hv1 hsl (hdl _ (by decide))
  have hi : FindStringSubmatch imagesRegexp (v ++ "/networks/" ++ w) = [] := by
    rw [imagesRegexp_eq]
    exact FindStringSubmatch_family_none "/images/" "images" v _ _ hdata rfl
      (by decide) hv hv2 hsl (hdl _ (by decide))
  have hn := FindStringSubmatch_family_word "/networks/" "networks" v w rfl (by decide)
    hv hv3 hw hne
  have hsuf : HasSuffix (v ++ "/networks/" ++ w) "/networks" = false := by
    refine hasSuffix_last_segment _ _ (v.data ++ ("/networks" : String).data) w.data
      ("networks" : String).data ?_ rfl hW (by decide) (fun e => hwn (String.ext e))
    simp [String.data_append]
  rw [commandParser_getPost m _ uri hm, hc, hi, networksRegexp_eq, hn]
  exact getPost_network_bare _ _ _ _ _ hsuf hne

/-- On `<optional version segment>/volumes/<w>`, with `w` a non-empty run of
word characters other than `volumes` and `networks`, the version segment none
of the four family names and no volumes query in the raw URI, the volume rule
returns `"volumecreate"` for `create` and `"volumeinspect"` for every other
`w`. -/
theorem volume_bare_rule (m v w uri : String) (hm : m = "GET" ∨ m = "POST")
    (hv : isVersionPrefix v = true) (hv1 : v ≠ "/containers") (hv2 : v ≠ "/images")
    (hv3 : v ≠ "/networks") (hv4 : v ≠ "/volumes") (hw : isWord w = true) (hne : w ≠ "")
    (hwv : w ≠ "volumes") (hwn : w ≠ "networks") (hu : Contains uri "/volumes?" = false) :
    commandParser { Method := m, Path := v ++ "/volumes/" ++ w, RequestURI := uri } =
      .ok (if w = "create" then "volumecreate" else "volumeinspect") := by
  have hW := isWord_no_slash w hw
  have hdata : (v ++ "/volumes/" ++ w).data =
      v.data ++ joinSegs (["volumes", w].map String.data) := by
    simp [String.data_append, joinSegs]
  have hsl : ∀ t ∈ ["volumes", w], '/' ∉ t.data := by
    intro t ht
    simp only [List.mem_cons, List.mem_singleton, List.not_mem_nil, or_false] at ht
    rcases ht with rfl | rfl
    · decide
    · exact hW
  have hdl : ∀ name : String, "volumes" ≠ name → ∀ t ∈ ["volumes", w].dropLast, t ≠ name := by
    intro name hn t ht
    simp only [List.dropLast, List.mem_singleton] at ht
    rw [ht]
    exact hn
  have hc : FindStringSubmatch containersRegexp (v ++ "/volumes/" ++ w) = [] := by
    rw [containersRegexp_eq]
    exact FindStringSubmatch_family_none "/containers/" "containers" v _ _ hdata rfl
      (by decide) hv hv1 hsl (hdl _ (by decide))
  have hi : FindStringSubmatch imagesRegexp (v ++ "/volumes/" ++ w) = [] := by
    rw [imagesRegexp_eq]
    exact FindStringSubmatch_family_none "/images/" "images" v _ _ hdata rfl
      (by decide) hv hv2 hsl (hdl _ (by decide))
  have hn : FindStringSubmatch networksRegexp (v ++ "/volumes/" ++ w) = [] := by
    rw [networksRegexp_eq]
    exact FindStringSubmatch_family_none "/networks/" "networks" v _ _ hdata rfl
      (by decide) hv hv3 hsl (hdl _ (by decide))
  have hvol := FindStringSubmatch_family_word "/volumes/" "volumes" v w rfl (by decide)
    hv hv4 hw hne
  have hpd : (v ++ "/volumes/" ++ w).data =
      (v.data ++ ("/volumes" : String).data) ++ '/' :: w.data := by
    simp [String.data_append]
  have hs1 : HasSuffix (v ++ "/volumes/" ++ w) "/networks" = false :=
    hasSuffix_last_segment _ _ _ w.data ("networks" : String).data hpd rfl hW (by decide)
      (fun e => hwn (String.ext e))
  have hs2 : HasSuffix (v ++ "/volumes/" ++ w) "/volumes" = false :=
    hasSuffix_last_segment _ _ _ w.data ("volumes" : String).data hpd rfl hW (by decide)
      (fun e => hwv (String.ext e))
  have hs3 : HasSuffix (v ++ "/volumes/" ++ w) "/volumes/" = false :=
    hasSuffix_slash_end _ _ _ w.data ("/volumes" : String).data hpd rfl hW (data_ne_nil w hne)
  rw [commandParser_getPost m _ uri hm, hc, hi, hn, volumesRegexp_eq, hvol]
  exact getPost_volume (Request.mk m (v ++ "/volumes/" ++ w) uri) [] _ _ "" "" w (by decide)
    hs1 hs2 hs3 hu

/-- C10 (as amended). Container ownership: `IsResourceOwner` with resource type
`"container"` returns true exactly when the snapshot contains a container whose
ID equals `resourceId` and the tenancy-label read of the first such container
(the value of the label, or the empty string when the label is absent) equals
`tenantID`; for a non-empty `tenantID` this is: the label is present with value
`tenantID`.  It returns false when no container has that ID, and being a total
function it never fails. -/
theorem container_ownership (headers : Headers) (cluster : Cluster)
    (tenantID resourceId : String) :
    (IsResourceOwner headers cluster tenantID resourceId "container" = true ↔
      ∃ c, cluster.Containers.find? (fun c => decide (c.Info.ID = resourceId)) = some c ∧
        c.Labels.index headers.TenancyLabel = tenantID) ∧
    (tenantID ≠ "" →
      (IsResourceOwner headers cluster tenantID resourceId "container" = true ↔
        ∃ c, cluster.Containers.find? (fun c => decide (c.Info.ID = resourceId)) = some c ∧
          c.Labels.lookup headers.TenancyLabel = some tenantID)) ∧
    ((∀ c ∈ cluster.Containers, c.Info.ID ≠ resourceId) →
      IsResourceOwner headers cluster tenantID resourceId "container" = false) := by
  have h0 : IsResourceOwner headers cluster tenantID resourceId "container" =
      isContainerOwner headers tenantID resourceId cluster.Containers := by
    simp [IsResourceOwner]
  rw [h0]
  refine ⟨isContainerOwner_iff _ _ _ _, ?_, ?_⟩
  · intro ht
    rw [isContainerOwner_iff]
    constructor
    · rintro ⟨c, hc, hl⟩
      exact ⟨c, hc, (GoMap_index_eq_iff _ _ _ ht).mp hl⟩
    · rintro ⟨c, hc, hl⟩
      exact ⟨c, hc, (GoMap_index_eq_iff _ _ _ ht).mpr hl⟩
  · intro hno
    cases h : isContainerOwner headers tenantID resourceId cluster.Containers with
    | false => rfl
    | true =>
      obtain ⟨c, hc, _⟩ := (isContainerOwner_iff _ _ _ _).mp h
      have hm := List.mem_of_find?_eq_some hc
      have hid := List.find?_some hc
      simp only [decide_eq_true_eq] at hid
      exact absurd hid (hno c hm)

/-- Witness for C10: a snapshot with two containers of tenants `t1` and `t2`;
`t1` owns the first and not the second, and nobody owns an unknown ID. -/
theorem container_ownership_witness :
    (IsResourceOwner { TenancyLabel := "com.swarm.tenant.0", AuthZTenantIdHeaderName := "X-Auth-TenantId" }
        { Containers := [{ Info := { ID := "c1", ExecIDs := [] },
                           Labels := [("com.swarm.tenant.0", "t1")] },
                         { Info := { ID := "c2", ExecIDs := [] },
                           Labels := [("com.swarm.tenant.0", "t2")] }],
          Networks := [] } "t1" "c1" "container" = true ↔
      ∃ c, [({ Info := { ID := "c1", ExecIDs := [] },
               Labels := [("com.swarm.tenant.0", "t1")] } : Container),
            { Info := { ID := "c2", ExecIDs := [] },
              Labels := [("com.swarm.tenant.0", "t2")] }].find?
              (fun c => decide (c.Info.ID = "c1")) = some c ∧
        c.Labels.lookup "com.swarm.tenant.0" = some "t1") ∧
    IsResourceOwner { TenancyLabel := "com.swarm.tenant.0", AuthZTenantIdHeaderName := "X-Auth-TenantId" }
        { Containers := [{ Info := { ID := "c1", ExecIDs := [] },
                           Labels := [("com.swarm.tenant.0", "t1")] },
                         { Info := { ID := "c2", ExecIDs := [] },
                           Labels := [("com.swarm.tenant.0", "t2")] }],
          Networks := [] } "t1" "c3" "container" = false :=
  ⟨(container_ownership _ _ "t1" "c1").2.1 (by decide),
   (container_ownership _ _ "t1" "c3").2.2 (by decide)⟩

/-- C10 (counterexample). A container without any tenancy label is reported as
owned by the empty tenant identity: the read of the absent label gives the
empty string, which equals the empty `tenantID`. -/
theorem container_ownership_counterexample :
    IsResourceOwner { TenancyLabel := "com.swarm.tenant.0", AuthZTenantIdHeaderName := "X-Auth-TenantId" }
        { Containers := [{ Info := { ID := "c1", ExecIDs := [] }, Labels := [] }],
          Networks := [] } "" "c1" "container" = true ∧
    ([] : GoMap).lookup "com.swarm.tenant.0" = none := by
  refine ⟨?_, ?_⟩ <;> decide

/-! ## Network and exec-session ownership -/

theorem HasPrefix_iff (s pre : String) : HasPrefix s pre = true ↔ pre.data <+: s.data := by
  simp [HasPrefix]

theorem isNetworkOwner_iff (tenantID resourceId : String) (ns : List Network) :
    isNetworkOwner tenantID resourceId ns = true ↔
      ∃ n, ns.find? (fun n => decide (n.ID = resourceId)) = some n ∧
        HasPrefix n.Name (ConstructNetworkPrefix tenantID) = true := by
  induction ns with
  | nil => simp [isNetworkOwner]
  | cons n ns ih =>
    by_cases h : n.ID = resourceId
    · simp [isNetworkOwner, h, List.find?]
    · simp [isNetworkOwner, h, List.find?, ih]

theorem IsResourceOwner_network (headers : Headers) (cluster : Cluster)
    (tenantID resourceId : String) :
    IsResourceOwner headers cluster tenantID resourceId "network" =
      isNetworkOwner tenantID resourceId cluster.Networks := by
  have : ("network" : String) ≠ "container" := by decide
  simp [IsResourceOwner, this]

/-- C11. Network ownership: `IsResourceOwner` with resource type `"network"`
returns true exactly when the snapshot contains a network whose ID equals
`resourceId` and the name of the first such network starts with
`ConstructNetworkPrefix tenantID`; it returns false when no network has that
ID; and for every resource type other than `"container"` and `"network"` it
returns false whatever the snapshot contains. -/
theorem network_ownership (headers : Headers) (cluster : Cluster)
    (tenantID resourceId : String) :
    (IsResourceOwner headers cluster tenantID resourceId "network" = true ↔
      ∃ n, cluster.Networks.find? (fun n => decide (n.ID = resourceId)) = some n ∧
        (ConstructNetworkPrefix tenantID).data <+: n.Name.data) ∧
    ((∀ n ∈ cluster.Networks, n.ID ≠ resourceId) →
      IsResourceOwner headers cluster tenantID resourceId "network" = false) ∧
    (∀ resourceType : String, resourceType ≠ "container" → resourceType ≠ "network" →
      IsResourceOwner headers cluster tenantID resourceId resourceType = false) := by
  rw [IsResourceOwner_network]
  refine ⟨?_, ?_, ?_⟩
  · rw [isNetworkOwner_iff]
    constructor
    · rintro ⟨n, hn, hp⟩
      exact ⟨n, hn, (HasPrefix_iff _ _).mp hp⟩
    · rintro ⟨n, hn, hp⟩
      exact ⟨n, hn, (HasPrefix_iff _ _).mpr hp⟩
  · intro hno
    cases h : isNetworkOwner tenantID resourceId cluster.Networks with
    | false => rfl
    | true =>
      obtain ⟨n, hn, _⟩ := (isNetworkOwner_iff _ _ _).mp h
      have hm := List.mem_of_find?_eq_some hn
      have hid := List.find?_some hn
      simp only [decide_eq_true_eq] at hid
      exact absurd hid (hno n hm)
  · intro resourceType h1 h2
    simp [IsResourceOwner, h1, h2]

/-- Witness for C11: a snapshot with the network `sfoo-net1`; nobody owns an
unknown network ID, and the resource type `volume` is owned by nobody. -/
theorem network_ownership_witness :
    IsResourceOwner { TenancyLabel := "com.swarm.tenant.0", AuthZTenantIdHeaderName := "X-Auth-TenantId" }
      { Containers := [], Networks := [{ ID := "n1", Name := "sfoo-net1" }] }
      "Foo" "n2" "network" = false ∧
    IsResourceOwner { TenancyLabel := "com.swarm.tenant.0", AuthZTenantIdHeaderName := "X-Auth-TenantId" }
      { Containers := [], Networks := [{ ID := "n1", Name := "sfoo-net1" }] }
      "Foo" "n1" "volume" = false :=
  ⟨(network_ownership _ _ "Foo" "n2").2.1 (by decide),
   (network_ownership _ _ "Foo" "n1").2.2 "volume" (by decide) (by decide)⟩

theorem verifyExecIDs_none (headers : Headers) (tenantId : String) (vars : GoMap)
    (c : Container) (ids : List String) (h : vars.index "execid" ∉ ids) :
    verifyExecIDs headers tenantId vars c ids = none := by
  induction ids with
  | nil => rfl
  | cons e ids ih =>
    have h1 : e ≠ vars.index "execid" := fun he => h (he ▸ List.mem_cons_self _ _)
    have h2 : vars.index "execid" ∉ ids := fun hm => h (List.mem_cons_of_mem _ hm)
    simp [verifyExecIDs, h1, ih h2]

theorem verifyExecIDs_some (headers : Headers) (tenantId : String) (vars : GoMap)
    (c : Container) (ids : List String) (h : vars.index "execid" ∈ ids) :
    verifyExecIDs headers tenantId vars c ids =
      some (c.Labels.index headers.TenancyLabel == tenantId) := by
  induction ids with
  | nil => cases h
  | cons e ids ih =>
    by_cases he : e = vars.index "execid"
    · simp [verifyExecIDs, he]
    · have hm : vars.index "execid" ∈ ids := by
        rcases List.mem_cons.mp h with h1 | h1
        · exact absurd h1.symm he
        · exact h1
      simp [verifyExecIDs, he, ih hm]

theorem verifyExecContainers_iff (headers : Headers) (tenantId : String) (vars : GoMap)
    (cs : List Container) :
    verifyExecContainers headers tenantId vars cs = true ↔
      ∃ c, cs.find? (fun c => decide (vars.index "execid" ∈ c.Info.ExecIDs)) = some c ∧
        c.Labels.index headers.TenancyLabel = tenantId := by
  induction cs with
  | nil => simp [verifyExecContainers]
  | cons c cs ih =>
    by_cases h : vars.index "execid" ∈ c.Info.ExecIDs
    · simp [verifyExecContainers, verifyExecIDs_some headers tenantId vars c _ h, List.find?, h]
    · simp [verifyExecContainers, verifyExecIDs_none headers tenantId vars c _ h, List.find?, h,
        ih]

/-- C12. Exec-session ownership: with `e` the requested exec-session id (the
route variable `execid`), `VerifyExecContainerTenant` returns true exactly when
some container's exec-session ID list contains `e` and the first such container
in snapshot order has tenancy label (the value its label map gives for the
tenancy-label key) equal to `tenantId`; it returns false when no container
lists `e`. -/
theorem exec_session_ownership (headers : Headers) (cluster : Cluster) (tenantId : String)
    (vars : GoMap) :
    (VerifyExecContainerTenant headers cluster tenantId vars = true ↔
      ∃ c, cluster.Containers.find?
          (fun c => decide (vars.index "execid" ∈ c.Info.ExecIDs)) = some c ∧
        c.Labels.index headers.TenancyLabel = tenantId) ∧
    ((∀ c ∈ cluster.Containers, vars.index "execid" ∉ c.Info.ExecIDs) →
      VerifyExecContainerTenant headers cluster tenantId vars = false) := by
  refine ⟨verifyExecContainers_iff _ _ _ _, ?_⟩
  intro hno
  cases h : VerifyExecContainerTenant headers cluster tenantId vars with
  | false => rfl
  | true =>
    obtain ⟨c, hc, _⟩ := (verifyExecContainers_iff _ _ _ _).mp h
    have hm := List.mem_of_find?_eq_some hc
    have hid := List.find?_some hc
    simp only [decide_eq_true_eq] at hid
    exact absurd hid (hno c hm)

/-- Witness for C12: the exec session `e9` is listed by no container of the
snapshot. -/
theorem exec_session_ownership_witness :
    VerifyExecContainerTenant
      { TenancyLabel := "com.swarm.tenant.0", AuthZTenantIdHeaderName := "X-Auth-TenantId" }
      { Containers := [{ Info := { ID := "c1", ExecIDs := ["e1", "e2"] },
                         Labels := [("com.swarm.tenant.0", "t1")] }],
        Networks := [] } "t1" [("execid", "e9")] = false :=
  (exec_session_ownership _ _ "t1" [("execid", "e9")]).2 (by decide)

/-! ## The name prefix -/

theorem isUpper_iff (c : Char) : c.isUpper = true ↔ 65 ≤ c.toNat ∧ c.toNat ≤ 90 := by
  simp only [Char.isUpper, Bool.and_eq_true, decide_eq_true_eq, Char.toNat, ge_iff_le]
  rw [UInt32.le_def, UInt32.le_def]
  simp [BitVec.le_def, UInt32.toNat]

theorem toNat_ofNat_valid (n : Nat) (hv : n.isValidChar) : (Char.ofNat n).toNat = n := by
  simp only [Char.ofNat, dif_pos hv, Char.ofNatAux, Char.toNat]
  simp [UInt32.toNat]

theorem toNat_ofNat_small (n : Nat) (h : n < 55296) : (Char.ofNat n).toNat = n :=
  toNat_ofNat_valid n (Or.inl h)

theorem isValidChar_toNat (c : Char) : c.toNat.isValidChar :=
  c.valid

set_option maxRecDepth 100000 in
theorem lowerCaseRangesApart_eq : lowerCaseRangesApart = true := by
  decide!

set_option maxRecDepth 100000 in
theorem lowerCaseRangesValid_eq : lowerCaseRangesValid = true := by
  decide!

theorem CaseRange.apart_spec (r q : CaseRange) (h : r.apart q = true) (n : Nat)
    (hn : r.contains n = true) : q.contains (r.form + (n - r.lo)) = false := by
  simp only [CaseRange.contains, Bool.and_eq_true, decide_eq_true_eq, beq_iff_eq] at hn
  obtain ⟨⟨h1, h2⟩, h3⟩ := hn
  simp only [CaseRange.apart, Bool.or_eq_true, Bool.and_eq_true, decide_eq_true_eq, beq_iff_eq,
    Bool.not_eq_true'] at h
  rw [Bool.eq_false_iff]
  intro hq
  simp only [CaseRange.contains, Bool.and_eq_true, decide_eq_true_eq, beq_iff_eq] at hq
  obtain ⟨⟨q1, q2⟩, q3⟩ := hq
  rcases h with ((h | h) | ⟨⟨⟨hr, hs⟩, hl⟩, hm⟩) | ⟨he, hc⟩
  · omega
  · omega
  · rw [hr] at h3
    rw [hs] at q3
    omega
  · have e : n = r.lo := by omega
    rw [e, Nat.sub_self, Nat.add_zero] at q1 q2 q3
    have : q.contains r.form = true := by
      simp only [CaseRange.contains, Bool.and_eq_true, decide_eq_true_eq, beq_iff_eq]
      exact ⟨⟨q1, q2⟩, q3⟩
    rw [this] at hc
    cases hc

theorem caseForm_of_none (ranges : List CaseRange) (n : Nat)
    (h : ∀ q ∈ ranges, q.contains n = false) : caseForm ranges n = n := by
  have : ranges.find? (fun r => r.contains n) = none := by
    rw [List.find?_eq_none]
    intro q hq
    simp [h q hq]
  simp [caseForm, this]

theorem toLowerCode_of_none (n : Nat) (h : ∀ q ∈ lowerCaseRanges, q.contains n = false)
    (h2 : ¬ (65 ≤ n ∧ n ≤ 90)) : toLowerCode n = n := by
  unfold toLowerCode
  by_cases h1 : n ≤ 127
  · rw [if_pos h1, if_neg h2]
  · rw [if_neg h1]
    exact caseForm_of_none _ _ h

theorem toLowerCode_cases (n : Nat) :
    (65 ≤ n ∧ n ≤ 90 ∧ toLowerCode n = n + 32) ∨ toLowerCode n = n ∨
    (127 < n ∧ ∃ r ∈ lowerCaseRanges, r.contains n = true ∧
      toLowerCode n = r.form + (n - r.lo)) := by
  by_cases h : n ≤ 127
  · by_cases hu : 65 ≤ n ∧ n ≤ 90
    · left
      refine ⟨hu.1, hu.2, ?_⟩
      unfold toLowerCode
      rw [if_pos h, if_pos hu]
    · right
      left
      unfold toLowerCode
      rw [if_pos h, if_neg hu]
  · right
    cases hf : lowerCaseRanges.find? (fun r => r.contains n) with
    | none =>
      left
      unfold toLowerCode
      rw [if_neg h]
      simp [caseForm, hf]
    | some r =>
      right
      have hc := List.find?_some hf
      refine ⟨by omega, r, List.mem_of_find?_eq_some hf, hc, ?_⟩
      unfold toLowerCode
      rw [if_neg h]
      simp [caseForm, hf]

theorem toLowerCode_toLowerCode (n : Nat) : toLowerCode (toLowerCode n) = toLowerCode n := by
  rcases toLowerCode_cases n with ⟨h1, h2, e⟩ | e | ⟨_, r, hr, hc, e⟩
  · rw [e]
    unfold toLowerCode
    rw [if_pos (by omega), if_neg (by omega)]
  · rw [e, e]
  · rw [e]
    have hall := lowerCaseRangesApart_eq
    simp only [lowerCaseRangesApart, List.all_eq_true, Bool.and_eq_true] at hall
    apply toLowerCode_of_none
    · intro q hq
      exact CaseRange.apart_spec r q ((hall r hr).2 q hq) n hc
    · have := CaseRange.apart_spec r (CaseRange.mk 65 90 1 97) (hall r hr).1 n hc
      intro hu
      simp [CaseRange.contains, hu.1, hu.2, Nat.mod_one] at this

theorem toLowerCode_valid (n : Nat) (hv : n.isValidChar) : (toLowerCode n).isValidChar := by
  rcases toLowerCode_cases n with ⟨h1, h2, e⟩ | e | ⟨_, r, hr, hc, e⟩
  · rw [e]
    exact Or.inl (by omega)
  · rw [e]
    exact hv
  · rw [e]
    have hall := lowerCaseRangesValid_eq
    simp only [lowerCaseRangesValid, List.all_eq_true, Bool.and_eq_true, Bool.or_eq_true,
      decide_eq_true_eq] at hall
    have := hall r hr
    simp only [CaseRange.contains, Bool.and_eq_true, decide_eq_true_eq, beq_iff_eq] at hc
    rcases this with ⟨_, h | ⟨h, h'⟩⟩
    · exact Or.inl (by omega)
    · exact Or.inr ⟨by omega, by omega⟩

theorem toNat_unicodeToLower (c : Char) : (unicodeToLower c).toNat = toLowerCode c.toNat :=
  toNat_ofNat_valid _ (toLowerCode_valid _ (isValidChar_toNat c))

theorem unicodeToLower_unicodeToLower (c : Char) :
    unicodeToLower (unicodeToLower c) = unicodeToLower c := by
  show Char.ofNat (toLowerCode (unicodeToLower c).toNat) = Char.ofNat (toLowerCode c.toNat)
  rw [toNat_unicodeToLower, toLowerCode_toLowerCode]

theorem isUpper_of_unicodeToLower_eq (c : Char) (h : unicodeToLower c = c) :
    c.isUpper = false := by
  cases hu : c.isUpper with
  | false => rfl
  | true =>
    have hr := (isUpper_iff c).mp hu
    have e := toNat_unicodeToLower c
    rw [h] at e
    unfold toLowerCode at e
    rw [if_pos (by omega), if_pos hr] at e
    omega

theorem isUpper_unicodeToLower (c : Char) : (unicodeToLower c).isUpper = false :=
  isUpper_of_unicodeToLower_eq _ (unicodeToLower_unicodeToLower c)

theorem unicodeToLower_eq_of_charSameUpToCase (c d : Char) (h : charSameUpToCase c d = true) :
    unicodeToLower c = unicodeToLower d := by
  simp only [charSameUpToCase, Bool.or_eq_true, beq_iff_eq] at h
  rcases h with (h | h) | h
  · rw [h]
  · rw [← h, unicodeToLower_unicodeToLower]
  · rw [← h, unicodeToLower_unicodeToLower]

theorem map_unicodeToLower_of_sameUpToCase (s t : List Char) (h : sameUpToCase s t = true) :
    s.map unicodeToLower = t.map unicodeToLower := by
  induction s generalizing t with
  | nil =>
    cases t with
    | nil => rfl
    | cons d t => simp [sameUpToCase] at h
  | cons c s ih =>
    cases t with
    | nil => simp [sameUpToCase] at h
    | cons d t =>
      simp only [sameUpToCase, Bool.and_eq_true] at h
      simp [unicodeToLower_eq_of_charSameUpToCase c d h.1, ih t h.2]

theorem ToLower_ToLower (s : String) : ToLower (ToLower s) = ToLower s := by
  apply String.ext
  show (s.data.map unicodeToLower).map unicodeToLower = s.data.map unicodeToLower
  rw [List.map_map]
  apply List.map_congr_left
  intro c _
  exact unicodeToLower_unicodeToLower c

theorem ConstructNetworkPrefix_data (t : String) :
    (ConstructNetworkPrefix t).data = 's' :: ((ToLower t).data ++ ['-']) := by
  simp [ConstructNetworkPrefix, String.data_append]

/-- C13. Name Prefix injectivity up to case: for all tenant identities `a` and
`b`, `ConstructNetworkPrefix a = ConstructNetworkPrefix b` if and only if
`ToLower a = ToLower b`; in particular two tenant identities whose lowercase
forms differ never receive the same prefix. -/
theorem prefix_injective_up_to_case (a b : String) :
    (ConstructNetworkPrefix a = ConstructNetworkPrefix b ↔ ToLower a = ToLower b) ∧
    (ToLower a ≠ ToLower b → ConstructNetworkPrefix a ≠ ConstructNetworkPrefix b) := by
  have h : ConstructNetworkPrefix a = ConstructNetworkPrefix b ↔ ToLower a = ToLower b := by
    constructor
    · intro e
      have := congrArg String.data e
      rw [ConstructNetworkPrefix_data, ConstructNetworkPrefix_data] at this
      simp only [List.cons.injEq, true_and] at this
      exact String.ext (List.append_cancel_right this)
    · intro e
      simp [ConstructNetworkPrefix, e]
  exact ⟨h, fun hne e => hne (h.mp e)⟩

/-- Witness for C13: the tenants `Foo` and `Bar`. -/
theorem prefix_injective_up_to_case_witness :
    ConstructNetworkPrefix "Foo" ≠ ConstructNetworkPrefix "Bar" :=
  (prefix_injective_up_to_case "Foo" "Bar").2 (by decide)

/-- C14 (as amended). Name Prefix case handling: for every tenantID `t`,
`ConstructNetworkPrefix t` equals `"s" ++ ToLower t ++ "-"`; it is unchanged by
lowercasing: none of its characters has another lower-case form, and none is
one of the capital letters `A`-`Z`; and it equals `ConstructNetworkPrefix t'`
for every `t'` of the length of `t` that differs from `t` only where one of the
two characters is the lower-case form of the other.  The prefix of `Foo` and of
`foo` is `sfoo-`, and the prefix of `ÉCOLE` is `sécole-`. -/
theorem prefix_case_handling (t : String) :
    ConstructNetworkPrefix t = "s" ++ ToLower t ++ "-" ∧
    ToLower (ConstructNetworkPrefix t) = ConstructNetworkPrefix t ∧
    (∀ c ∈ (ConstructNetworkPrefix t).data, unicodeToLower c = c ∧ c.isUpper = false) ∧
    (∀ t' : String, sameUpToCase t.data t'.data = true →
      ConstructNetworkPrefix t = ConstructNetworkPrefix t') ∧
    ConstructNetworkPrefix "Foo" = "sfoo-" ∧ ConstructNetworkPrefix "foo" = "sfoo-" ∧
    ConstructNetworkPrefix "ÉCOLE" = "sécole-" := by
  have hfix : ∀ c ∈ (ConstructNetworkPrefix t).data, unicodeToLower c = c := by
    intro c hc
    rw [ConstructNetworkPrefix_data] at hc
    have h2 : (ToLower t).data = t.data.map unicodeToLower := rfl
    rw [h2] at hc
    simp only [List.mem_cons, List.mem_append, List.mem_map, List.mem_singleton,
      List.not_mem_nil, or_false] at hc
    rcases hc with rfl | ⟨d, _, rfl⟩ | rfl
    · decide
    · exact unicodeToLower_unicodeToLower d
    · decide
  refine ⟨rfl, ?_, ?_, ?_, by decide, by decide, by decide⟩
  · apply String.ext
    show (ConstructNetworkPrefix t).data.map unicodeToLower = (ConstructNetworkPrefix t).data
    conv => rhs; rw [← List.map_id (ConstructNetworkPrefix t).data]
    apply List.map_congr_left
    intro c hc
    exact hfix c hc
  · intro c hc
    exact ⟨hfix c hc, isUpper_of_unicodeToLower_eq c (hfix c hc)⟩
  · intro t' h
    have : ToLower t = ToLower t' := by
      apply String.ext
      exact map_unicodeToLower_of_sameUpToCase _ _ h
    simp [ConstructNetworkPrefix, this]

/-- Witness for C14: `Éa` and `éA` differ only in letter case. -/
theorem prefix_case_handling_witness :
    sameUpToCase "Éa".data "éA".data = true ∧
    ConstructNetworkPrefix "Éa" = ConstructNetworkPrefix "éA" :=
  ⟨by decide, (prefix_case_handling "Éa").2.2.2.1 "éA" (by decide)⟩

/-- C14 (counterexample). The letter U+2102 (double-struck capital C) is an
upper-case letter that has no lower-case form: `strings.ToLower` keeps it, so
the prefix of the tenant U+2102 contains an upper-case letter.  The tenant `S`
is the upper-case form of the tenant U+017F (the long s), so the two differ
only in letter case, but the lower-case form of `S` is `s` and that of the long
s is the long s itself: the two tenants get different prefixes. -/
theorem prefix_case_handling_counterexample :
    unicodeIsUpper (Char.ofNat 0x2102) = true ∧
    Char.ofNat 0x2102 ∈ (ConstructNetworkPrefix (String.singleton (Char.ofNat 0x2102))).data ∧
    ToUpper "ſ" = "S" ∧
    ConstructNetworkPrefix "ſ" = "sſ-" ∧
    ConstructNetworkPrefix "S" = "ss-" ∧
    ConstructNetworkPrefix "ſ" ≠ ConstructNetworkPrefix (ToUpper "ſ") := by
  decide

/-! ## The network-list filter -/

theorem cutAt_slash_cons (c : Char) (s : List Char) :
    cutAt ['/'] (c :: s) =
      if c = '/' then some ([], s)
      else
        match cutAt ['/'] s with
        | some (a, b) => some (c :: a, b)
        | none => none := by
  by_cases hc : c = '/'
  · subst hc
    simp [cutAt, List.isPrefixOf]
  · have hc1 : ¬ '/' = c := fun e => hc e.symm
    simp [cutAt, List.isPrefixOf, hc, hc1]

theorem cutAt_slash_none (s : List Char) (h : '/' ∉ s) : cutAt ['/'] s = none := by
  induction s with
  | nil => rfl
  | cons c s ih =>
    have hc : c ≠ '/' := fun e => h (e ▸ List.mem_cons_self _ _)
    have hs : '/' ∉ s := fun m => h (List.mem_cons_of_mem _ m)
    rw [cutAt_slash_cons, if_neg hc, ih hs]

theorem cutAt_slash_some (s a b : List Char) (h : cutAt ['/'] s = some (a, b)) :
    s = a ++ '/' :: b ∧ '/' ∉ a := by
  induction s generalizing a with
  | nil => simp [cutAt, List.isPrefixOf] at h
  | cons c s ih =>
    rw [cutAt_slash_cons] at h
    by_cases hc : c = '/'
    · rw [if_pos hc] at h
      simp only [Option.some.injEq, Prod.mk.injEq] at h
      obtain ⟨rfl, rfl⟩ := h
      subst hc
      simp
    · rw [if_neg hc] at h
      cases hr : cutAt ['/'] s with
      | none => simp [hr] at h
      | some ab =>
        obtain ⟨a1, b1⟩ := ab
        simp only [hr, Option.some.injEq, Prod.mk.injEq] at h
        obtain ⟨rfl, rfl⟩ := h
        obtain ⟨e, hn⟩ := ih a1 hr
        refine ⟨by rw [e]; rfl, ?_⟩
        intro m
        rcases List.mem_cons.mp m with m | m
        · exact hc m.symm
        · exact hn m

theorem not_mem_of_cutAt_slash_none (s : List Char) (h : cutAt ['/'] s = none) : '/' ∉ s := by
  induction s with
  | nil => simp
  | cons c s ih =>
    rw [cutAt_slash_cons] at h
    by_cases hc : c = '/'
    · rw [if_pos hc] at h
      cases h
    · rw [if_neg hc] at h
      cases hr : cutAt ['/'] s with
      | none =>
        intro m
        rcases List.mem_cons.mp m with m | m
        · exact hc m.symm
        · exact ih hr m
      | some ab => simp [hr] at h

theorem afterFirstSlash_of_no_slash (name : String) (h : '/' ∉ name.data) :
    afterFirstSlash name = name := by
  simp [afterFirstSlash, cutAt_slash_none _ h]

theorem afterLastSlashList_of_no_slash (s : List Char) (h : '/' ∉ s) :
    afterLastSlashList s = s := by
  cases s with
  | nil => rfl
  | cons c s =>
    have hc : c ≠ '/' := fun e => h (e ▸ List.mem_cons_self _ _)
    have hs : '/' ∉ s := fun m => h (List.mem_cons_of_mem _ m)
    simp [afterLastSlashList, hc, hs]

theorem afterLastSlashList_append (a b : List Char) (hb : '/' ∉ b) :
    afterLastSlashList (a ++ '/' :: b) = b := by
  induction a with
  | nil => simp [afterLastSlashList, hb]
  | cons c a ih => simp [afterLastSlashList, ih]

/-- For a name with at most one `/` the part after the first `/` is the part
after the last `/`. -/
theorem afterFirstSlash_eq_afterLastSlash (name : String) (h : name.data.count '/' ≤ 1) :
    afterFirstSlash name = afterLastSlash name := by
  unfold afterFirstSlash afterLastSlash
  cases hc : cutAt ['/'] name.data with
  | none =>
    have hn := not_mem_of_cutAt_slash_none _ hc
    simp [afterLastSlashList_of_no_slash _ hn]
  | some ab =>
    obtain ⟨a, b⟩ := ab
    obtain ⟨e, _⟩ := cutAt_slash_some _ a b hc
    have hb : '/' ∉ b := by
      intro m
      rw [e] at h
      have : 0 < b.count '/' := List.count_pos_iff.mpr m
      simp [List.count_append] at h
      omega
    simp only
    rw [e, afterLastSlashList_append a b hb]

theorem index_last_SplitN (name : String) :
    index (SplitN name "/" 2) ((SplitN name "/" 2).length - 1) = .ok (afterFirstSlash name) := by
  have hs : ("/" : String).data = ['/'] := rfl
  unfold SplitN afterFirstSlash
  rw [hs]
  simp only [splitN]
  cases hc : cutAt ['/'] name.data with
  | none => simp [index]
  | some ab =>
    obtain ⟨a, b⟩ := ab
    simp [index]

/-- The loop of `FilterNetworks` never panics; it keeps, in order, the networks
whose name after the first `/` starts with the prefix, with that part of the
name, the prefix trimmed, as the new name. -/
theorem filterCandidates_eq (p : String) (nets : List Network) :
    filterCandidates p nets =
      .ok ((nets.filter (fun n => HasPrefix (afterFirstSlash n.Name) p)).map
        (fun n => { n with Name := TrimPrefix (afterFirstSlash n.Name) p })) := by
  induction nets with
  | nil => rfl
  | cons n nets ih =>
    simp only [filterCandidates, index_last_SplitN, ih]
    by_cases h : HasPrefix (afterFirstSlash n.Name) p = true
    · simp [h, List.filter_cons]
    · simp [h, List.filter_cons]

theorem HasPrefix_eq_decide (s p : String) : HasPrefix s p = decide (p.data <+: s.data) := by
  rw [Bool.eq_iff_iff]
  simp [HasPrefix]

theorem TrimPrefix_append (s p : String) (h : HasPrefix s p = true) :
    p ++ TrimPrefix s p = s := by
  obtain ⟨t, ht⟩ := (HasPrefix_iff s p).mp h
  apply String.ext
  simp [TrimPrefix, h, String.data_append, ← ht]

theorem FilterNetworks_eq (json : JSONCodec) (headers : Headers) (rHeader : HTTPHeader)
    (body t : String) (nets : List Network) (hd : json.decode body = some nets)
    (ht : rHeader.Get headers.AuthZTenantIdHeaderName = t) :
    FilterNetworks json headers rHeader body =
      .ok (json.encode
        ((nets.filter (fun n => HasPrefix (afterFirstSlash n.Name) (ConstructNetworkPrefix t))).map
          (fun n => { n with
            Name := TrimPrefix (afterFirstSlash n.Name) (ConstructNetworkPrefix t) }))) := by
  simp [FilterNetworks, hd, ht, filterCandidates_eq]

/-- C17. Network-list filter result: for every decodable network list whose
names contain no `/` and every tenant `t`, `FilterNetworks` returns (encoded)
exactly, in input order, the networks whose name starts with
`ConstructNetworkPrefix t`, each with that prefix removed once from the front
of its name and every other field unchanged, and no other network; for the
names `sfoo-net1` and `sbar-net2` and the tenant `foo` the result is the single
network named `net1`. -/
theorem network_list_filter_result :
    (∀ (json : JSONCodec) (headers : Headers) (rHeader : HTTPHeader) (body t : String)
      (nets : List Network), json.decode body = some nets →
      rHeader.Get headers.AuthZTenantIdHeaderName = t → (∀ n ∈ nets, '/' ∉ n.Name.data) →
      FilterNetworks json headers rHeader body =
        .ok (json.encode
          ((nets.filter (fun n => decide ((ConstructNetworkPrefix t).data <+: n.Name.data))).map
            (fun n => { n with Name := TrimPrefix n.Name (ConstructNetworkPrefix t) })))) ∧
    (∀ name p : String, p.data <+: name.data → p ++ TrimPrefix name p = name) ∧
    (∀ (json : JSONCodec) (headers : Headers) (rHeader : HTTPHeader) (body : String),
      json.decode body =
        some [{ ID := "n1", Name := "sfoo-net1" }, { ID := "n2", Name := "sbar-net2" }] →
      rHeader.Get headers.AuthZTenantIdHeaderName = "foo" →
      FilterNetworks json headers rHeader body =
        .ok (json.encode [{ ID := "n1", Name := "net1" }])) := by
  refine ⟨?_, ?_, ?_⟩
  · intro json headers rHeader body t nets hd ht hs
    rw [FilterNetworks_eq json headers rHeader body t nets hd ht]
    have hf : nets.filter (fun n => HasPrefix (afterFirstSlash n.Name) (ConstructNetworkPrefix t)) =
        nets.filter (fun n => decide ((ConstructNetworkPrefix t).data <+: n.Name.data)) := by
      apply List.filter_congr
      intro n hn
      rw [afterFirstSlash_of_no_slash _ (hs n hn)]
      exact HasPrefix_eq_decide _ _
    rw [hf]
    congr 2
    apply List.map_congr_left
    intro n hn
    rw [afterFirstSlash_of_no_slash _ (hs n (List.mem_of_mem_filter hn))]
  · intro name p h
    exact TrimPrefix_append name p ((HasPrefix_iff name p).mpr h)
  · intro json headers rHeader body hd ht
    rw [FilterNetworks_eq json headers rHeader body "foo" _ hd ht]
    congr 2

/-- Witness for C17: a list of two networks without `/` in their names, with a
body decoder that always yields this list. -/
theorem network_list_filter_result_witness :
    FilterNetworks
      { decode := fun _ => some [{ ID := "n1", Name := "sfoo-net1" },
                                 { ID := "n2", Name := "sbar-net2" }],
        encode := fun _ => some "" }
      { TenancyLabel := "com.swarm.tenant.0", AuthZTenantIdHeaderName := "X-Auth-TenantId" }
      { Get := fun _ => "Foo" } "" =
      .ok (some "") ∧
    "sfoo-" ++ TrimPrefix "sfoo-net1" "sfoo-" = "sfoo-net1" :=
  ⟨network_list_filter_result.1
      { decode := fun _ => some [{ ID := "n1", Name := "sfoo-net1" },
                                 { ID := "n2", Name := "sbar-net2" }],
        encode := fun _ => some "" }
      { TenancyLabel := "com.swarm.tenant.0", AuthZTenantIdHeaderName := "X-Auth-TenantId" }
      { Get := fun _ => "Foo" } "" "Foo" _ rfl rfl (by decide),
   network_list_filter_result.2.1 "sfoo-net1" "sfoo-" (by decide)⟩

/-- C18 (as amended). The network-list filter strips up to the first `/`: for
every decodable network list and every tenant `t`, `FilterNetworks` retains a
network if and only if the part of its name after the first `/` (the whole
name when it has no `/`) starts with `ConstructNetworkPrefix t`, and the
returned name is that part with the prefix removed; for a name with at most
one `/` that part is the part after the last `/`. -/
theorem network_filter_strips_first_slash (json : JSONCodec) (headers : Headers)
    (rHeader : HTTPHeader) (body t : String) (nets : List Network)
    (hd : json.decode body = some nets)
    (ht : rHeader.Get headers.AuthZTenantIdHeaderName = t) :
    FilterNetworks json headers rHeader body =
      .ok (json.encode
        ((nets.filter (fun n =>
            decide ((ConstructNetworkPrefix t).data <+: (afterFirstSlash n.Name).data))).map
          (fun n => { n with
            Name := TrimPrefix (afterFirstSlash n.Name) (ConstructNetworkPrefix t) }))) ∧
    (∀ n ∈ nets, (ConstructNetworkPrefix t).data <+: (afterFirstSlash n.Name).data →
      ConstructNetworkPrefix t ++ TrimPrefix (afterFirstSlash n.Name) (ConstructNetworkPrefix t) =
        afterFirstSlash n.Name) ∧
    (∀ n ∈ nets, n.Name.data.count '/' ≤ 1 → afterFirstSlash n.Name = afterLastSlash n.Name) := by
  refine ⟨?_, ?_, ?_⟩
  · rw [FilterNetworks_eq json headers rHeader body t nets hd ht]
    have hf : nets.filter (fun n => HasPrefix (afterFirstSlash n.Name) (ConstructNetworkPrefix t)) =
        nets.filter (fun n =>
          decide ((ConstructNetworkPrefix t).data <+: (afterFirstSlash n.Name).data)) := by
      apply List.filter_congr
      intro n _
      exact HasPrefix_eq_decide _ _
    rw [hf]
  · intro n _ h
    exact TrimPrefix_append _ _ ((HasPrefix_iff _ _).mpr h)
  · intro n _ h
    exact afterFirstSlash_eq_afterLastSlash n.Name h

/-- Witness for C18: the swarm name `node1/sfoo-net1`, with a body decoder that
always yields the one-network list. -/
theorem network_filter_strips_first_slash_witness :
    FilterNetworks
      { decode := fun _ => some [{ ID := "n1", Name := "node1/sfoo-net1" }],
        encode := fun l => some (String.join (l.map (fun n => n.Name))) }
      { TenancyLabel := "com.swarm.tenant.0", AuthZTenantIdHeaderName := "X-Auth-TenantId" }
      { Get := fun _ => "foo" } "" =
      .ok (some "net1") :=
  (network_filter_strips_first_slash
    { decode := fun _ => some [{ ID := "n1", Name := "node1/sfoo-net1" }],
      encode := fun l => some (String.join (l.map (fun n => n.Name))) }
    { TenancyLabel := "com.swarm.tenant.0", AuthZTenantIdHeaderName := "X-Auth-TenantId" }
    { Get := fun _ => "foo" } "" "foo" _ rfl rfl).1

/-- C18 (counterexample). On the name `a/b/sfoo-net1` the part after the last
`/` starts with the prefix of tenant `foo`, yet the network is dropped: the
name is split at its first `/` only.  On `x/sfoo-a/b` the part after the last
`/` does not start with the prefix, yet the network is retained, as `a/b`. -/
theorem network_filter_strips_first_slash_counterexample :
    afterLastSlash "a/b/sfoo-net1" = "sfoo-net1" ∧
    HasPrefix "sfoo-net1" (ConstructNetworkPrefix "foo") = true ∧
    SplitN "a/b/sfoo-net1" "/" 2 = ["a", "b/sfoo-net1"] ∧
    filterCandidates (ConstructNetworkPrefix "foo") [{ ID := "n1", Name := "a/b/sfoo-net1" }] =
      .ok [] ∧
    afterLastSlash "x/sfoo-a/b" = "b" ∧
    filterCandidates (ConstructNetworkPrefix "foo") [{ ID := "n2", Name := "x/sfoo-a/b" }] =
      .ok [{ ID := "n2", Name := "a/b" }] := by
  refine ⟨?_, ?_, ?_, ?_, ?_, ?_⟩ <;> decide

/-- C19 (as amended). Every network in the output of `FilterNetworks` comes
from a network of the input, with the same ID and the same other fields, and
its name is the part of the input name after the first `/` with
`ConstructNetworkPrefix t` removed once from its front; so a name in the output
starts with the prefix exactly when that part of the input name starts with the
prefix twice. -/
theorem filtered_names_prefix_removed_once (json : JSONCodec) (headers : Headers)
    (rHeader : HTTPHeader) (body t : String) (nets : List Network)
    (hd : json.decode body = some nets)
    (ht : rHeader.Get headers.AuthZTenantIdHeaderName = t) :
    ∃ out, FilterNetworks json headers rHeader body = .ok (json.encode out) ∧
      ∀ m ∈ out, ∃ n ∈ nets, m.ID = n.ID ∧ m.Other = n.Other ∧
        ConstructNetworkPrefix t ++ m.Name = afterFirstSlash n.Name ∧
        ((ConstructNetworkPrefix t).data <+: m.Name.data ↔
          (ConstructNetworkPrefix t ++ ConstructNetworkPrefix t).data <+:
            (afterFirstSlash n.Name).data) := by
  refine ⟨_, FilterNetworks_eq json headers rHeader body t nets hd ht, ?_⟩
  intro m hm
  obtain ⟨n, hn, rfl⟩ := List.mem_map.mp hm
  have hp := (List.mem_filter.mp hn).2
  have e := TrimPrefix_append _ _ hp
  refine ⟨n, List.mem_of_mem_filter hn, rfl, rfl, e, ?_⟩
  have e1 := congrArg String.data e
  simp only [String.data_append] at e1 ⊢
  rw [← e1]
  exact (List.prefix_append_right_inj _).symm

/-- Witness for C19: the name `sfoo-net1` becomes `net1`. -/
theorem filtered_names_prefix_removed_once_witness :
    ∃ out : List Network, FilterNetworks
        { decode := fun _ => some [{ ID := "n1", Name := "sfoo-net1" }],
          encode := fun _ => some "" }
        { TenancyLabel := "com.swarm.tenant.0", AuthZTenantIdHeaderName := "X-Auth-TenantId" }
        { Get := fun _ => "foo" } "" =
        .ok (some "") ∧
      ∀ m ∈ out, ∃ n ∈ [({ ID := "n1", Name := "sfoo-net1" } : Network)],
        m.ID = n.ID ∧ m.Other = n.Other ∧
        ConstructNetworkPrefix "foo" ++ m.Name = afterFirstSlash n.Name ∧
        ((ConstructNetworkPrefix "foo").data <+: m.Name.data ↔
          (ConstructNetworkPrefix "foo" ++ ConstructNetworkPrefix "foo").data <+:
            (afterFirstSlash n.Name).data) :=
  filtered_names_prefix_removed_once
    { decode := fun _ => some [{ ID := "n1", Name := "sfoo-net1" }],
      encode := fun _ => some "" }
    { TenancyLabel := "com.swarm.tenant.0", AuthZTenantIdHeaderName := "X-Auth-TenantId" }
    { Get := fun _ => "foo" } "" "foo" _ rfl rfl

/-- C19 (counterexample). The network `sfoo-sfoo-net1` of tenant `foo` is
returned with the name `sfoo-net1`, which starts with the prefix of `foo`. -/
theorem filtered_names_prefix_removed_once_counterexample :
    filterCandidates (ConstructNetworkPrefix "foo") [{ ID := "n1", Name := "sfoo-sfoo-net1" }] =
      .ok [{ ID := "n1", Name := "sfoo-net1" }] ∧
    HasPrefix "sfoo-net1" (ConstructNetworkPrefix "foo") = true := by
  refine ⟨?_, ?_⟩ <;> decide

/-! ## Tenant isolation of networks -/

theorem prefixes_comparable (p q s : List Char) (hp : p <+: s) (hq : q <+: s) :
    p <+: q ∨ q <+: p := by
  rcases Nat.le_total p.length q.length with h | h
  · exact Or.inl (List.prefix_of_prefix_length_le hp hq h)
  · exact Or.inr (List.prefix_of_prefix_length_le hq hp h)

theorem prefix_not_prefix_of_no_dash (a b : String) (hne : ToLower a ≠ ToLower b)
    (ha : '-' ∉ (ToLower a).data) (hb : '-' ∉ (ToLower b).data) :
    ¬ (ConstructNetworkPrefix a).data <+: (ConstructNetworkPrefix b).data := by
  rw [ConstructNetworkPrefix_data, ConstructNetworkPrefix_data]
  rintro ⟨t, ht⟩
  simp only [List.cons_append, List.cons.injEq, true_and, List.append_assoc,
    List.singleton_append] at ht
  have := append_sep_inj '-' (ToLower a).data (ToLower b).data t [] ht ha hb
  exact hne (String.ext this.1)

/-- C20 (as amended). Tenant isolation of networks: for every cluster snapshot,
every network ID in it and every two tenant identities `a` and `b` neither of
whose Name Prefixes is a prefix of the other, `IsResourceOwner` for `a` and for
`b` are not both true, and no network is retained by the loop of
`FilterNetworks` for both `a` and `b`.  The condition on the prefixes holds
whenever the lowercase forms of `a` and `b` differ and contain no `-`. -/
theorem network_tenant_isolation :
    (∀ (headers : Headers) (cluster : Cluster) (id a b : String),
      ¬ (ConstructNetworkPrefix a).data <+: (ConstructNetworkPrefix b).data →
      ¬ (ConstructNetworkPrefix b).data <+: (ConstructNetworkPrefix a).data →
      ¬ (IsResourceOwner headers cluster a id "network" = true ∧
         IsResourceOwner headers cluster b id "network" = true)) ∧
    (∀ (n : Network) (a b : String),
      ¬ (ConstructNetworkPrefix a).data <+: (ConstructNetworkPrefix b).data →
      ¬ (ConstructNetworkPrefix b).data <+: (ConstructNetworkPrefix a).data →
      filterCandidates (ConstructNetworkPrefix a) [n] = .ok [] ∨
      filterCandidates (ConstructNetworkPrefix b) [n] = .ok []) ∧
    (∀ a b : String, ToLower a ≠ ToLower b → '-' ∉ (ToLower a).data → '-' ∉ (ToLower b).data →
      ¬ (ConstructNetworkPrefix a).data <+: (ConstructNetworkPrefix b).data ∧
      ¬ (ConstructNetworkPrefix b).data <+: (ConstructNetworkPrefix a).data) := by
  refine ⟨?_, ?_, ?_⟩
  · intro headers cluster id a b hab hba ⟨h1, h2⟩
    rw [IsResourceOwner_network] at h1 h2
    obtain ⟨n1, hf1, hp1⟩ := (isNetworkOwner_iff _ _ _).mp h1
    obtain ⟨n2, hf2, hp2⟩ := (isNetworkOwner_iff _ _ _).mp h2
    rw [hf1] at hf2
    cases hf2
    rcases prefixes_comparable _ _ _ ((HasPrefix_iff _ _).mp hp1)
      ((HasPrefix_iff _ _).mp hp2) with h | h
    · exact hab h
    · exact hba h
  · intro n a b hab hba
    rw [filterCandidates_eq, filterCandidates_eq]
    by_cases h1 : HasPrefix (afterFirstSlash n.Name) (ConstructNetworkPrefix a) = true
    · by_cases h2 : HasPrefix (afterFirstSlash n.Name) (ConstructNetworkPrefix b) = true
      · exfalso
        rcases prefixes_comparable _ _ _ ((HasPrefix_iff _ _).mp h1)
          ((HasPrefix_iff _ _).mp h2) with h | h
        · exact hab h
        · exact hba h
      · right
        simp [List.filter_cons, h2]
    · left
      simp [List.filter_cons, h1]
  · intro a b hne ha hb
    exact ⟨prefix_not_prefix_of_no_dash a b hne ha hb,
      prefix_not_prefix_of_no_dash b a (fun e => hne e.symm) hb ha⟩

/-- Witness for C20: the tenants `foo` and `bar` and the network `sfoo-net1`. -/
theorem network_tenant_isolation_witness :
    ¬ (IsResourceOwner
          { TenancyLabel := "com.swarm.tenant.0", AuthZTenantIdHeaderName := "X-Auth-TenantId" }
          { Containers := [], Networks := [{ ID := "n1", Name := "sfoo-net1" }] }
          "foo" "n1" "network" = true ∧
       IsResourceOwner
          { TenancyLabel := "com.swarm.tenant.0", AuthZTenantIdHeaderName := "X-Auth-TenantId" }
          { Containers := [], Networks := [{ ID := "n1", Name := "sfoo-net1" }] }
          "bar" "n1" "network" = true) ∧
    (filterCandidates (ConstructNetworkPrefix "foo") [{ ID := "n1", Name := "sfoo-net1" }] =
        .ok [] ∨
     filterCandidates (ConstructNetworkPrefix "bar") [{ ID := "n1", Name := "sfoo-net1" }] =
        .ok []) ∧
    (¬ (ConstructNetworkPrefix "foo").data <+: (ConstructNetworkPrefix "bar").data ∧
     ¬ (ConstructNetworkPrefix "bar").data <+: (ConstructNetworkPrefix "foo").data) :=
  ⟨network_tenant_isolation.1 _ _ "n1" "foo" "bar" (by decide) (by decide),
   network_tenant_isolation.2.1 _ "foo" "bar" (by decide) (by decide),
   network_tenant_isolation.2.2 "foo" "bar" (by decide) (by decide) (by decide)⟩

/-- C20 (counterexample). The tenants `a` and `a-b` have different lowercase
forms, yet both own the network named `sa-b-net`, and the filter retains it for
both: the prefix `sa-` of the first is a prefix of the prefix `sa-b-` of the
second. -/
theorem network_tenant_isolation_counterexample :
    ToLower "a" ≠ ToLower "a-b" ∧
    IsResourceOwner
      { TenancyLabel := "com.swarm.tenant.0", AuthZTenantIdHeaderName := "X-Auth-TenantId" }
      { Containers := [], Networks := [{ ID := "n1", Name := "sa-b-net" }] }
      "a" "n1" "network" = true ∧
    IsResourceOwner
      { TenancyLabel := "com.swarm.tenant.0", AuthZTenantIdHeaderName := "X-Auth-TenantId" }
      { Containers := [], Networks := [{ ID := "n1", Name := "sa-b-net" }] }
      "a-b" "n1" "network" = true ∧
    filterCandidates (ConstructNetworkPrefix "a") [{ ID := "n1", Name := "sa-b-net" }] =
      .ok [{ ID := "n1", Name := "b-net" }] ∧
    filterCandidates (ConstructNetworkPrefix "a-b") [{ ID := "n1", Name := "sa-b-net" }] =
      .ok [{ ID := "n1", Name := "net" }] := by
  refine ⟨?_, ?_, ?_, ?_, ?_⟩ <;> decide

/-! ## The label scrub -/

theorem containsList_iff (sub s : List Char) : containsList sub s = true ↔ sub <:+: s := by
  induction s with
  | nil => simp [containsList]
  | cons c s ih =>
    simp only [containsList, Bool.or_eq_true, List.isPrefixOf_iff_prefix, ih]
    exact List.infix_cons_iff.symm

theorem Contains_iff (s sub : String) : Contains s sub = true ↔ sub.data <:+: s.data :=
  containsList_iff _ _

theorem replaceFrom_skip (old new : List Char) (x rest : List Char) :
    replaceFrom old new x.length (x ++ rest) = replaceFrom old new 0 rest := by
  induction x with
  | nil => rfl
  | cons c x ih => simpa [replaceFrom] using ih

theorem replaceFrom_match (old new rest : List Char) (hold : old ≠ []) :
    replaceFrom old new 0 (old ++ rest) = new ++ replaceFrom old new 0 rest := by
  cases old with
  | nil => exact absurd rfl hold
  | cons c old =>
    have hp : (c :: old).isPrefixOf (c :: (old ++ rest)) = true := by
      rw [List.isPrefixOf_iff_prefix]
      exact List.prefix_append _ _
    have e : replaceFrom (c :: old) new 0 (c :: (old ++ rest)) =
        if (c :: old).isPrefixOf (c :: (old ++ rest)) = true then
          new ++ replaceFrom (c :: old) new ((c :: old).length - 1) (old ++ rest)
        else c :: replaceFrom (c :: old) new 0 (old ++ rest) := rfl
    rw [List.cons_append, e, if_pos hp]
    simp only [List.length_cons, Nat.add_sub_cancel]
    rw [replaceFrom_skip]

theorem replaceFrom_no_match (old new : List Char) (c : Char) (s : List Char)
    (h : ¬ old <+: c :: s) :
    replaceFrom old new 0 (c :: s) = c :: replaceFrom old new 0 s := by
  have hp : ¬ (old.isPrefixOf (c :: s) = true) := by
    rw [List.isPrefixOf_iff_prefix]
    exact h
  have e : replaceFrom old new 0 (c :: s) =
      if old.isPrefixOf (c :: s) = true then new ++ replaceFrom old new (old.length - 1) s
      else c :: replaceFrom old new 0 s := rfl
  rw [e, if_neg hp]

theorem replaceFrom_of_absent (old new s : List Char) (h : ¬ old <:+: s) :
    replaceFrom old new 0 s = s := by
  induction s with
  | nil => rfl
  | cons c s ih =>
    have h1 : ¬ old <+: c :: s := fun hp => h hp.isInfix
    have h2 : ¬ old <:+: s := fun hi => h (List.infix_cons hi)
    rw [replaceFrom_no_match old new c s h1, ih h2]

theorem Replace_of_not_contains (s old new : String) (h : Contains s old = false) :
    Replace s old new = s := by
  have hi : ¬ old.data <:+: s.data := by
    rw [← Contains_iff, h]
    simp
  have hne : old.data ≠ [] := by
    intro e
    apply hi
    rw [e]
    exact List.nil_infix
  simp only [Replace, hne, if_false]
  rw [replaceFrom_of_absent _ _ _ hi]

theorem Replace_empty_empty (s : String) : Replace s "" "" = s := by
  have h1 : ("" : String).data = [] := rfl
  simp only [Replace, h1, if_true, List.nil_append]
  apply String.ext
  show s.data.flatMap (fun c => [c]) = s.data
  induction s.data with
  | nil => rfl
  | cons c l ih => simp [List.flatMap_cons, ih]

theorem CleanUpLabeling_fixed (headers : Headers) (rHeader : HTTPHeader) (s : String)
    (h1 : Contains s headers.TenancyLabel = false)
    (h2 : rHeader.Get headers.AuthZTenantIdHeaderName = "" ∨
      Contains s (rHeader.Get headers.AuthZTenantIdHeaderName) = false)
    (h3 : Contains s ",\" \":\" \"" = false) :
    CleanUpLabeling headers rHeader s = s := by
  simp only [CleanUpLabeling]
  rw [Replace_of_not_contains s _ _ h1]
  have e : Replace s (rHeader.Get headers.AuthZTenantIdHeaderName) "" = s := by
    rcases h2 with h | h
    · rw [h]
      exact Replace_empty_empty s
    · exact Replace_of_not_contains s _ _ h
  rw [e, Replace_of_not_contains s _ _ h3]

/-- C15 (as amended). Label scrub idempotence: for every response body and every
tenant-identity header value such that the once-scrubbed body contains no
occurrence of the tenancy-label key, of the header value (unless it is empty)
and of the text `," ":" "`, applying `CleanUpLabeling` to the output of
`CleanUpLabeling` yields the same bytes as applying it once; this is so in
particular for every body that itself contains none of the three, which the
scrub returns unchanged. -/
theorem label_scrub_idempotent (headers : Headers) (rHeader : HTTPHeader) (body : String) :
    (Contains (CleanUpLabeling headers rHeader body) headers.TenancyLabel = false →
      (rHeader.Get headers.AuthZTenantIdHeaderName = "" ∨
        Contains (CleanUpLabeling headers rHeader body)
          (rHeader.Get headers.AuthZTenantIdHeaderName) = false) →
      Contains (CleanUpLabeling headers rHeader body) ",\" \":\" \"" = false →
      CleanUpLabeling headers rHeader (CleanUpLabeling headers rHeader body) =
        CleanUpLabeling headers rHeader body) ∧
    (Contains body headers.TenancyLabel = false →
      (rHeader.Get headers.AuthZTenantIdHeaderName = "" ∨
        Contains body (rHeader.Get headers.AuthZTenantIdHeaderName) = false) →
      Contains body ",\" \":\" \"" = false →
      CleanUpLabeling headers rHeader body = body ∧
      CleanUpLabeling headers rHeader (CleanUpLabeling headers rHeader body) =
        CleanUpLabeling headers rHeader body) := by
  refine ⟨?_, ?_⟩
  · intro h1 h2 h3
    exact CleanUpLabeling_fixed headers rHeader _ h1 h2 h3
  · intro h1 h2 h3
    have e := CleanUpLabeling_fixed headers rHeader body h1 h2 h3
    exact ⟨e, by rw [e, e]⟩

/-- Witness for C15: a body in which the label was already replaced. -/
theorem label_scrub_idempotent_witness :
    CleanUpLabeling
      { TenancyLabel := "com.swarm.tenant.0", AuthZTenantIdHeaderName := "X-Auth-TenantId" }
      { Get := fun _ => "t1" }
      (CleanUpLabeling
        { TenancyLabel := "com.swarm.tenant.0", AuthZTenantIdHeaderName := "X-Auth-TenantId" }
        { Get := fun _ => "t1" } "\x7b\"Labels\":\x7b\"a\":\"b\",\"com.swarm.tenant.0\":\"t1\"\x7d\x7d") =
    CleanUpLabeling
      { TenancyLabel := "com.swarm.tenant.0", AuthZTenantIdHeaderName := "X-Auth-TenantId" }
      { Get := fun _ => "t1" } "\x7b\"Labels\":\x7b\"a\":\"b\",\"com.swarm.tenant.0\":\"t1\"\x7d\x7d" :=
  (label_scrub_idempotent
    { TenancyLabel := "com.swarm.tenant.0", AuthZTenantIdHeaderName := "X-Auth-TenantId" }
    { Get := fun _ => "t1" } "\x7b\"Labels\":\x7b\"a\":\"b\",\"com.swarm.tenant.0\":\"t1\"\x7d\x7d").1
    (by decide) (Or.inr (by decide)) (by decide)

/-- C15 (counterexample). The body `aabb` contains no occurrence of the
tenancy-label key; with the header value `ab` one scrub returns `ab` and a
second scrub returns the empty body. -/
theorem label_scrub_idempotent_counterexample :
    Contains "aabb" "com.swarm.tenant.0" = false ∧
    CleanUpLabeling
      { TenancyLabel := "com.swarm.tenant.0", AuthZTenantIdHeaderName := "X-Auth-TenantId" }
      { Get := fun _ => "ab" } "aabb" = "ab" ∧
    CleanUpLabeling
      { TenancyLabel := "com.swarm.tenant.0", AuthZTenantIdHeaderName := "X-Auth-TenantId" }
      { Get := fun _ => "ab" }
      (CleanUpLabeling
        { TenancyLabel := "com.swarm.tenant.0", AuthZTenantIdHeaderName := "X-Auth-TenantId" }
        { Get := fun _ => "ab" } "aabb") = "" := by
  refine ⟨?_, ?_, ?_⟩ <;> decide

theorem joinWith_cons_of_ne_nil (sep p : List Char) (ps : List (List Char)) (h : ps ≠ []) :
    joinWith sep (p :: ps) = p ++ sep ++ joinWith sep ps := by
  cases ps with
  | nil => exact absurd rfl h
  | cons q ps => rfl

theorem joinWith_cons_cons (sep : List Char) (c : Char) (p : List Char)
    (ps : List (List Char)) :
    joinWith sep ((c :: p) :: ps) = c :: joinWith sep (p :: ps) := by
  cases ps with
  | nil => rfl
  | cons q ps => simp [joinWith]

theorem joinWith_starts_with_head (sep p : List Char) (ps : List (List Char)) :
    p <+: joinWith sep (p :: ps) := by
  cases ps with
  | nil => exact List.prefix_refl _
  | cons q ps =>
    simp only [joinWith, List.append_assoc]
    exact List.prefix_append _ _

theorem replaceFrom_pieces (old new : List Char) (hold : old ≠ []) :
    ∀ (n : Nat) (s : List Char), s.length ≤ n →
      ∃ pieces : List (List Char), pieces ≠ [] ∧ s = joinWith old pieces ∧
        replaceFrom old new 0 s = joinWith new pieces ∧ ∀ p ∈ pieces, ¬ old <:+: p := by
  have hnil : ∃ pieces : List (List Char), pieces ≠ [] ∧ ([] : List Char) = joinWith old pieces ∧
      replaceFrom old new 0 [] = joinWith new pieces ∧ ∀ p ∈ pieces, ¬ old <:+: p := by
    refine ⟨[[]], by simp, rfl, rfl, ?_⟩
    intro p hp
    rw [List.mem_singleton.mp hp, List.infix_nil]
    exact hold
  intro n
  induction n with
  | zero =>
    intro s hs
    have : s = [] := List.length_eq_zero.mp (Nat.le_zero.mp hs)
    subst this
    exact hnil
  | succ n ih =>
    intro s hs
    cases s with
    | nil => exact hnil
    | cons c s =>
      by_cases hp : old <+: c :: s
      · obtain ⟨rest, hr⟩ := hp
        have hlen : rest.length ≤ n := by
          have h1 := congrArg List.length hr
          have h2 : 0 < old.length := List.length_pos.mpr hold
          simp only [List.length_append, List.length_cons] at h1 hs
          omega
        obtain ⟨ps, hne, e1, e2, hfree⟩ := ih rest hlen
        refine ⟨[] :: ps, by simp, ?_, ?_, ?_⟩
        · rw [joinWith_cons_of_ne_nil _ _ _ hne, ← hr, ← e1]
          simp
        · rw [joinWith_cons_of_ne_nil _ _ _ hne, ← hr, replaceFrom_match old new rest hold, e2]
          simp
        · intro p hm
          rcases List.mem_cons.mp hm with h | h
          · rw [h, List.infix_nil]
            exact hold
          · exact hfree p h
      · have hlen : s.length ≤ n := by
          simp only [List.length_cons] at hs
          omega
        obtain ⟨ps, hne, e1, e2, hfree⟩ := ih s hlen
        cases ps with
        | nil => exact absurd rfl hne
        | cons p0 ps =>
          refine ⟨(c :: p0) :: ps, by simp, ?_, ?_, ?_⟩
          · rw [joinWith_cons_cons, ← e1]
          · rw [joinWith_cons_cons, replaceFrom_no_match old new c s hp, e2]
          · intro p hm
            rcases List.mem_cons.mp hm with h | h
            · rw [h]
              intro hi
              rcases List.infix_cons_iff.mp hi with h1 | h1
              · apply hp
                have h2 : c :: p0 <+: c :: s := by
                  rw [e1]
                  exact (List.prefix_cons_inj c).mpr (joinWith_starts_with_head old p0 ps)
                exact h1.trans h2
              · exact hfree p0 (List.mem_cons_self _ _) h1
            · exact hfree p (List.mem_cons_of_mem _ h)

theorem Replace_singlePass (s old new : String) (hold : old ≠ "") :
    IsSinglePass old.data new.data s.data (Replace s old new).data := by
  have hne : old.data ≠ [] := data_ne_nil old hold
  obtain ⟨ps, _, e1, e2, hfree⟩ := replaceFrom_pieces old.data new.data hne _ s.data (Nat.le_refl _)
  refine ⟨ps, e1, ?_, hfree⟩
  simp only [Replace, hne, if_false]
  exact e2

theorem infix_append_sep (old a b : List Char) (c : Char) (hc : c ∉ old)
    (h : old <:+: a ++ c :: b) : old <:+: a ∨ old <:+: b := by
  obtain ⟨s, t, e⟩ := h
  rw [List.append_assoc] at e
  rcases List.append_eq_append_iff.mp e with ⟨a1, e1, e2⟩ | ⟨c1, e1, e2⟩
  · rcases List.append_eq_append_iff.mp e2 with ⟨x, e3, e4⟩ | ⟨y, e3, e4⟩
    · left
      rw [e1, e3]
      exact ⟨s, x, by simp⟩
    · cases y with
      | nil =>
        left
        rw [e1]
        simp only [List.append_nil] at e3
        rw [e3]
        exact ⟨s, [], by simp⟩
      | cons d y =>
        exfalso
        simp only [List.cons_append, List.cons.injEq] at e4
        apply hc
        rw [e3, e4.1]
        simp
  · cases c1 with
    | nil =>
      simp only [List.nil_append] at e2
      cases old with
      | nil =>
        left
        exact List.nil_infix
      | cons d old =>
        exfalso
        simp only [List.cons_append, List.cons.injEq] at e2
        apply hc
        rw [e2.1]
        exact List.mem_cons_self _ _
    | cons d c1 =>
      right
      simp only [List.cons_append, List.cons.injEq] at e2
      rw [e2.2]
      exact ⟨c1, t, by simp⟩

theorem not_infix_joinWith (old : List Char) (c : Char) (hold : old ≠ []) (hc : c ∉ old)
    (pieces : List (List Char)) (hfree : ∀ p ∈ pieces, ¬ old <:+: p) :
    ¬ old <:+: joinWith [c] pieces := by
  induction pieces with
  | nil =>
    rw [joinWith, List.infix_nil]
    exact hold
  | cons p ps ih =>
    cases ps with
    | nil => exact hfree p (List.mem_cons_self _ _)
    | cons q ps =>
      intro hi
      have e : joinWith [c] (p :: q :: ps) = p ++ c :: joinWith [c] (q :: ps) := by
        simp [joinWith]
      rw [e] at hi
      rcases infix_append_sep old p _ c hc hi with h | h
      · exact hfree p (List.mem_cons_self _ _) h
      · exact ih (fun x hx => hfree x (List.mem_cons_of_mem _ hx)) h

/-- C16 (as amended). The label scrub removes the occurrences met by one
left-to-right pass per token: for every response body, non-empty
tenancy-label key and non-empty tenant-identity header value, (a) the body is
cut at occurrences of the key into pieces none of which contains the key, and
the pieces are written with one space between them, (b) the result is cut in
the same way at occurrences of the header value and the pieces are written one
after the other, (c) likewise for the text `," ":" "`, which gives the
returned bytes.  After (a) the body contains no occurrence of a key that has no
space in it. -/
theorem label_scrub_single_pass (headers : Headers) (rHeader : HTTPHeader) (body : String)
    (hkey : headers.TenancyLabel ≠ "")
    (hval : rHeader.Get headers.AuthZTenantIdHeaderName ≠ "") :
    IsSinglePass headers.TenancyLabel.data [' '] body.data
      (Replace body headers.TenancyLabel " ").data ∧
    IsSinglePass (rHeader.Get headers.AuthZTenantIdHeaderName).data []
      (Replace body headers.TenancyLabel " ").data
      (Replace (Replace body headers.TenancyLabel " ")
        (rHeader.Get headers.AuthZTenantIdHeaderName) "").data ∧
    IsSinglePass (",\" \":\" \"" : String).data []
      (Replace (Replace body headers.TenancyLabel " ")
        (rHeader.Get headers.AuthZTenantIdHeaderName) "").data
      (CleanUpLabeling headers rHeader body).data ∧
    (' ' ∉ headers.TenancyLabel.data →
      Contains (Replace body headers.TenancyLabel " ") headers.TenancyLabel = false) := by
  refine ⟨Replace_singlePass body _ " " hkey, Replace_singlePass _ _ "" hval,
    Replace_singlePass _ _ "" (by decide), ?_⟩
  intro hsp
  obtain ⟨ps, _, e2, hfree⟩ := Replace_singlePass body headers.TenancyLabel " " hkey
  cases h : Contains (Replace body headers.TenancyLabel " ") headers.TenancyLabel with
  | false => rfl
  | true =>
    exfalso
    have hi := (Contains_iff _ _).mp h
    rw [e2] at hi
    exact not_infix_joinWith _ ' ' (data_ne_nil _ hkey) hsp ps hfree hi

/-- Witness for C16: a body with one labelled container of tenant `t1`. -/
theorem label_scrub_single_pass_witness :
    Contains
      (Replace "\x7b\"Labels\":\x7b\"a\":\"b\",\"com.swarm.tenant.0\":\"t1\"\x7d\x7d" "com.swarm.tenant.0" " ")
      "com.swarm.tenant.0" = false :=
  (label_scrub_single_pass
    { TenancyLabel := "com.swarm.tenant.0", AuthZTenantIdHeaderName := "X-Auth-TenantId" }
    { Get := fun _ => "t1" } "\x7b\"Labels\":\x7b\"a\":\"b\",\"com.swarm.tenant.0\":\"t1\"\x7d\x7d"
    (by decide) (by decide)).2.2.2 (by decide)

/-- C16 (counterexample). With the non-empty header value `ab`, the body `aabb`
is returned as `ab`, which is the header value, and the body
`com.swarm.tenabant.0` is returned as the tenancy-label key. -/
theorem label_scrub_single_pass_counterexample :
    CleanUpLabeling
      { TenancyLabel := "com.swarm.tenant.0", AuthZTenantIdHeaderName := "X-Auth-TenantId" }
      { Get := fun _ => "ab" } "aabb" = "ab" ∧
    Contains "ab" "ab" = true ∧
    CleanUpLabeling
      { TenancyLabel := "com.swarm.tenant.0", AuthZTenantIdHeaderName := "X-Auth-TenantId" }
      { Get := fun _ => "ab" } "com.swarm.tenabant.0" = "com.swarm.tenant.0" ∧
    Contains "com.swarm.tenant.0" "com.swarm.tenant.0" = true := by
  refine ⟨?_, ?_, ?_, ?_⟩ <;> decide

end Utils
